import Mathlib

/-!
xt_FULLCONENAT: the mapping table, the validity checker, the port allocator,
the dying-flow collector and the per-packet target.

A shallow embedding of `xt_FULLCONENAT.c`.

Memory model.  A `struct nat_mapping *` is the address of a kmalloc'ed object; it is
modelled by a natural number `addr` stored in the object itself, and `NULL` is `none`.
The two kernel hash tables `mapping_table_by_ext_port` and `mapping_table_by_int_src`
always hold the same objects (`allocate_mapping` adds to both, `kill_mapping` removes
from both).  `hash_add` puts a node at the head of its bucket and
`hash_for_each_possible` walks one bucket from the head; every node that passes the
field comparison of a lookup lies in the bucket that is walked (the hash key is a
function of the compared fields), so a lookup returns the most recently added mapping
of the whole table that passes the comparison.  The table is therefore a single list
of mappings, most recently allocated first.

Collaborators.  The live-flow registry behind `net` and `zone` is a function from tuples
to answers; different calls of a function of the module may see different registries.
Within one run of `fullconenat_tg` the queries before `nf_nat_setup_info` see one
registry and the queries of the `check_mapping` that follows `nf_nat_setup_info` see a
second one, which may report as ended flows that the first reported as existing.
`kmalloc`, `get_random_u32`, `ip_dev_find`, `get_device_ip` and `nf_nat_setup_info` are
inputs of the functions that call them.

Machine integers.  `uint16_t` and `__be32` values are natural numbers; results that C
truncates to 16 bits are reduced modulo 65536 explicitly.  `be16_to_cpu` and
`cpu_to_be16` are inverse bijections and ports are kept in host order throughout.
`refer_count` is a C `int` and is modelled by an unbounded integer: it moves by one for
each flow record that is linked or unlinked.
-/

namespace FullConeNat

/-! ## Constants of the kernel headers -/

/-- Flag `NF_NAT_RANGE_MAP_IPS` of `linux/netfilter/nf_nat.h`, bit 0. -/
def NF_NAT_RANGE_MAP_IPS : Nat := 1

/-- Flag `NF_NAT_RANGE_PROTO_SPECIFIED` of `linux/netfilter/nf_nat.h`, bit 1. -/
def NF_NAT_RANGE_PROTO_SPECIFIED : Nat := 2

/-- Flag `NF_NAT_RANGE_PROTO_RANDOM` of `linux/netfilter/nf_nat.h`, bit 2. -/
def NF_NAT_RANGE_PROTO_RANDOM : Nat := 4

/-- Flag `NF_NAT_RANGE_PROTO_RANDOM_FULLY`, defined as `(1 << 4)` in the source. -/
def NF_NAT_RANGE_PROTO_RANDOM_FULLY : Nat := 16

/-- Protocol number of UDP. -/
def IPPROTO_UDP : Nat := 17

/-- Verdict `NF_ACCEPT`. -/
def NF_ACCEPT : Nat := 1

/-- Verdict `XT_CONTINUE`, the all-ones 32-bit word. -/
def XT_CONTINUE : Nat := 4294967295

/-- Hook number of the pre-routing hook. -/
def NF_INET_PRE_ROUTING : Nat := 0

/-- Hook number of the post-routing hook. -/
def NF_INET_POST_ROUTING : Nat := 4

/-- Event bit number `IPCT_DESTROY` of the conntrack event cache. -/
def IPCT_DESTROY : Nat := 2

/-! ## Data model -/

/-- The fields of `struct nf_conntrack_tuple` that the module reads or compares:
source address and port, destination address, port and protocol. -/
structure nf_conntrack_tuple where
  src_ip : Nat
  src_port : Nat
  dst_ip : Nat
  dst_port : Nat
  protonum : Nat
deriving DecidableEq, Repr

/-- A `struct nat_mapping` together with the address `addr` it was allocated at.
`original_tuple_list` is the linked list of flow records, head first. -/
structure nat_mapping where
  addr : Nat
  port : Nat
  ifindex : Int
  int_addr : Nat
  int_port : Nat
  refer_count : Int
  original_tuple_list : List nf_conntrack_tuple
deriving DecidableEq, Repr

/-- A `struct tuple_list`: one pending destroy record. -/
structure tuple_list where
  tuple_original : nf_conntrack_tuple
  tuple_reply : nf_conntrack_tuple
deriving DecidableEq, Repr

/-- The mapping table: all live mappings, most recently allocated first. -/
abbrev Table := List nat_mapping

/-- The live-flow registry behind `net` and `zone`: `net x` is true exactly when
`nf_conntrack_find_get(net, zone, x)` returns a non-NULL entry. -/
abbrev Registry := nf_conntrack_tuple → Bool

/-- The fields of `struct nf_nat_ipv4_range` (the configured `mr->range[0]`). -/
structure nf_nat_ipv4_range where
  flags : Nat
  min_ip : Nat
  max_ip : Nat
  min : Nat
  max : Nat
deriving DecidableEq, Repr

/-- The translation spec `newrange` handed to `nf_nat_setup_info`. -/
structure nf_nat_range where
  flags : Nat
  min_addr : Nat
  max_addr : Nat
  min_proto : Nat
  max_proto : Nat
deriving DecidableEq, Repr

/-- Conversion of a C `int` value to `uint16_t`. -/
def to_u16 (x : Int) : Nat := (x % 65536).toNat

/-! ## Mapping table -/

/-- The object a pointer refers to: the mapping allocated at address `p`. -/
def deref : Table → Nat → Option nat_mapping
  | [], _ => none
  | m :: rest, p => if m.addr = p then some m else deref rest p

/-- A write through the pointer `p`: the object at `p` becomes `f` of itself. -/
def update (t : Table) (p : Nat) (f : nat_mapping → nat_mapping) : Table :=
  t.map (fun m => if m.addr = p then f m else m)

/-- The function `allocate_mapping`: `kmalloc` is the result of the allocation (`none`
for NULL); the new mapping has no flow record and goes to the head of both chains. -/
def allocate_mapping (t : Table) (kmalloc : Option Nat) (int_addr int_port port : Nat)
    (ifindex : Int) : Option Nat × Table :=
  match kmalloc with
  | none => (none, t)
  | some p_new =>
    (some p_new,
      { addr := p_new, port := port, ifindex := ifindex, int_addr := int_addr,
        int_port := int_port, refer_count := 0, original_tuple_list := [] } :: t)

/-- The function `add_original_tuple_to_mapping`: `kmalloc_ok` tells whether the
allocation of the list item succeeded; `list_add` links the item at the head. -/
def add_original_tuple_to_mapping (t : Table) (kmalloc_ok : Bool) (mapping : Nat)
    (original_tuple : nf_conntrack_tuple) : Table :=
  if kmalloc_ok then
    update t mapping (fun m =>
      { m with original_tuple_list := original_tuple :: m.original_tuple_list,
               refer_count := m.refer_count + 1 })
  else t

/-- The function `get_mapping_by_ext_port`. -/
def get_mapping_by_ext_port : Table → Nat → Int → Option Nat
  | [], _, _ => none
  | p_current :: rest, port, ifindex =>
    if p_current.port = port ∧ p_current.ifindex = ifindex then some p_current.addr
    else get_mapping_by_ext_port rest port ifindex

/-- The function `get_mapping_by_int_src`. -/
def get_mapping_by_int_src : Table → Nat → Nat → Option Nat
  | [], _, _ => none
  | p_current :: rest, src_ip, src_port =>
    if p_current.int_addr = src_ip ∧ p_current.int_port = src_port then some p_current.addr
    else get_mapping_by_int_src rest src_ip src_port

/-- The function `kill_mapping`: a NULL argument is ignored; otherwise the flow records
are freed with the mapping and the mapping leaves both chains. -/
def kill_mapping (t : Table) (mapping : Option Nat) : Table :=
  match mapping with
  | none => t
  | some p => t.filter (fun m => decide (m.addr ≠ p))

/-- The function `destroy_mappings`: every mapping of the table is killed in turn. -/
def destroy_mappings (t : Table) : Table :=
  t.foldl (fun acc p_current => kill_mapping acc (some p_current.addr)) t

/-! ## Validity checker -/

/-- The loop of `check_mapping` over the flow records of one mapping: a record whose
tuple the registry does not find is unlinked and `refer_count` is decremented. -/
def check_mapping_loop (net : Registry) :
    List nf_conntrack_tuple → Int → List nf_conntrack_tuple × Int
  | [], refer_count => ([], refer_count)
  | item :: rest, refer_count =>
    if net item then
      let r := check_mapping_loop net rest refer_count
      (item :: r.1, r.2)
    else check_mapping_loop net rest (refer_count - 1)

/-- The mapping after the loop of `check_mapping` has run over it. -/
def check_mapping_prune (net : Registry) (m : nat_mapping) : nat_mapping :=
  let r := check_mapping_loop net m.original_tuple_list m.refer_count
  { m with original_tuple_list := r.1, refer_count := r.2 }

/-- The function `check_mapping`: the result and the table afterwards.  A pointer to no
live mapping is never passed by the callers; it is answered like NULL. -/
def check_mapping (t : Table) (mapping : Option Nat) (net : Registry) : Bool × Table :=
  match mapping with
  | none => (false, t)
  | some p =>
    match deref t p with
    | none => (false, t)
    | some m =>
      if m.port = 0 ∨ m.int_addr = 0 ∨ m.int_port = 0 ∨ m.ifindex = -1 then (false, t)
      else
        let t1 := update t p (check_mapping_prune net)
        if (check_mapping_prune net m).refer_count ≤ 0 then (false, kill_mapping t1 (some p))
        else (true, t1)

/-! ## Dying-flow collector -/

/-- The inner loop of `handle_dying_tuples` over the flow records of the resolved
mapping: every record equal to the dying original tuple is unlinked and counted off. -/
def expire_loop (dying : nf_conntrack_tuple) :
    List nf_conntrack_tuple → Int → List nf_conntrack_tuple × Int
  | [], refer_count => ([], refer_count)
  | item :: rest, refer_count =>
    if item = dying then expire_loop dying rest (refer_count - 1)
    else
      let r := expire_loop dying rest refer_count
      (item :: r.1, r.2)

/-- The resolved mapping after the inner loop of `handle_dying_tuples`. -/
def expire (dying : nf_conntrack_tuple) (m : nat_mapping) : nat_mapping :=
  let r := expire_loop dying m.original_tuple_list m.refer_count
  { m with original_tuple_list := r.1, refer_count := r.2 }

/-- The mapping one pending record resolves to: by the source endpoint of the original
tuple, and only if that finds nothing by the source endpoint of the reply tuple. -/
def resolve_dying (t : Table) (item : tuple_list) : Option Nat :=
  match get_mapping_by_int_src t item.tuple_original.src_ip item.tuple_original.src_port with
  | some p => some p
  | none => get_mapping_by_int_src t item.tuple_reply.src_ip item.tuple_reply.src_port

/-- One iteration of the outer loop of `handle_dying_tuples`.  The field
`mapping->refer_count` is read through `deref`; the pointer comes from a lookup, so the
`none` branch is never taken. -/
def handle_dying_tuple (t : Table) (item : tuple_list) : Table :=
  match resolve_dying t item with
  | none => t
  | some p =>
    let t1 := update t p (expire item.tuple_original)
    match deref t1 p with
    | none => t1
    | some m => if m.refer_count ≤ 0 then kill_mapping t1 (some p) else t1

/-- The function `handle_dying_tuples`: the pending list is walked from its head and
each record is unlinked after it has been processed.  The result is the table and the
pending list afterwards. -/
def handle_dying_tuples : Table → List tuple_list → Table × List tuple_list
  | t, [] => (t, [])
  | t, item :: rest => handle_dying_tuples (handle_dying_tuple t item) rest

/-- The function `ct_event_cb` on the pending list: `ct` is the conntrack of the event
(`none` for NULL) as its original and reply tuples, `kmalloc_ok` the outcome of the
allocation; `list_add` links the new record at the head of `dying_tuple_list`. -/
def ct_event_cb (dying_tuple_list : List tuple_list) (events : Nat)
    (ct : Option (nf_conntrack_tuple × nf_conntrack_tuple)) (kmalloc_ok : Bool) :
    List tuple_list :=
  match ct with
  | none => dying_tuple_list
  | some (ct_tuple_original, ct_tuple_reply) =>
    if events &&& (1 <<< IPCT_DESTROY) = 0 then dying_tuple_list
    else if ct_tuple_original.protonum ≠ IPPROTO_UDP then dying_tuple_list
    else if kmalloc_ok then
      { tuple_original := ct_tuple_original, tuple_reply := ct_tuple_reply } :: dying_tuple_list
    else dying_tuple_list

/-! ## Port allocator -/

/-- The local `min` of `find_appropriate_port`. -/
def range_min (range : nf_nat_ipv4_range) : Nat :=
  if range.flags &&& NF_NAT_RANGE_PROTO_SPECIFIED ≠ 0 then range.min else 1024

/-- The local `range_size` of `find_appropriate_port`, a `uint16_t`: the difference is
computed in `int` and truncated to 16 bits by the assignment. -/
def range_size (range : nf_nat_ipv4_range) : Nat :=
  if range.flags &&& NF_NAT_RANGE_PROTO_SPECIFIED ≠ 0 then
    to_u16 ((range.max : Int) - (range.min : Int) + 1)
  else to_u16 ((65535 : Int) - 1024 + 1)

/-- The `for` loop of `find_appropriate_port` from index `i` on, with `todo` iterations
left (`todo = range_size - i`): `some selected` when the loop returns a port, `none`
when it runs to its end without returning. -/
def find_appropriate_port_loop (net : Registry) (min start size : Nat) (ifindex : Int) :
    Nat → Nat → Table → Option Nat × Table
  | 0, _, t => (none, t)
  | todo + 1, i, t =>
    let selected := (min + (start + i) % size) % 65536
    match get_mapping_by_ext_port t selected ifindex with
    | none => (some selected, t)
    | some mapping =>
      match check_mapping t (some mapping) net with
      | (false, t1) => (some selected, t1)
      | (true, t1) => find_appropriate_port_loop net min start size ifindex todo (i + 1) t1

/-- The part of `find_appropriate_port` from the `for` loop to the end: the scan from
offset `start`, then the override of the mapping at `min + start`. -/
def find_appropriate_port_scan (t : Table) (net : Registry) (min start size : Nat)
    (ifindex : Int) : Nat × Table :=
  match find_appropriate_port_loop net min start size ifindex size 0 t with
  | (some selected, t1) => (selected, t1)
  | (none, t1) =>
    let selected := (min + start) % 65536
    (selected, kill_mapping t1 (get_mapping_by_ext_port t1 selected ifindex))

/-- The function `find_appropriate_port`; `get_random_u32` is the value the random
source returns when it is asked.  The result is `none` when the function divides by
zero (`get_random_u32() % range_size` with `range_size` equal to 0), otherwise the port
and the table afterwards. -/
def find_appropriate_port (t : Table) (net : Registry) (get_random_u32 : Nat)
    (original_port : Nat) (ifindex : Int) (range : nf_nat_ipv4_range) :
    Option (Nat × Table) :=
  let min := range_min range
  let size := range_size range
  if range.flags &&& NF_NAT_RANGE_PROTO_RANDOM ≠ 0
      ∨ range.flags &&& NF_NAT_RANGE_PROTO_RANDOM_FULLY ≠ 0 then
    if size = 0 then none
    else
      some (find_appropriate_port_scan t net min ((get_random_u32 % size) % 65536) size ifindex)
  else if (original_port ≥ min ∧ (original_port : Int) ≤ (min : Int) + (size : Int) - 1)
      ∨ ¬ (range.flags &&& NF_NAT_RANGE_PROTO_SPECIFIED ≠ 0) then
    match get_mapping_by_ext_port t original_port ifindex with
    | none => some (original_port, t)
    | some mapping =>
      match check_mapping t (some mapping) net with
      | (false, t1) => some (original_port, t1)
      | (true, t1) => some (find_appropriate_port_scan t1 net min 0 size ifindex)
  else some (find_appropriate_port_scan t net min 0 size ifindex)

/-! ## Translation coordinator -/

/-- What one run of `fullconenat_tg` reads from the packet and the rule: the hook, the
interface indices of `xt_in(par)` and `xt_out(par)`, the configured `mr->range[0]` and
the original-direction tuple of the packet's conntrack. -/
structure tg_packet where
  hooknum : Nat
  in_ifindex : Int
  out_ifindex : Int
  range : nf_nat_ipv4_range
  tuple : nf_conntrack_tuple

/-- What one run of `fullconenat_tg` obtains from its collaborators: the registry as the
lookups before `nf_nat_setup_info` find it, the registry as the lookups of the
`check_mapping` after `nf_nat_setup_info` find it (flows may have ended in between), the
interface index of the device `ip_dev_find` finds for an address (`none` for NULL), the
address `get_device_ip(skb->dev)`, the random source, `nf_nat_setup_info` as the verdict
and the destination port of the reply tuple after the call, and the allocator: the
address `kmalloc` gives for a new mapping in a table (`none` for NULL) and whether the
allocation of a flow record succeeds. -/
structure tg_env where
  net : Registry
  net_recheck : Registry
  ip_dev_find : Nat → Option Int
  get_device_ip : Nat
  get_random_u32 : Nat
  nf_nat_setup_info : nf_nat_range → Nat × Nat
  kmalloc_mapping : Table → Option Nat
  kmalloc_tuple : Bool

/-- The outcome of one run of `fullconenat_tg`: the verdict, the translation spec that
was handed to `nf_nat_setup_info` (`none` when it was not called) and the table. -/
structure tg_result where
  ret : Nat
  newrange : Option nf_nat_range
  table : Table

/-- The pre-routing branch of `fullconenat_tg`.  The fields `mapping->int_addr` and
`mapping->int_port` are read through `deref`; after `check_mapping` has returned 1 the
pointer refers to a live mapping (`check_mapping_true_deref`), so its `none` branch is
never taken. -/
def fullconenat_tg_inbound (t : Table) (pkt : tg_packet) (env : tg_env) : tg_result :=
  if pkt.tuple.protonum ≠ IPPROTO_UDP then ⟨XT_CONTINUE, none, t⟩
  else
    let ip := pkt.tuple.dst_ip
    let port := pkt.tuple.dst_port
    let ifindex := match env.ip_dev_find ip with
      | some i => i
      | none => pkt.in_ifindex
    match get_mapping_by_ext_port t port ifindex with
    | none => ⟨XT_CONTINUE, none, t⟩
    | some mapping =>
      match check_mapping t (some mapping) env.net with
      | (false, t1) => ⟨XT_CONTINUE, none, t1⟩
      | (true, t1) =>
        match deref t1 mapping with
        | none => ⟨XT_CONTINUE, none, t1⟩
        | some m =>
          let newrange : nf_nat_range :=
            { flags := NF_NAT_RANGE_MAP_IPS ||| NF_NAT_RANGE_PROTO_SPECIFIED,
              min_addr := m.int_addr, max_addr := m.int_addr,
              min_proto := m.int_port, max_proto := m.int_port }
          let ret := (env.nf_nat_setup_info newrange).1
          if ret = NF_ACCEPT then
            ⟨ret, some newrange,
              add_original_tuple_to_mapping t1 env.kmalloc_tuple mapping pkt.tuple⟩
          else ⟨ret, some newrange, t1⟩

/-- The port selection of the post-routing branch for a UDP flow (the block under
`if (protonum == IPPROTO_UDP)`): the value of `src_mapping` afterwards, the port put in
`newrange`, and the table; `none` when `find_appropriate_port` divides by zero.  The field
`src_mapping->port` is read through `deref`, whose `none` branch is never taken after
`check_mapping` has returned 1 (`check_mapping_true_deref`). -/
def fullconenat_tg_select (t : Table) (pkt : tg_packet) (env : tg_env) :
    Option (Option Nat × Nat × Table) :=
  let ip := pkt.tuple.src_ip
  let original_port := pkt.tuple.src_port
  let fresh (t0 : Table) : Option (Option Nat × Nat × Table) :=
    match find_appropriate_port t0 env.net env.get_random_u32 original_port
        pkt.out_ifindex pkt.range with
    | none => none
    | some (want_port, t1) => some (none, want_port, t1)
  match get_mapping_by_int_src t ip original_port with
  | none => fresh t
  | some src_mapping =>
    match check_mapping t (some src_mapping) env.net with
    | (false, t1) => fresh t1
    | (true, t1) =>
      match deref t1 src_mapping with
      | none => fresh t1
      | some m => some (some src_mapping, m.port, t1)

/-- The end of the post-routing branch, under `save the mapping information into our
mapping table`: `src_mapping` is checked again, against the registry as it is after
`nf_nat_setup_info`; a mapping is allocated for the committed `port` when there is none
to reuse or the reused one failed this check (which removed it), and the flow record is
added. -/
def fullconenat_tg_save (t : Table) (src_mapping : Option Nat) (port : Nat)
    (pkt : tg_packet) (env : tg_env) : Table :=
  let checked : Option Nat × Table :=
    match src_mapping with
    | none => (none, t)
    | some p =>
      match check_mapping t (some p) env.net_recheck with
      | (true, t2) => (some p, t2)
      | (false, t2) => (none, t2)
  let allocated : Option Nat × Table :=
    match checked with
    | (some p, t2) => (some p, t2)
    | (none, t2) =>
      allocate_mapping t2 (env.kmalloc_mapping t2) pkt.tuple.src_ip pkt.tuple.src_port
        port pkt.out_ifindex
  match allocated with
  | (none, t3) => t3
  | (some mapping, t3) =>
    add_original_tuple_to_mapping t3 env.kmalloc_tuple mapping pkt.tuple

/-- The choice of the address in the post-routing branch: the configured address when
the rule has `NF_NAT_RANGE_MAP_IPS`, the address of the device otherwise; `newrange0` is
`newrange` as the port selection left it. -/
def fullconenat_tg_newrange (newrange0 : nf_nat_range) (pkt : tg_packet) (env : tg_env) :
    nf_nat_range :=
  if pkt.range.flags &&& NF_NAT_RANGE_MAP_IPS ≠ 0 then
    { newrange0 with min_addr := pkt.range.min_ip, max_addr := pkt.range.max_ip }
  else
    { newrange0 with min_addr := env.get_device_ip, max_addr := env.get_device_ip }

/-- The post-routing branch from the choice of the address on (`do SNAT now`):
`newrange0` is `newrange` as the port selection left it. -/
def fullconenat_tg_snat (t : Table) (src_mapping : Option Nat) (newrange0 : nf_nat_range)
    (pkt : tg_packet) (env : tg_env) : tg_result :=
  let newrange : nf_nat_range := fullconenat_tg_newrange newrange0 pkt env
  let ret := (env.nf_nat_setup_info newrange).1
  if pkt.tuple.protonum ≠ IPPROTO_UDP ∨ ret ≠ NF_ACCEPT then ⟨ret, some newrange, t⟩
  else
    let port := (env.nf_nat_setup_info newrange).2
    ⟨ret, some newrange, fullconenat_tg_save t src_mapping port pkt env⟩

/-- The post-routing branch of `fullconenat_tg`; `none` when it divides by zero. -/
def fullconenat_tg_outbound (t : Table) (pkt : tg_packet) (env : tg_env) :
    Option tg_result :=
  if pkt.tuple.protonum = IPPROTO_UDP then
    match fullconenat_tg_select t pkt env with
    | none => none
    | some (src_mapping, want_port, t1) =>
      some (fullconenat_tg_snat t1 src_mapping
        { flags := NF_NAT_RANGE_MAP_IPS ||| NF_NAT_RANGE_PROTO_SPECIFIED,
          min_addr := 0, max_addr := 0, min_proto := want_port, max_proto := want_port }
        pkt env)
  else
    some (fullconenat_tg_snat t none
      { flags := pkt.range.flags ||| NF_NAT_RANGE_MAP_IPS, min_addr := 0, max_addr := 0,
        min_proto := pkt.range.min, max_proto := pkt.range.max }
      pkt env)

/-- The function `fullconenat_tg`, by hook; `none` when it divides by zero. -/
def fullconenat_tg (t : Table) (pkt : tg_packet) (env : tg_env) : Option tg_result :=
  if pkt.hooknum = NF_INET_PRE_ROUTING then some (fullconenat_tg_inbound t pkt env)
  else if pkt.hooknum = NF_INET_POST_ROUTING then fullconenat_tg_outbound t pkt env
  else some ⟨XT_CONTINUE, none, t⟩

/-! ## Table predicates and reachable states -/

/-- The identifying fields of a mapping: its address, its external key and its internal
endpoint.  No operation of the module writes them after `allocate_mapping`. -/
def key (m : nat_mapping) : Nat × Nat × Int × Nat × Nat :=
  (m.addr, m.port, m.ifindex, m.int_addr, m.int_port)

/-- The count invariant: every mapping of the table has `refer_count` equal to the
number of its flow records. -/
def count_ok (t : Table) : Prop :=
  ∀ m ∈ t, m.refer_count = (m.original_tuple_list.length : Int)

/-- Distinct live objects have distinct addresses. -/
def addr_nodup (t : Table) : Prop := (t.map (fun m => m.addr)).Nodup

/-- External-key uniqueness: no two mappings of the table share `(port, ifindex)`. -/
def ext_unique (t : Table) : Prop := (t.map (fun m => (m.port, m.ifindex))).Nodup

/-- Internal-endpoint uniqueness: no two mappings of the table share
`(int_addr, int_port)`. -/
def int_unique (t : Table) : Prop := (t.map (fun m => (m.int_addr, m.int_port))).Nodup

/-- The mappings `check_mapping` does not refuse at its first test: no zero port, no
zero internal address or port, and an interface index other than -1. -/
def usable (m : nat_mapping) : Prop :=
  m.port ≠ 0 ∧ m.int_addr ≠ 0 ∧ m.int_port ≠ 0 ∧ m.ifindex ≠ -1

/-- Every mapping of the table passes the first test of `check_mapping`. -/
def all_usable (t : Table) : Prop := ∀ m ∈ t, usable m

/-- The allocator never hands out the address of a live mapping. -/
def kmalloc_fresh (env : tg_env) : Prop :=
  ∀ (t : Table) (a : Nat), env.kmalloc_mapping t = some a → ∀ m ∈ t, m.addr ≠ a

/-- The collaborator commits exactly the requested port: whenever `nf_nat_setup_info`
accepts, the reply tuple carries the port that `newrange` asked for. -/
def commits_requested (env : tg_env) : Prop :=
  ∀ r : nf_nat_range, (env.nf_nat_setup_info r).1 = NF_ACCEPT →
    (env.nf_nat_setup_info r).2 = r.min_proto

/-- No flow ends between the checks before `nf_nat_setup_info` and the check after it:
every flow the registry reports to the first finds it reports to the last as well. -/
def recheck_stable (env : tg_env) : Prop :=
  ∀ x : nf_conntrack_tuple, env.net x = true → env.net_recheck x = true

/-- The packet would create a mapping that passes the first test of `check_mapping`:
its source address and port are not zero, the outgoing interface index is not -1 and
the collaborator never commits port 0. -/
def creates_usable (pkt : tg_packet) (env : tg_env) : Prop :=
  pkt.tuple.src_ip ≠ 0 ∧ pkt.tuple.src_port ≠ 0 ∧ pkt.out_ifindex ≠ -1 ∧
    ∀ r : nf_nat_range, (env.nf_nat_setup_info r).1 = NF_ACCEPT →
      (env.nf_nat_setup_info r).2 ≠ 0

/-- Every mapping the run can create is usable: if the packet is an outbound UDP packet,
its source address and port are not zero, it leaves on an interface index other than -1
and the collaborator never commits port 0. -/
def outbound_usable (pkt : tg_packet) (env : tg_env) : Prop :=
  pkt.hooknum = NF_INET_POST_ROUTING → pkt.tuple.protonum = IPPROTO_UDP →
    creates_usable pkt env

/-- The table states reachable from the empty table by the operations of the module,
each with arbitrary arguments. -/
inductive ReachableOps : Table → Prop
  | empty : ReachableOps []
  | allocate (t : Table) (kmalloc : Option Nat) (int_addr int_port port : Nat)
      (ifindex : Int) :
      ReachableOps t → ReachableOps (allocate_mapping t kmalloc int_addr int_port port ifindex).2
  | add (t : Table) (kmalloc_ok : Bool) (mapping : Nat) (x : nf_conntrack_tuple) :
      ReachableOps t → ReachableOps (add_original_tuple_to_mapping t kmalloc_ok mapping x)
  | check (t : Table) (mapping : Option Nat) (net : Registry) :
      ReachableOps t → ReachableOps (check_mapping t mapping net).2
  | drain (t : Table) (q : List tuple_list) :
      ReachableOps t → ReachableOps (handle_dying_tuples t q).1
  | find_port (t : Table) (net : Registry) (rnd original_port : Nat) (ifindex : Int)
      (range : nf_nat_ipv4_range) (r : Nat × Table) :
      ReachableOps t → find_appropriate_port t net rnd original_port ifindex range = some r →
      ReachableOps r.2
  | tg (t : Table) (pkt : tg_packet) (env : tg_env) (r : tg_result) :
      ReachableOps t → fullconenat_tg t pkt env = some r → ReachableOps r.table

/-- The table states reachable from the empty table by runs of `fullconenat_tg` (any
hook, any registry) whose packet and collaborators satisfy `P`, and by drains of
`handle_dying_tuples` (any pending list). -/
inductive Reachable (P : tg_packet → tg_env → Prop) : Table → Prop
  | empty : Reachable P []
  | tg (t : Table) (pkt : tg_packet) (env : tg_env) (r : tg_result) :
      Reachable P t → P pkt env → fullconenat_tg t pkt env = some r → Reachable P r.table
  | drain (t : Table) (q : List tuple_list) :
      Reachable P t → Reachable P (handle_dying_tuples t q).1

/-- The port holds on the interface a mapping that `check_mapping` accepts as valid: the
lookup finds a mapping and `check_mapping` returns 1 for it.  This is the negation of the
test `mapping == NULL || !check_mapping(mapping, net, zone)` of `find_appropriate_port`. -/
def accepted (t : Table) (net : Registry) (port : Nat) (ifindex : Int) : Bool :=
  match get_mapping_by_ext_port t port ifindex with
  | none => false
  | some a => (check_mapping t (some a) net).1

/-! ## Runs of several packets -/

/-- The runs of `fullconenat_tg` for a list of packets, one after another under the table
lock, each with its own collaborators: the outcomes in order and the final table;
`none` when one of the runs divides by zero. -/
def tg_run : Table → List (tg_packet × tg_env) → Option (List tg_result × Table)
  | t, [] => some ([], t)
  | t, s :: rest =>
    match fullconenat_tg t s.1 s.2 with
    | none => none
    | some r =>
      match tg_run r.table rest with
      | none => none
      | some (rs, t1) => some (r :: rs, t1)

/-- Every allocation of the step succeeds. -/
def allocation_succeeds (s : tg_packet × tg_env) : Prop :=
  s.2.kmalloc_tuple = true ∧ ∀ t : Table, ∃ a, s.2.kmalloc_mapping t = some a

/-- An allocator for the samples: one more than the largest live address. -/
def next_addr (t : Table) : Nat := (t.map (fun m => m.addr)).foldr max 0 + 1

/-- Sample collaborators: every flow exists, before and after the commit, the commit
accepts and commits the requested port, and every allocation succeeds. -/
def sample_env : tg_env :=
  { net := fun _ => true, net_recheck := fun _ => true, ip_dev_find := fun _ => none, get_device_ip := 3405803777,
    get_random_u32 := 0, nf_nat_setup_info := fun r => (NF_ACCEPT, r.min_proto),
    kmalloc_mapping := fun t => some (next_addr t), kmalloc_tuple := true }

/-- A sample rule without a port range and without flags. -/
def sample_range : nf_nat_ipv4_range := { flags := 0, min_ip := 0, max_ip := 0, min := 0, max := 0 }

/-- A sample outbound UDP packet from 10.0.0.2:5000 to 8.8.8.8:53 leaving on interface 2. -/
def sample_out : tg_packet :=
  { hooknum := NF_INET_POST_ROUTING, in_ifindex := 3, out_ifindex := 2, range := sample_range,
    tuple := { src_ip := 167772162, src_port := 5000, dst_ip := 134744072, dst_port := 53,
               protonum := IPPROTO_UDP } }

/-- Sample collaborators that refuse to commit port 0 and otherwise behave like
`sample_env`. -/
def sample_env_nz : tg_env :=
  { sample_env with
    nf_nat_setup_info := fun r => if r.min_proto = 0 then (0, 0) else (NF_ACCEPT, r.min_proto) }

/-- A sample outbound UDP packet with the unspecified source address: 0.0.0.0:68 to
255.255.255.255:67 (a DHCP request) leaving on interface 2. -/
def dhcp_out : tg_packet :=
  { hooknum := NF_INET_POST_ROUTING, in_ifindex := 3, out_ifindex := 2, range := sample_range,
    tuple := { src_ip := 0, src_port := 68, dst_ip := 4294967295, dst_port := 67,
               protonum := IPPROTO_UDP } }

/-- A second packet from 0.0.0.0:68, to the server 10.0.0.1:67. -/
def dhcp_out_unicast : tg_packet :=
  { dhcp_out with
    tuple := { src_ip := 0, src_port := 68, dst_ip := 167772161, dst_port := 67,
               protonum := IPPROTO_UDP } }

/-- A second sample packet from 10.0.0.2:5000, to 1.1.1.1:53. -/
def sample_out_second : tg_packet :=
  { sample_out with
    tuple := { src_ip := 167772162, src_port := 5000, dst_ip := 16843009, dst_port := 53,
               protonum := IPPROTO_UDP } }

/-- The rule `--to-ports 0-65535`: an explicit range over all ports, no random flag. -/
def full_range : nf_nat_ipv4_range :=
  { flags := NF_NAT_RANGE_PROTO_SPECIFIED, min_ip := 0, max_ip := 0, min := 0, max := 65535 }

/-- The rule `--to-ports 1024-65535`. -/
def high_range : nf_nat_ipv4_range :=
  { flags := NF_NAT_RANGE_PROTO_SPECIFIED, min_ip := 0, max_ip := 0, min := 1024, max := 65535 }

/-- A flow from the internal host of the samples. -/
def flow_a : nf_conntrack_tuple :=
  { src_ip := 167772162, src_port := 5000, dst_ip := 134744072, dst_port := 53,
    protonum := IPPROTO_UDP }

/-- A table that occupies the ports 2000, 2001 and 2002 of interface 2, each with one
flow record. -/
def occupied_table : Table :=
  [⟨3, 2002, 2, 167772164, 7000, 1, [flow_a]⟩, ⟨2, 2001, 2, 167772163, 6000, 1, [flow_a]⟩,
   ⟨1, 2000, 2, 167772162, 5000, 1, [flow_a]⟩]

/-- A table that occupies the ports 2000 and 2001 of interface 2 and leaves 2002 free. -/
def two_ports_table : Table :=
  [⟨2, 2001, 2, 167772163, 6000, 1, [flow_a]⟩, ⟨1, 2000, 2, 167772162, 5000, 1, [flow_a]⟩]

/-- The rule `--to-ports 2000-2002`. -/
def small_range : nf_nat_ipv4_range :=
  { flags := NF_NAT_RANGE_PROTO_SPECIFIED, min_ip := 0, max_ip := 0, min := 2000, max := 2002 }

/-- The mapping the first packet of `sample_out` creates: 10.0.0.2:5000 at external port
5000 of interface 2, with one flow record. -/
def sample_mapping : nat_mapping := ⟨1, 5000, 2, 167772162, 5000, 1, [sample_out.tuple]⟩

/-- A mapping for the internal endpoint 0.0.0.0:68 with one flow record, as the first
packet of `dhcp_out` creates it. -/
def dhcp_mapping : nat_mapping := ⟨1, 68, 2, 0, 68, 1, [dhcp_out.tuple]⟩

/-- A mapping with external port 0 and internal port 0 with one flow record, as an
outbound packet with source port 0 creates it when port 0 is committed. -/
def port0_mapping : nat_mapping := ⟨1, 0, 2, 167772162, 0, 1, [flow_a]⟩

/-- A hairpin flow: the internal host 10.0.0.3:6000 sends to the external address
203.0.113.1 at port 5000, which is mapped to the internal host 10.0.0.2:5000. -/
def hairpin_flow : nf_conntrack_tuple :=
  { src_ip := 167772163, src_port := 6000, dst_ip := 3405803777, dst_port := 5000,
    protonum := IPPROTO_UDP }

/-- The destroy record of the hairpin flow: its reply tuple comes from 10.0.0.2:5000. -/
def hairpin_record : tuple_list :=
  { tuple_original := hairpin_flow,
    tuple_reply := { src_ip := 167772162, src_port := 5000, dst_ip := 3405803777,
                     dst_port := 6000, protonum := IPPROTO_UDP } }

/-- The table after the hairpin flow has passed both hooks and the own flow of
10.0.0.2:5000 has ended: the mapping of 10.0.0.2:5000 (address 1) holds the hairpin flow
as its only record, and so does the mapping of 10.0.0.3:6000 (address 2). -/
def hairpin_table : Table :=
  [⟨2, 6000, 3, 167772163, 6000, 1, [hairpin_flow]⟩,
   ⟨1, 5000, 2, 167772162, 5000, 1, [hairpin_flow]⟩]

/-- The destroy record of the flow of `sample_out`. -/
def sample_record : tuple_list :=
  { tuple_original := sample_out.tuple,
    tuple_reply := { src_ip := 134744072, src_port := 53, dst_ip := 3405803777,
                     dst_port := 5000, protonum := IPPROTO_UDP } }

/-- Collaborators for the hairpin flow: like `sample_env`, and `ip_dev_find` finds the
device with interface index 2 for the external address 203.0.113.1. -/
def hairpin_env : tg_env :=
  { sample_env with ip_dev_find := fun ip => if ip = 3405803777 then some 2 else none }

/-- The hairpin flow at the pre-routing hook, arriving on interface 3. -/
def hairpin_in : tg_packet :=
  { hooknum := NF_INET_PRE_ROUTING, in_ifindex := 3, out_ifindex := 0, range := sample_range,
    tuple := hairpin_flow }

/-- The hairpin flow at the post-routing hook, leaving on interface 3. -/
def hairpin_out : tg_packet :=
  { hooknum := NF_INET_POST_ROUTING, in_ifindex := 3, out_ifindex := 3, range := sample_range,
    tuple := hairpin_flow }

/-- The table part of `fullconenat_tg_exit`: the final `handle_dying_tuples` and then
`destroy_mappings`.  The result is the table and the pending list afterwards. -/
def fullconenat_tg_exit (t : Table) (dying_tuple_list : List tuple_list) :
    Table × List tuple_list :=
  let r := handle_dying_tuples t dying_tuple_list
  (destroy_mappings r.1, r.2)

/-- The interface index the pre-routing branch looks the mapping up with: the index of
the device `ip_dev_find` finds for the destination address, or else the index of the
input device. -/
def inbound_ifindex (pkt : tg_packet) (env : tg_env) : Int :=
  match env.ip_dev_find pkt.tuple.dst_ip with
  | some i => i
  | none => pkt.in_ifindex

/-- Sample collaborators for which the allocation of a flow record fails and everything
else is as in `sample_env`. -/
def sample_env_norecord : tg_env := { sample_env with kmalloc_tuple := false }

/-- The collaborators of the hairpin flow with a failing allocation of the flow record. -/
def hairpin_env_norecord : tg_env := { hairpin_env with kmalloc_tuple := false }


/-- A rule with a random flag and the explicit range `[0,65535]`: for it
`find_appropriate_port` divides by zero. -/
def random_full_range : nf_nat_ipv4_range :=
  { flags := NF_NAT_RANGE_PROTO_SPECIFIED ||| NF_NAT_RANGE_PROTO_RANDOM, min_ip := 0,
    max_ip := 0, min := 0, max := 65535 }

/-- The second sample packet from 10.0.0.2:5000 under the rule `random_full_range`. -/
def sample_out_random : tg_packet := { sample_out_second with range := random_full_range }

/-- The table `t1` holds nothing that `t` did not hold: every mapping of `t1` is a mapping
of `t` (same address and key fields) and its flow records are flow records it had in `t`,
in the same order. -/
def no_growth (t1 t : Table) : Prop :=
  ∀ m1 ∈ t1, ∃ m ∈ t, key m1 = key m ∧
    List.Sublist m1.original_tuple_list m.original_tuple_list

/-- Sample collaborators whose commit fails (`nf_nat_setup_info` returns `NF_DROP`) and
that are otherwise like `sample_env`. -/
def sample_env_drop : tg_env := { sample_env with nf_nat_setup_info := fun _ => (0, 0) }

/-- An outbound UDP packet from the new endpoint 10.0.0.9:9000 under the rule
`small_range`, leaving on interface 2. -/
def newcomer_out : tg_packet :=
  { hooknum := NF_INET_POST_ROUTING, in_ifindex := 3, out_ifindex := 2, range := small_range,
    tuple := { src_ip := 167772169, src_port := 9000, dst_ip := 134744072, dst_port := 53,
               protonum := IPPROTO_UDP } }

/-- Sample collaborators for which every flow has ended by the check after the commit;
otherwise like `sample_env_nz`. -/
def sample_env_expired : tg_env := { sample_env_nz with net_recheck := fun _ => false }

/-- An outbound UDP packet from 10.0.0.3:5000 to 8.8.8.8:53 leaving on interface 3. -/
def endpoint_b_out : tg_packet :=
  { hooknum := NF_INET_POST_ROUTING, in_ifindex := 2, out_ifindex := 3, range := sample_range,
    tuple := { src_ip := 167772163, src_port := 5000, dst_ip := 134744072, dst_port := 53,
               protonum := IPPROTO_UDP } }

/-- An outbound UDP packet from 10.0.0.2:5000 to 1.1.1.1:53 leaving on interface 3, not on
interface 2 as `sample_out` does. -/
def sample_out_rerouted : tg_packet := { sample_out_second with out_ifindex := 3 }

/-- Sample collaborators under contention: the commit accepts and commits the port after
the requested one; otherwise like `sample_env`. -/
def sample_env_contended : tg_env :=
  { sample_env with nf_nat_setup_info := fun r => (NF_ACCEPT, r.min_proto + 1) }

/-- The mapping of 10.0.0.2:5000 with two flow records: its own flow and the hairpin
flow. -/
def two_flows_mapping : nat_mapping :=
  ⟨1, 5000, 2, 167772162, 5000, 2, [flow_a, hairpin_flow]⟩

/-- A registry in which only the hairpin flow exists. -/
def hairpin_only : Registry := fun x => decide (x = hairpin_flow)

/-- A sequence of destroy events delivered to `ct_event_cb` one after the other, the first
of the list first: each event carries the conntrack whose tuples are those of the record,
and the outcome of the `kmalloc` in its call. -/
def deliver (dying_tuple_list : List tuple_list) (events : List (tuple_list × Bool)) :
    List tuple_list :=
  events.foldl
    (fun q e => ct_event_cb q (1 <<< IPCT_DESTROY) (some (e.1.tuple_original, e.1.tuple_reply)) e.2)
    dying_tuple_list

/-- A flow of the internal host 10.0.0.3:6000 to 8.8.8.8:53. -/
def flow_c : nf_conntrack_tuple :=
  { src_ip := 167772163, src_port := 6000, dst_ip := 134744072, dst_port := 53,
    protonum := IPPROTO_UDP }

/-- The destroy record of `flow_c`. -/
def flow_c_record : tuple_list :=
  { tuple_original := flow_c,
    tuple_reply := { src_ip := 134744072, src_port := 53, dst_ip := 3405803777,
                     dst_port := 6000, protonum := IPPROTO_UDP } }

/-- A table in which the mapping of 10.0.0.3:6000 (address 2) holds its own flow `flow_c`
and the mapping of 10.0.0.2:5000 (address 1) holds the hairpin flow that 10.0.0.3:6000
opened to it. -/
def order_table : Table :=
  [⟨2, 6000, 2, 167772163, 6000, 1, [flow_c]⟩,
   ⟨1, 5000, 2, 167772162, 5000, 1, [hairpin_flow]⟩]

/-- The mappings of the table on interfaces other than `ifindex`, in their order. -/
def other_interfaces (t : Table) (ifindex : Int) : Table :=
  t.filter (fun m => decide (m.ifindex ≠ ifindex))

/-- A table with a mapping at port 2000 on interface 2 and one at the same port on
interface 3, each with one flow record. -/
def two_interfaces_table : Table :=
  [⟨2, 2000, 3, 167772163, 6000, 1, [flow_a]⟩, ⟨1, 2000, 2, 167772162, 5000, 1, [flow_a]⟩]

/-- The rule `--to-ports 2000-2000`. -/
def one_port_range : nf_nat_ipv4_range :=
  { flags := NF_NAT_RANGE_PROTO_SPECIFIED, min_ip := 0, max_ip := 0, min := 2000, max := 2000 }

/-! ## Flow-record loops -/

theorem check_mapping_loop_eq (net : Registry) (l : List nf_conntrack_tuple) (c : Int) :
    check_mapping_loop net l c =
      (l.filter net, c - ((l.length : Int) - ((l.filter net).length : Int))) := by
  induction l generalizing c with
  | nil => simp [check_mapping_loop]
  | cons x xs ih =>
    by_cases h : net x = true
    · simp [check_mapping_loop, h, ih]
    · simp [check_mapping_loop, h, ih]
      omega

theorem expire_loop_eq (d : nf_conntrack_tuple) (l : List nf_conntrack_tuple) (c : Int) :
    expire_loop d l c =
      (l.filter (fun x => decide (x ≠ d)),
        c - ((l.length : Int) - ((l.filter (fun x => decide (x ≠ d))).length : Int))) := by
  induction l generalizing c with
  | nil => simp [expire_loop]
  | cons x xs ih =>
    by_cases h : x = d
    · simp [expire_loop, h, ih]
      omega
    · simp [expire_loop, h, ih]

/-! ## The count invariant is kept by every operation -/

theorem count_ok_update (t : Table) (p : Nat) (f : nat_mapping → nat_mapping)
    (ht : count_ok t)
    (hf : ∀ m : nat_mapping, m.refer_count = (m.original_tuple_list.length : Int) →
      (f m).refer_count = ((f m).original_tuple_list.length : Int)) :
    count_ok (update t p f) := by
  intro m hm
  simp only [update, List.mem_map] at hm
  obtain ⟨m0, hm0, rfl⟩ := hm
  by_cases h : m0.addr = p
  · simp only [h, if_true]
    exact hf m0 (ht m0 hm0)
  · simp only [h, if_false]
    exact ht m0 hm0

theorem count_ok_kill (t : Table) (o : Option Nat) (ht : count_ok t) :
    count_ok (kill_mapping t o) := by
  cases o with
  | none => exact ht
  | some p =>
    intro m hm
    simp only [kill_mapping, List.mem_filter] at hm
    exact ht m hm.1

theorem check_mapping_prune_count (net : Registry) (m : nat_mapping)
    (h : m.refer_count = (m.original_tuple_list.length : Int)) :
    (check_mapping_prune net m).refer_count =
      ((check_mapping_prune net m).original_tuple_list.length : Int) := by
  simp only [check_mapping_prune, check_mapping_loop_eq]
  omega

theorem expire_count (d : nf_conntrack_tuple) (m : nat_mapping)
    (h : m.refer_count = (m.original_tuple_list.length : Int)) :
    (expire d m).refer_count = ((expire d m).original_tuple_list.length : Int) := by
  simp only [expire, expire_loop_eq]
  omega

theorem count_ok_check (t : Table) (o : Option Nat) (net : Registry) (ht : count_ok t) :
    count_ok (check_mapping t o net).2 := by
  cases o with
  | none => exact ht
  | some p =>
    simp only [check_mapping]
    cases hd : deref t p with
    | none => exact ht
    | some m =>
      simp only []
      split
      · exact ht
      · split
        · exact count_ok_kill _ (some p)
            (count_ok_update t p _ ht (check_mapping_prune_count net))
        · exact count_ok_update t p _ ht (check_mapping_prune_count net)

theorem count_ok_allocate (t : Table) (kmalloc : Option Nat) (a b c : Nat) (i : Int)
    (ht : count_ok t) : count_ok (allocate_mapping t kmalloc a b c i).2 := by
  cases kmalloc with
  | none => exact ht
  | some p =>
    intro m hm
    simp only [allocate_mapping, List.mem_cons] at hm
    rcases hm with rfl | hm
    · simp
    · exact ht m hm

theorem count_ok_add (t : Table) (ok : Bool) (p : Nat) (x : nf_conntrack_tuple)
    (ht : count_ok t) : count_ok (add_original_tuple_to_mapping t ok p x) := by
  unfold add_original_tuple_to_mapping
  split
  · apply count_ok_update t p _ ht
    intro m hm
    simp [hm]
  · exact ht

theorem count_ok_dying_tuple (t : Table) (item : tuple_list) (ht : count_ok t) :
    count_ok (handle_dying_tuple t item) := by
  unfold handle_dying_tuple
  cases resolve_dying t item with
  | none => exact ht
  | some p =>
    have h1 := count_ok_update t p (expire item.tuple_original) ht
      (expire_count item.tuple_original)
    simp only []
    cases deref (update t p (expire item.tuple_original)) p with
    | none => exact h1
    | some m =>
      simp only []
      split
      · exact count_ok_kill _ _ h1
      · exact h1

theorem count_ok_dying_tuples (q : List tuple_list) (t : Table) (ht : count_ok t) :
    count_ok (handle_dying_tuples t q).1 := by
  induction q generalizing t with
  | nil => exact ht
  | cons item rest ih =>
    simp only [handle_dying_tuples]
    exact ih _ (count_ok_dying_tuple t item ht)

theorem count_ok_loop (net : Registry) (min start size : Nat) (ifindex : Int)
    (todo : Nat) (i : Nat) (t : Table) (ht : count_ok t) :
    count_ok (find_appropriate_port_loop net min start size ifindex todo i t).2 := by
  induction todo generalizing i t with
  | zero => exact ht
  | succ n ih =>
    simp only [find_appropriate_port_loop]
    cases get_mapping_by_ext_port t ((min + (start + i) % size) % 65536) ifindex with
    | none => exact ht
    | some p =>
      simp only []
      have hc := count_ok_check t (some p) net ht
      rcases hr : check_mapping t (some p) net with ⟨b, t1⟩
      rw [hr] at hc
      cases b with
      | false => exact hc
      | true => exact ih _ _ hc

theorem count_ok_scan (t : Table) (net : Registry) (min start size : Nat) (ifindex : Int)
    (ht : count_ok t) :
    count_ok (find_appropriate_port_scan t net min start size ifindex).2 := by
  have hl := count_ok_loop net min start size ifindex size 0 t ht
  unfold find_appropriate_port_scan
  rcases hr : find_appropriate_port_loop net min start size ifindex size 0 t with ⟨o, t1⟩
  rw [hr] at hl
  cases o with
  | none => exact count_ok_kill _ _ hl
  | some sel => exact hl

theorem count_ok_find_port (t : Table) (net : Registry) (rnd op : Nat) (ifindex : Int)
    (range : nf_nat_ipv4_range) (r : Nat × Table) (ht : count_ok t)
    (h : find_appropriate_port t net rnd op ifindex range = some r) : count_ok r.2 := by
  unfold find_appropriate_port at h
  simp only [] at h
  split at h
  · split at h
    · exact absurd h (by simp)
    · obtain rfl := Option.some.inj h
      exact count_ok_scan _ _ _ _ _ _ ht
  · split at h
    · cases hg : get_mapping_by_ext_port t op ifindex with
      | none =>
        rw [hg] at h
        obtain rfl := Option.some.inj h
        exact ht
      | some p =>
        rw [hg] at h
        simp only [] at h
        have hc := count_ok_check t (some p) net ht
        rcases hr : check_mapping t (some p) net with ⟨b, t1⟩
        rw [hr] at hc h
        cases b with
        | false =>
          obtain rfl := Option.some.inj h
          exact hc
        | true =>
          obtain rfl := Option.some.inj h
          exact count_ok_scan _ _ _ _ _ _ hc
    · obtain rfl := Option.some.inj h
      exact count_ok_scan _ _ _ _ _ _ ht

theorem count_ok_inbound (t : Table) (pkt : tg_packet) (env : tg_env) (ht : count_ok t) :
    count_ok (fullconenat_tg_inbound t pkt env).table := by
  unfold fullconenat_tg_inbound
  split
  · exact ht
  · simp only []
    split
    · exact ht
    · rename_i mapping _
      have hc := count_ok_check t (some mapping) env.net ht
      split
      · rename_i t1 hr
        rw [hr] at hc
        exact hc
      · rename_i t1 hr
        rw [hr] at hc
        split
        · exact hc
        · split
          · exact count_ok_add _ _ _ _ hc
          · exact hc

theorem count_ok_select (t : Table) (pkt : tg_packet) (env : tg_env)
    (r : Option Nat × Nat × Table) (ht : count_ok t)
    (h : fullconenat_tg_select t pkt env = some r) : count_ok r.2.2 := by
  have fresh : ∀ t0 : Table, count_ok t0 →
      (match find_appropriate_port t0 env.net env.get_random_u32 pkt.tuple.src_port
          pkt.out_ifindex pkt.range with
        | none => none
        | some (want_port, t1) => some ((none : Option Nat), want_port, t1)) = some r →
      count_ok r.2.2 := by
    intro t0 h0 hf
    cases hp : find_appropriate_port t0 env.net env.get_random_u32 pkt.tuple.src_port
        pkt.out_ifindex pkt.range with
    | none => rw [hp] at hf; exact absurd hf (by simp)
    | some w =>
      rw [hp] at hf
      obtain rfl := Option.some.inj hf
      exact count_ok_find_port _ _ _ _ _ _ _ h0 hp
  unfold fullconenat_tg_select at h
  simp only [] at h
  cases hg : get_mapping_by_int_src t pkt.tuple.src_ip pkt.tuple.src_port with
  | none =>
    rw [hg] at h
    exact fresh t ht h
  | some p =>
    rw [hg] at h
    simp only [] at h
    have hc := count_ok_check t (some p) env.net ht
    rcases hr : check_mapping t (some p) env.net with ⟨b, t1⟩
    rw [hr] at hc h
    cases b with
    | false => exact fresh t1 hc h
    | true =>
      simp only [] at h
      cases hd : deref t1 p with
      | none =>
        rw [hd] at h
        exact fresh t1 hc h
      | some m =>
        rw [hd] at h
        obtain rfl := Option.some.inj h
        exact hc

theorem count_ok_save (t : Table) (src : Option Nat) (port : Nat) (pkt : tg_packet)
    (env : tg_env) (ht : count_ok t) : count_ok (fullconenat_tg_save t src port pkt env) := by
  have alloc : ∀ t2 : Table, count_ok t2 →
      count_ok (match allocate_mapping t2 (env.kmalloc_mapping t2) pkt.tuple.src_ip
          pkt.tuple.src_port port pkt.out_ifindex with
        | (none, t3) => t3
        | (some mapping, t3) =>
          add_original_tuple_to_mapping t3 env.kmalloc_tuple mapping pkt.tuple) := by
    intro t2 h2
    have ha := count_ok_allocate t2 (env.kmalloc_mapping t2) pkt.tuple.src_ip
      pkt.tuple.src_port port pkt.out_ifindex h2
    rcases hr : allocate_mapping t2 (env.kmalloc_mapping t2) pkt.tuple.src_ip
      pkt.tuple.src_port port pkt.out_ifindex with ⟨o, t3⟩
    rw [hr] at ha
    cases o with
    | none => exact ha
    | some q => exact count_ok_add _ _ _ _ ha
  unfold fullconenat_tg_save
  cases src with
  | none => exact alloc t ht
  | some p =>
    simp only []
    have hc := count_ok_check t (some p) env.net_recheck ht
    rcases hr : check_mapping t (some p) env.net_recheck with ⟨b, t2⟩
    rw [hr] at hc
    cases b with
    | false => exact alloc t2 hc
    | true => exact count_ok_add _ _ _ _ hc

theorem count_ok_snat (t : Table) (src : Option Nat) (nr : nf_nat_range) (pkt : tg_packet)
    (env : tg_env) (ht : count_ok t) : count_ok (fullconenat_tg_snat t src nr pkt env).table := by
  unfold fullconenat_tg_snat
  simp only []
  split
  · exact ht
  · exact count_ok_save _ _ _ _ _ ht

theorem count_ok_tg (t : Table) (pkt : tg_packet) (env : tg_env) (r : tg_result)
    (ht : count_ok t) (h : fullconenat_tg t pkt env = some r) : count_ok r.table := by
  unfold fullconenat_tg at h
  split at h
  · obtain rfl := Option.some.inj h
    exact count_ok_inbound t pkt env ht
  · split at h
    · unfold fullconenat_tg_outbound at h
      split at h
      · cases hs : fullconenat_tg_select t pkt env with
        | none => rw [hs] at h; exact absurd h (by simp)
        | some w =>
          rw [hs] at h
          obtain rfl := Option.some.inj h
          exact count_ok_snat _ _ _ _ _ (count_ok_select t pkt env w ht hs)
      · obtain rfl := Option.some.inj h
        exact count_ok_snat _ _ _ _ _ ht
    · obtain rfl := Option.some.inj h
      exact ht

/-- C1. Count invariant: in every table state reachable from the empty table by
`allocate_mapping`, `add_original_tuple_to_mapping` (whether or not its allocation
succeeds), `check_mapping`, `handle_dying_tuples`, `find_appropriate_port` and the runs
of `fullconenat_tg`, each with arbitrary arguments, every mapping of the table has
`refer_count` equal to the number of flow records in its `original_tuple_list`. -/
theorem count_invariant_reachable (t : Table) (h : ReachableOps t) :
    ∀ m ∈ t, m.refer_count = (m.original_tuple_list.length : Int) := by
  induction h with
  | empty => intro m hm; exact absurd hm (List.not_mem_nil m)
  | allocate t kmalloc a b c i _ ih => exact count_ok_allocate t kmalloc a b c i ih
  | add t ok p x _ ih => exact count_ok_add t ok p x ih
  | check t o net _ ih => exact count_ok_check t o net ih
  | drain t q _ ih => exact count_ok_dying_tuples q t ih
  | find_port t net rnd op i range r _ hr ih =>
    exact count_ok_find_port t net rnd op i range r ih hr
  | tg t pkt env r _ hr ih => exact count_ok_tg t pkt env r ih hr

theorem count_invariant_reachable_witness :
    ReachableOps [⟨1, 5000, 2, 167772162, 5000, 1, [sample_out.tuple]⟩] ∧
      ∀ m ∈ ([⟨1, 5000, 2, 167772162, 5000, 1, [sample_out.tuple]⟩] : Table),
        m.refer_count = (m.original_tuple_list.length : Int) :=
  have h : ReachableOps [⟨1, 5000, 2, 167772162, 5000, 1, [sample_out.tuple]⟩] :=
    ReachableOps.tg [] sample_out sample_env
      ⟨NF_ACCEPT, some ⟨3, 3405803777, 3405803777, 5000, 5000⟩,
        [⟨1, 5000, 2, 167772162, 5000, 1, [sample_out.tuple]⟩]⟩
      ReachableOps.empty rfl
  ⟨h, count_invariant_reachable _ h⟩

/-! ## Key fields are never rewritten; tables only shrink outside `allocate_mapping` -/

theorem key_check_mapping_prune (net : Registry) (m : nat_mapping) :
    key (check_mapping_prune net m) = key m := rfl

theorem key_expire (d : nf_conntrack_tuple) (m : nat_mapping) : key (expire d m) = key m := rfl

theorem keys_update (t : Table) (p : Nat) (f : nat_mapping → nat_mapping)
    (hf : ∀ m, key (f m) = key m) : (update t p f).map key = t.map key := by
  simp only [update, List.map_map]
  apply List.map_congr_left
  intro m _
  by_cases h : m.addr = p
  · simp [h, hf]
  · simp [h]

theorem keys_kill (t : Table) (o : Option Nat) :
    List.Sublist ((kill_mapping t o).map key) (t.map key) := by
  cases o with
  | none => exact List.Sublist.refl _
  | some p => exact (List.filter_sublist t).map key

theorem keys_check (t : Table) (o : Option Nat) (net : Registry) :
    List.Sublist ((check_mapping t o net).2.map key) (t.map key) := by
  cases o with
  | none => exact List.Sublist.refl _
  | some p =>
    simp only [check_mapping]
    cases deref t p with
    | none => exact List.Sublist.refl _
    | some m =>
      simp only []
      split
      · exact List.Sublist.refl _
      · have hu := keys_update t p (check_mapping_prune net) (key_check_mapping_prune net)
        split
        · exact hu ▸ keys_kill _ (some p)
        · simp only [hu]
          exact List.Sublist.refl _

theorem keys_add (t : Table) (ok : Bool) (p : Nat) (x : nf_conntrack_tuple) :
    (add_original_tuple_to_mapping t ok p x).map key = t.map key := by
  unfold add_original_tuple_to_mapping
  split
  · exact keys_update t p _ (fun _ => rfl)
  · rfl

theorem keys_dying_tuple (t : Table) (item : tuple_list) :
    List.Sublist ((handle_dying_tuple t item).map key) (t.map key) := by
  unfold handle_dying_tuple
  cases resolve_dying t item with
  | none => exact List.Sublist.refl _
  | some p =>
    have hu := keys_update t p (expire item.tuple_original) (key_expire item.tuple_original)
    simp only []
    cases deref (update t p (expire item.tuple_original)) p with
    | none => simp only [hu]; exact List.Sublist.refl _
    | some m =>
      simp only []
      split
      · exact hu ▸ keys_kill _ (some p)
      · simp only [hu]; exact List.Sublist.refl _

theorem keys_dying_tuples (q : List tuple_list) (t : Table) :
    List.Sublist ((handle_dying_tuples t q).1.map key) (t.map key) := by
  induction q generalizing t with
  | nil => exact List.Sublist.refl _
  | cons item rest ih =>
    simp only [handle_dying_tuples]
    exact (ih _).trans (keys_dying_tuple t item)

theorem keys_loop (net : Registry) (min start size : Nat) (ifindex : Int)
    (todo : Nat) (i : Nat) (t : Table) :
    List.Sublist ((find_appropriate_port_loop net min start size ifindex todo i t).2.map key)
      (t.map key) := by
  induction todo generalizing i t with
  | zero => exact List.Sublist.refl _
  | succ n ih =>
    simp only [find_appropriate_port_loop]
    cases get_mapping_by_ext_port t ((min + (start + i) % size) % 65536) ifindex with
    | none => exact List.Sublist.refl _
    | some p =>
      simp only []
      have hc := keys_check t (some p) net
      rcases hr : check_mapping t (some p) net with ⟨b, t1⟩
      rw [hr] at hc
      cases b with
      | false => exact hc
      | true => exact (ih _ _).trans hc

theorem keys_scan (t : Table) (net : Registry) (min start size : Nat) (ifindex : Int) :
    List.Sublist ((find_appropriate_port_scan t net min start size ifindex).2.map key)
      (t.map key) := by
  have hl := keys_loop net min start size ifindex size 0 t
  unfold find_appropriate_port_scan
  rcases hr : find_appropriate_port_loop net min start size ifindex size 0 t with ⟨o, t1⟩
  rw [hr] at hl
  cases o with
  | none => exact (keys_kill _ _).trans hl
  | some sel => exact hl

theorem keys_find_port (t : Table) (net : Registry) (rnd op : Nat) (ifindex : Int)
    (range : nf_nat_ipv4_range) (r : Nat × Table)
    (h : find_appropriate_port t net rnd op ifindex range = some r) :
    List.Sublist (r.2.map key) (t.map key) := by
  unfold find_appropriate_port at h
  simp only [] at h
  split at h
  · split at h
    · exact absurd h (by simp)
    · obtain rfl := Option.some.inj h
      exact keys_scan _ _ _ _ _ _
  · split at h
    · cases hg : get_mapping_by_ext_port t op ifindex with
      | none =>
        rw [hg] at h
        obtain rfl := Option.some.inj h
        exact List.Sublist.refl _
      | some p =>
        rw [hg] at h
        simp only [] at h
        have hc := keys_check t (some p) net
        rcases hr : check_mapping t (some p) net with ⟨b, t1⟩
        rw [hr] at hc h
        cases b with
        | false =>
          obtain rfl := Option.some.inj h
          exact hc
        | true =>
          obtain rfl := Option.some.inj h
          exact (keys_scan _ _ _ _ _ _).trans hc
    · obtain rfl := Option.some.inj h
      exact keys_scan _ _ _ _ _ _

theorem keys_inbound (t : Table) (pkt : tg_packet) (env : tg_env) :
    List.Sublist ((fullconenat_tg_inbound t pkt env).table.map key) (t.map key) := by
  unfold fullconenat_tg_inbound
  split
  · exact List.Sublist.refl _
  · simp only []
    split
    · exact List.Sublist.refl _
    · rename_i mapping _
      have hc := keys_check t (some mapping) env.net
      split
      · rename_i t1 hr
        rw [hr] at hc
        exact hc
      · rename_i t1 hr
        rw [hr] at hc
        split
        · exact hc
        · split
          · simp only [keys_add]
            exact hc
          · exact hc

/-! ## Lookups and pointers -/

theorem get_ext_none (t : Table) (p : Nat) (i : Int) :
    get_mapping_by_ext_port t p i = none ↔ (p, i) ∉ t.map (fun m => (m.port, m.ifindex)) := by
  induction t with
  | nil => simp [get_mapping_by_ext_port]
  | cons m rest ih =>
    by_cases h : m.port = p ∧ m.ifindex = i
    · simp [get_mapping_by_ext_port, h]
    · simp only [get_mapping_by_ext_port, h, if_false, ih, List.map_cons, List.mem_cons,
        not_or, Prod.mk.injEq]
      constructor
      · intro h1
        exact ⟨fun h2 => h ⟨h2.1.symm, h2.2.symm⟩, h1⟩
      · intro h1
        exact h1.2

theorem get_ext_some (t : Table) (p : Nat) (i : Int) (a : Nat)
    (h : get_mapping_by_ext_port t p i = some a) :
    ∃ m ∈ t, m.addr = a ∧ m.port = p ∧ m.ifindex = i := by
  induction t with
  | nil => simp [get_mapping_by_ext_port] at h
  | cons m rest ih =>
    by_cases hk : m.port = p ∧ m.ifindex = i
    · simp only [get_mapping_by_ext_port, hk, and_self, if_true, Option.some.injEq] at h
      exact ⟨m, List.mem_cons_self _ _, h, hk.1, hk.2⟩
    · simp only [get_mapping_by_ext_port, hk, if_false] at h
      obtain ⟨m1, hm1, h1⟩ := ih h
      exact ⟨m1, List.mem_cons_of_mem _ hm1, h1⟩

theorem get_int_none (t : Table) (a p : Nat) :
    get_mapping_by_int_src t a p = none ↔
      (a, p) ∉ t.map (fun m => (m.int_addr, m.int_port)) := by
  induction t with
  | nil => simp [get_mapping_by_int_src]
  | cons m rest ih =>
    by_cases h : m.int_addr = a ∧ m.int_port = p
    · simp [get_mapping_by_int_src, h]
    · simp only [get_mapping_by_int_src, h, if_false, ih, List.map_cons, List.mem_cons,
        not_or, Prod.mk.injEq]
      constructor
      · intro h1
        exact ⟨fun h2 => h ⟨h2.1.symm, h2.2.symm⟩, h1⟩
      · intro h1
        exact h1.2

theorem get_int_some (t : Table) (a p : Nat) (q : Nat)
    (h : get_mapping_by_int_src t a p = some q) :
    ∃ m ∈ t, m.addr = q ∧ m.int_addr = a ∧ m.int_port = p := by
  induction t with
  | nil => simp [get_mapping_by_int_src] at h
  | cons m rest ih =>
    by_cases hk : m.int_addr = a ∧ m.int_port = p
    · simp only [get_mapping_by_int_src, hk, and_self, if_true, Option.some.injEq] at h
      exact ⟨m, List.mem_cons_self _ _, h, hk.1, hk.2⟩
    · simp only [get_mapping_by_int_src, hk, if_false] at h
      obtain ⟨m1, hm1, h1⟩ := ih h
      exact ⟨m1, List.mem_cons_of_mem _ hm1, h1⟩

theorem deref_some (t : Table) (p : Nat) (m : nat_mapping) (h : deref t p = some m) :
    m ∈ t ∧ m.addr = p := by
  induction t with
  | nil => simp [deref] at h
  | cons m0 rest ih =>
    by_cases hk : m0.addr = p
    · simp only [deref, hk, if_true, Option.some.injEq] at h
      subst h
      exact ⟨List.mem_cons_self _ _, hk⟩
    · simp only [deref, hk, if_false] at h
      exact ⟨List.mem_cons_of_mem _ (ih h).1, (ih h).2⟩

theorem deref_none (t : Table) (p : Nat) (h : deref t p = none) : ∀ m ∈ t, m.addr ≠ p := by
  induction t with
  | nil => intro m hm; exact absurd hm (List.not_mem_nil m)
  | cons m0 rest ih =>
    by_cases hk : m0.addr = p
    · simp [deref, hk] at h
    · simp only [deref, hk, if_false] at h
      intro m hm
      rcases List.mem_cons.mp hm with rfl | hm
      · exact hk
      · exact ih h m hm

theorem deref_of_mem (t : Table) (m : nat_mapping) (hn : addr_nodup t) (hm : m ∈ t) :
    deref t m.addr = some m := by
  induction t with
  | nil => exact absurd hm (List.not_mem_nil m)
  | cons m0 rest ih =>
    simp only [addr_nodup, List.map_cons, List.nodup_cons, List.mem_map, not_exists,
      not_and] at hn
    rcases List.mem_cons.mp hm with rfl | hm
    · simp [deref]
    · have hne : m0.addr ≠ m.addr := fun e => hn.1 m hm e.symm
      simp only [deref, hne, if_false]
      exact ih hn.2 hm

theorem deref_update (t : Table) (p : Nat) (f : nat_mapping → nat_mapping)
    (hf : ∀ m, (f m).addr = m.addr) : deref (update t p f) p = (deref t p).map f := by
  induction t with
  | nil => rfl
  | cons m0 rest ih =>
    by_cases hk : m0.addr = p
    · simp [update, deref, hk, hf]
    · have ih1 : deref (List.map (fun m => if m.addr = p then f m else m) rest) p =
          (deref rest p).map f := ih
      simp [update, deref, hk, ih1]

theorem kill_no_addr (t : Table) (p : Nat) : ∀ m ∈ kill_mapping t (some p), m.addr ≠ p := by
  intro m hm
  simp only [kill_mapping, List.mem_filter, decide_eq_true_eq] at hm
  exact hm.2

theorem check_mapping_usable (t : Table) (p : Nat) (net : Registry) (m : nat_mapping)
    (hd : deref t p = some m) (hu : usable m) :
    check_mapping t (some p) net =
      if (check_mapping_prune net m).refer_count ≤ 0 then
        (false, kill_mapping (update t p (check_mapping_prune net)) (some p))
      else (true, update t p (check_mapping_prune net)) := by
  have h : ¬ (m.port = 0 ∨ m.int_addr = 0 ∨ m.int_port = 0 ∨ m.ifindex = -1) := by
    rintro (h | h | h | h)
    · exact hu.1 h
    · exact hu.2.1 h
    · exact hu.2.2.1 h
    · exact hu.2.2.2 h
  simp only [check_mapping, hd, h, if_false]

theorem check_mapping_unusable (t : Table) (p : Nat) (net : Registry) (m : nat_mapping)
    (hd : deref t p = some m) (hu : ¬ usable m) : check_mapping t (some p) net = (false, t) := by
  have h : m.port = 0 ∨ m.int_addr = 0 ∨ m.int_port = 0 ∨ m.ifindex = -1 := by
    unfold usable at hu
    by_contra hc
    simp only [not_or] at hc
    exact hu ⟨hc.1, hc.2.1, hc.2.2.1, hc.2.2.2⟩
  simp only [check_mapping, hd, h, if_true]

/-! ## Invariants pass to a table whose keys are a sublist -/

theorem map_addr_keys (t : Table) :
    t.map (fun m => m.addr) = (t.map key).map (fun k => k.1) := by
  simp [List.map_map, key, Function.comp_def]

theorem map_ext_keys (t : Table) :
    t.map (fun m => (m.port, m.ifindex)) = (t.map key).map (fun k => (k.2.1, k.2.2.1)) := by
  simp [List.map_map, key, Function.comp_def]

theorem map_int_keys (t : Table) :
    t.map (fun m => (m.int_addr, m.int_port)) =
      (t.map key).map (fun k => (k.2.2.2.1, k.2.2.2.2)) := by
  simp [List.map_map, key, Function.comp_def]

theorem addr_nodup_sublist (t t1 : Table) (h : List.Sublist (t1.map key) (t.map key))
    (ht : addr_nodup t) : addr_nodup t1 := by
  unfold addr_nodup at *
  rw [map_addr_keys] at *
  exact ht.sublist (h.map _)

theorem ext_unique_sublist (t t1 : Table) (h : List.Sublist (t1.map key) (t.map key))
    (ht : ext_unique t) : ext_unique t1 := by
  unfold ext_unique at *
  rw [map_ext_keys] at *
  exact ht.sublist (h.map _)

theorem int_unique_sublist (t t1 : Table) (h : List.Sublist (t1.map key) (t.map key))
    (ht : int_unique t) : int_unique t1 := by
  unfold int_unique at *
  rw [map_int_keys] at *
  exact ht.sublist (h.map _)

theorem mem_of_keys_sublist (t t1 : Table) (h : List.Sublist (t1.map key) (t.map key))
    (m : nat_mapping) (hm : m ∈ t1) : ∃ m0 ∈ t, key m0 = key m := by
  have h1 : key m ∈ t.map key := h.subset (List.mem_map_of_mem key hm)
  obtain ⟨m0, hm0, e⟩ := List.mem_map.mp h1
  exact ⟨m0, hm0, e⟩

theorem usable_of_key (m m0 : nat_mapping) (e : key m0 = key m) (h : usable m0) : usable m := by
  simp only [key, Prod.mk.injEq] at e
  obtain ⟨_, e2, e3, e4, e5⟩ := e
  unfold usable at *
  rw [← e2, ← e3, ← e4, ← e5]
  exact h

theorem all_usable_sublist (t t1 : Table) (h : List.Sublist (t1.map key) (t.map key))
    (ht : all_usable t) : all_usable t1 := by
  intro m hm
  obtain ⟨m0, hm0, e⟩ := mem_of_keys_sublist t t1 h m hm
  exact usable_of_key m m0 e (ht m0 hm0)

theorem ext_absent_sublist (t t1 : Table) (h : List.Sublist (t1.map key) (t.map key))
    (k : Nat × Int) (hk : k ∉ t.map (fun m => (m.port, m.ifindex))) :
    k ∉ t1.map (fun m => (m.port, m.ifindex)) := by
  rw [map_ext_keys] at *
  exact fun h1 => hk ((h.map _).subset h1)

theorem int_absent_sublist (t t1 : Table) (h : List.Sublist (t1.map key) (t.map key))
    (k : Nat × Nat) (hk : k ∉ t.map (fun m => (m.int_addr, m.int_port))) :
    k ∉ t1.map (fun m => (m.int_addr, m.int_port)) := by
  rw [map_int_keys] at *
  exact fun h1 => hk ((h.map _).subset h1)

/-- Once the only mapping with a given external key has left the table, the key is
free in every table whose keys are a sublist. -/
theorem ext_free_after (t t1 : Table) (m : nat_mapping) (hu : ext_unique t) (hm : m ∈ t)
    (h : List.Sublist (t1.map key) (t.map key)) (hgone : ∀ x ∈ t1, x.addr ≠ m.addr) :
    (m.port, m.ifindex) ∉ t1.map (fun x => (x.port, x.ifindex)) := by
  intro hin
  obtain ⟨x, hx, ex⟩ := List.mem_map.mp hin
  obtain ⟨m0, hm0, e⟩ := mem_of_keys_sublist t t1 h x hx
  simp only [key, Prod.mk.injEq] at e
  have hinj := List.inj_on_of_nodup_map hu hm0 hm
    (by simp only [Prod.mk.injEq] at ex ⊢; exact ⟨e.2.1.trans ex.1, e.2.2.1.trans ex.2⟩)
  exact hgone x hx (by rw [← e.1, hinj])

/-- The same for the internal endpoint. -/
theorem int_free_after (t t1 : Table) (m : nat_mapping) (hu : int_unique t) (hm : m ∈ t)
    (h : List.Sublist (t1.map key) (t.map key)) (hgone : ∀ x ∈ t1, x.addr ≠ m.addr) :
    (m.int_addr, m.int_port) ∉ t1.map (fun x => (x.int_addr, x.int_port)) := by
  intro hin
  obtain ⟨x, hx, ex⟩ := List.mem_map.mp hin
  obtain ⟨m0, hm0, e⟩ := mem_of_keys_sublist t t1 h x hx
  simp only [key, Prod.mk.injEq] at e
  have hinj := List.inj_on_of_nodup_map hu hm0 hm
    (by simp only [Prod.mk.injEq] at ex ⊢
        exact ⟨e.2.2.2.1.trans ex.1, e.2.2.2.2.trans ex.2⟩)
  exact hgone x hx (by rw [← e.1, hinj])

/-! ## What `check_mapping` returns -/

theorem check_mapping_prune_idem (net : Registry) (m : nat_mapping) :
    check_mapping_prune net (check_mapping_prune net m) = check_mapping_prune net m := by
  simp [check_mapping_prune, check_mapping_loop_eq, List.filter_filter]

theorem update_update_idem (t : Table) (p : Nat) (f : nat_mapping → nat_mapping)
    (hf : ∀ m, (f m).addr = m.addr) (hi : ∀ m, f (f m) = f m) :
    update (update t p f) p f = update t p f := by
  simp only [update, List.map_map]
  apply List.map_congr_left
  intro m _
  by_cases h : m.addr = p
  · simp [h, hf, hi]
  · simp [h]

theorem check_mapping_true (t t1 : Table) (p : Nat) (net : Registry)
    (h : check_mapping t (some p) net = (true, t1)) :
    ∃ m, deref t p = some m ∧ usable m ∧ 0 < (check_mapping_prune net m).refer_count ∧
      t1 = update t p (check_mapping_prune net) := by
  cases hd : deref t p with
  | none => simp [check_mapping, hd] at h
  | some m =>
    by_cases hu : usable m
    · rw [check_mapping_usable t p net m hd hu] at h
      split at h
      · simp at h
      · rename_i hc
        simp only [Prod.mk.injEq, true_and] at h
        exact ⟨m, rfl, hu, by omega, h.symm⟩
    · rw [check_mapping_unusable t p net m hd hu] at h
      simp at h

theorem check_mapping_false_usable (t t1 : Table) (p : Nat) (net : Registry) (m : nat_mapping)
    (hd : deref t p = some m) (hu : usable m)
    (h : check_mapping t (some p) net = (false, t1)) : ∀ x ∈ t1, x.addr ≠ p := by
  rw [check_mapping_usable t p net m hd hu] at h
  split at h
  · simp only [Prod.mk.injEq, true_and] at h
    subst h
    exact kill_no_addr _ p
  · simp at h

/-- A check that succeeded succeeds again under the same registry and changes nothing. -/
theorem check_mapping_again (t t1 : Table) (p : Nat) (net : Registry)
    (h : check_mapping t (some p) net = (true, t1)) :
    check_mapping t1 (some p) net = (true, t1) := by
  obtain ⟨m, hd, hu, hc, rfl⟩ := check_mapping_true t t1 p net h
  have hd1 : deref (update t p (check_mapping_prune net)) p = some (check_mapping_prune net m) := by
    rw [deref_update t p (check_mapping_prune net) (fun _ => rfl), hd]
    rfl
  have hu1 : usable (check_mapping_prune net m) :=
    usable_of_key _ m (key_check_mapping_prune net m).symm hu
  rw [check_mapping_usable _ p net _ hd1 hu1, check_mapping_prune_idem,
    update_update_idem t p (check_mapping_prune net) (fun _ => rfl)
      (check_mapping_prune_idem net)]
  have : ¬ (check_mapping_prune net m).refer_count ≤ 0 := by omega
  simp only [this, if_false]

theorem check_mapping_prune_absorb (net net2 : Registry) (m : nat_mapping)
    (hm : ∀ x, net x = true → net2 x = true) :
    check_mapping_prune net2 (check_mapping_prune net m) = check_mapping_prune net m := by
  have hf : (m.original_tuple_list.filter net).filter net2 = m.original_tuple_list.filter net :=
    List.filter_eq_self.mpr (fun x hx => hm x (List.mem_filter.mp hx).2)
  simp [check_mapping_prune, check_mapping_loop_eq, hf]

theorem update_update_absorb (t : Table) (p : Nat) (f g : nat_mapping → nat_mapping)
    (hf : ∀ m, (f m).addr = m.addr) (hi : ∀ m, g (f m) = f m) :
    update (update t p f) p g = update t p f := by
  simp only [update, List.map_map]
  apply List.map_congr_left
  intro m _
  by_cases h : m.addr = p
  · simp [h, hf, hi]
  · simp [h]

/-- A check that succeeded succeeds again, and changes nothing, under every registry that
still reports the flows the first registry reported. -/
theorem check_mapping_again_stable (t t1 : Table) (p : Nat) (net net2 : Registry)
    (h : check_mapping t (some p) net = (true, t1))
    (hm : ∀ x, net x = true → net2 x = true) :
    check_mapping t1 (some p) net2 = (true, t1) := by
  obtain ⟨m, hd, hu, hc, rfl⟩ := check_mapping_true t t1 p net h
  have hd1 : deref (update t p (check_mapping_prune net)) p = some (check_mapping_prune net m) := by
    rw [deref_update t p (check_mapping_prune net) (fun _ => rfl), hd]
    rfl
  have hu1 : usable (check_mapping_prune net m) :=
    usable_of_key _ m (key_check_mapping_prune net m).symm hu
  rw [check_mapping_usable _ p net2 _ hd1 hu1, check_mapping_prune_absorb net net2 m hm,
    update_update_absorb t p (check_mapping_prune net) (check_mapping_prune net2)
      (fun _ => rfl) (fun x => check_mapping_prune_absorb net net2 x hm)]
  have : ¬ (check_mapping_prune net m).refer_count ≤ 0 := by omega
  simp only [this, if_false]

theorem check_mapping_true_deref (t t1 : Table) (p : Nat) (net : Registry)
    (h : check_mapping t (some p) net = (true, t1)) :
    ∃ m, deref t p = some m ∧ deref t1 p = some (check_mapping_prune net m) := by
  obtain ⟨m, hd, _, _, rfl⟩ := check_mapping_true t t1 p net h
  refine ⟨m, hd, ?_⟩
  rw [deref_update t p (check_mapping_prune net) (fun _ => rfl), hd]
  rfl

/-! ## The port `find_appropriate_port` returns is free afterwards -/

theorem check_after_ext_lookup (t t1 : Table) (net : Registry) (p : Nat) (i : Int) (a : Nat)
    (hn : addr_nodup t) (hu : ext_unique t) (ha : all_usable t)
    (hg : get_mapping_by_ext_port t p i = some a)
    (hc : check_mapping t (some a) net = (false, t1)) :
    (p, i) ∉ t1.map (fun x => (x.port, x.ifindex)) := by
  obtain ⟨m, hm, rfl, rfl, rfl⟩ := get_ext_some t p i a hg
  have hd := deref_of_mem t m hn hm
  have hgone := check_mapping_false_usable t t1 m.addr net m hd (ha m hm) hc
  have hk := keys_check t (some m.addr) net
  rw [hc] at hk
  exact ext_free_after t t1 m hu hm hk hgone

theorem loop_free (net : Registry) (min start size : Nat) (ifindex : Int) (todo : Nat)
    (i : Nat) (t t1 : Table) (sel : Nat)
    (hn : addr_nodup t) (hu : ext_unique t) (ha : all_usable t)
    (h : find_appropriate_port_loop net min start size ifindex todo i t = (some sel, t1)) :
    (sel, ifindex) ∉ t1.map (fun x => (x.port, x.ifindex)) := by
  induction todo generalizing i t with
  | zero => simp [find_appropriate_port_loop] at h
  | succ n ih =>
    simp only [find_appropriate_port_loop] at h
    cases hg : get_mapping_by_ext_port t ((min + (start + i) % size) % 65536) ifindex with
    | none =>
      rw [hg] at h
      simp only [Prod.mk.injEq, Option.some.injEq] at h
      obtain ⟨rfl, rfl⟩ := h
      exact (get_ext_none t _ ifindex).mp hg
    | some a =>
      rw [hg] at h
      simp only [] at h
      rcases hr : check_mapping t (some a) net with ⟨b, t2⟩
      rw [hr] at h
      cases b with
      | false =>
        simp only [Prod.mk.injEq, Option.some.injEq] at h
        obtain ⟨rfl, rfl⟩ := h
        exact check_after_ext_lookup t t2 net _ ifindex a hn hu ha hg hr
      | true =>
        have hk := keys_check t (some a) net
        rw [hr] at hk
        exact ih (i + 1) t2 (addr_nodup_sublist t t2 hk hn) (ext_unique_sublist t t2 hk hu)
          (all_usable_sublist t t2 hk ha) h

theorem scan_free (t : Table) (net : Registry) (min start size : Nat) (ifindex : Int)
    (hn : addr_nodup t) (hu : ext_unique t) (ha : all_usable t) :
    ((find_appropriate_port_scan t net min start size ifindex).1, ifindex) ∉
      (find_appropriate_port_scan t net min start size ifindex).2.map
        (fun x => (x.port, x.ifindex)) := by
  unfold find_appropriate_port_scan
  have hk := keys_loop net min start size ifindex size 0 t
  rcases hr : find_appropriate_port_loop net min start size ifindex size 0 t with ⟨o, t1⟩
  rw [hr] at hk
  cases o with
  | some sel => exact loop_free net min start size ifindex size 0 t t1 sel hn hu ha hr
  | none =>
    simp only []
    cases hg : get_mapping_by_ext_port t1 ((min + start) % 65536) ifindex with
    | none => exact (get_ext_none t1 _ ifindex).mp hg
    | some a =>
      obtain ⟨m, hm, rfl, hp, hi⟩ := get_ext_some t1 _ ifindex a hg
      have := ext_free_after t1 (kill_mapping t1 (some m.addr)) m
        (ext_unique_sublist t t1 hk hu) hm (keys_kill t1 (some m.addr))
        (kill_no_addr t1 m.addr)
      rw [hp, hi] at this
      exact this

theorem find_port_free (t : Table) (net : Registry) (rnd op : Nat) (ifindex : Int)
    (range : nf_nat_ipv4_range) (r : Nat × Table)
    (hn : addr_nodup t) (hu : ext_unique t) (ha : all_usable t)
    (h : find_appropriate_port t net rnd op ifindex range = some r) :
    (r.1, ifindex) ∉ r.2.map (fun x => (x.port, x.ifindex)) := by
  unfold find_appropriate_port at h
  simp only [] at h
  split at h
  · split at h
    · exact absurd h (by simp)
    · obtain rfl := Option.some.inj h
      exact scan_free _ _ _ _ _ _ hn hu ha
  · split at h
    · cases hg : get_mapping_by_ext_port t op ifindex with
      | none =>
        rw [hg] at h
        obtain rfl := Option.some.inj h
        exact (get_ext_none t op ifindex).mp hg
      | some p =>
        rw [hg] at h
        simp only [] at h
        have hk := keys_check t (some p) net
        rcases hr : check_mapping t (some p) net with ⟨b, t1⟩
        rw [hr] at hk h
        cases b with
        | false =>
          obtain rfl := Option.some.inj h
          exact check_after_ext_lookup t t1 net op ifindex p hn hu ha hg hr
        | true =>
          obtain rfl := Option.some.inj h
          exact scan_free _ _ _ _ _ _ (addr_nodup_sublist t t1 hk hn)
            (ext_unique_sublist t t1 hk hu) (all_usable_sublist t t1 hk ha)
    · obtain rfl := Option.some.inj h
      exact scan_free _ _ _ _ _ _ hn hu ha

/-! ## The port selection and the save step of the post-routing branch -/

theorem select_fresh (pkt : tg_packet) (env : tg_env) (t0 : Table)
    (r : Option Nat × Nat × Table)
    (h : (match find_appropriate_port t0 env.net env.get_random_u32 pkt.tuple.src_port
          pkt.out_ifindex pkt.range with
        | none => none
        | some (want_port, t1) => some ((none : Option Nat), want_port, t1)) = some r) :
    r.1 = none ∧
      find_appropriate_port t0 env.net env.get_random_u32 pkt.tuple.src_port
        pkt.out_ifindex pkt.range = some (r.2.1, r.2.2) := by
  cases hp : find_appropriate_port t0 env.net env.get_random_u32 pkt.tuple.src_port
      pkt.out_ifindex pkt.range with
  | none => rw [hp] at h; exact absurd h (by simp)
  | some w =>
    rw [hp] at h
    obtain rfl := Option.some.inj h
    exact ⟨rfl, rfl⟩

/-- What the port selection establishes: the table only shrinks; a mapping that is
reused has just passed `check_mapping` and carries the requested port; and when no
mapping is reused, the internal endpoint of the packet and the requested external key
are both absent from the table. -/
theorem select_spec (t : Table) (pkt : tg_packet) (env : tg_env)
    (r : Option Nat × Nat × Table) (hn : addr_nodup t) (ha : all_usable t)
    (h : fullconenat_tg_select t pkt env = some r) :
    List.Sublist (r.2.2.map key) (t.map key) ∧
    (∀ p, r.1 = some p → check_mapping r.2.2 (some p) env.net = (true, r.2.2) ∧
      ∃ m, deref r.2.2 p = some m ∧ m.port = r.2.1 ∧
        m.int_addr = pkt.tuple.src_ip ∧ m.int_port = pkt.tuple.src_port) ∧
    (r.1 = none → int_unique t →
      (pkt.tuple.src_ip, pkt.tuple.src_port) ∉ r.2.2.map (fun x => (x.int_addr, x.int_port))) ∧
    (r.1 = none → ext_unique t →
      (r.2.1, pkt.out_ifindex) ∉ r.2.2.map (fun x => (x.port, x.ifindex))) := by
  unfold fullconenat_tg_select at h
  simp only [] at h
  cases hg : get_mapping_by_int_src t pkt.tuple.src_ip pkt.tuple.src_port with
  | none =>
    rw [hg] at h
    obtain ⟨h1, h2⟩ := select_fresh pkt env t r h
    have hk := keys_find_port _ _ _ _ _ _ _ h2
    refine ⟨hk, ?_, ?_, ?_⟩
    · intro p hp; rw [h1] at hp; exact absurd hp (by simp)
    · intro _ _
      exact int_absent_sublist t _ hk _ ((get_int_none t _ _).mp hg)
    · intro _ hu
      exact find_port_free _ _ _ _ _ _ _ hn hu ha h2
  | some p =>
    rw [hg] at h
    simp only [] at h
    obtain ⟨m, hm, rfl, hma, hmp⟩ := get_int_some t _ _ p hg
    have hd := deref_of_mem t m hn hm
    have hkc := keys_check t (some m.addr) env.net
    rcases hr : check_mapping t (some m.addr) env.net with ⟨b, t1⟩
    rw [hr] at h hkc
    cases b with
    | false =>
      simp only [] at h
      obtain ⟨h1, h2⟩ := select_fresh pkt env t1 r h
      have hk := keys_find_port _ _ _ _ _ _ _ h2
      have hgone := check_mapping_false_usable t t1 m.addr env.net m hd (ha m hm) hr
      refine ⟨hk.trans hkc, ?_, ?_, ?_⟩
      · intro p hp; rw [h1] at hp; exact absurd hp (by simp)
      · intro _ hu
        have := int_free_after t t1 m hu hm hkc hgone
        rw [hma, hmp] at this
        exact int_absent_sublist t1 _ hk _ this
      · intro _ hu
        exact find_port_free _ _ _ _ _ _ _ (addr_nodup_sublist t t1 hkc hn)
          (ext_unique_sublist t t1 hkc hu) (all_usable_sublist t t1 hkc ha) h2
    | true =>
      simp only [] at h
      obtain ⟨m1, hd0, hd1⟩ := check_mapping_true_deref t t1 m.addr env.net hr
      rw [hd] at hd0
      obtain rfl := Option.some.inj hd0
      rw [hd1] at h
      simp only [] at h
      obtain rfl := Option.some.inj h
      refine ⟨hkc, ?_, ?_, ?_⟩
      · intro p hp
        obtain rfl := Option.some.inj hp
        exact ⟨check_mapping_again t t1 _ env.net hr, _, hd1, rfl, hma, hmp⟩
      · intro hp; exact absurd hp (by simp)
      · intro hp; exact absurd hp (by simp)

theorem save_kept (t t2 : Table) (src : Option Nat) (p port : Nat) (pkt : tg_packet)
    (env : tg_env) (hs : src = some p)
    (hr : check_mapping t (some p) env.net_recheck = (true, t2)) :
    fullconenat_tg_save t src port pkt env =
      add_original_tuple_to_mapping t2 env.kmalloc_tuple p pkt.tuple := by
  subst hs
  simp only [fullconenat_tg_save, hr]

/-- The save step when the reused mapping fails the check after the commit: the keys are
those the check left, or one mapping with the committed port was put in front of them. -/
theorem save_replaced (t t2 : Table) (src : Option Nat) (p port : Nat) (pkt : tg_packet)
    (env : tg_env) (hs : src = some p)
    (hr : check_mapping t (some p) env.net_recheck = (false, t2)) :
    (fullconenat_tg_save t src port pkt env).map key = t2.map key ∨
    ∃ a, env.kmalloc_mapping t2 = some a ∧
      (fullconenat_tg_save t src port pkt env).map key =
        (a, port, pkt.out_ifindex, pkt.tuple.src_ip, pkt.tuple.src_port) :: t2.map key := by
  subst hs
  simp only [fullconenat_tg_save, hr, allocate_mapping]
  cases hk : env.kmalloc_mapping t2 with
  | none => left; rfl
  | some a =>
    right
    refine ⟨a, rfl, ?_⟩
    simp only [keys_add]
    rfl

/-- The shape of the table after the save step when a reused mapping passes its second
check: either the keys are unchanged, or nothing was reused and one mapping with the
committed port was put in front. -/
theorem save_shape (t : Table) (src : Option Nat) (port : Nat) (pkt : tg_packet) (env : tg_env)
    (hsrc : ∀ p, src = some p → check_mapping t (some p) env.net_recheck = (true, t)) :
    (fullconenat_tg_save t src port pkt env).map key = t.map key ∨
    (src = none ∧ ∃ a, env.kmalloc_mapping t = some a ∧
      (fullconenat_tg_save t src port pkt env).map key =
        (a, port, pkt.out_ifindex, pkt.tuple.src_ip, pkt.tuple.src_port) :: t.map key) := by
  unfold fullconenat_tg_save
  cases src with
  | some p =>
    left
    simp only [(hsrc p rfl), keys_add]
  | none =>
    simp only [allocate_mapping]
    cases hk : env.kmalloc_mapping t with
    | none => left; rfl
    | some a =>
      right
      refine ⟨trivial, a, rfl, ?_⟩
      simp only [keys_add]
      rfl

theorem addr_nodup_keys_cons (t t1 : Table) (k : Nat × Nat × Int × Nat × Nat)
    (h : t1.map key = k :: t.map key) (hk : ∀ m ∈ t, m.addr ≠ k.1) (ht : addr_nodup t) :
    addr_nodup t1 := by
  unfold addr_nodup at *
  rw [map_addr_keys] at *
  rw [h, List.map_cons, List.nodup_cons]
  refine ⟨?_, ht⟩
  rw [← map_addr_keys]
  intro hin
  obtain ⟨m, hm, e⟩ := List.mem_map.mp hin
  exact hk m hm e

theorem ext_unique_keys_cons (t t1 : Table) (k : Nat × Nat × Int × Nat × Nat)
    (h : t1.map key = k :: t.map key)
    (hk : (k.2.1, k.2.2.1) ∉ t.map (fun m => (m.port, m.ifindex))) (ht : ext_unique t) :
    ext_unique t1 := by
  unfold ext_unique at *
  rw [map_ext_keys] at *
  rw [h, List.map_cons, List.nodup_cons]
  exact ⟨hk, ht⟩

theorem int_unique_keys_cons (t t1 : Table) (k : Nat × Nat × Int × Nat × Nat)
    (h : t1.map key = k :: t.map key)
    (hk : (k.2.2.2.1, k.2.2.2.2) ∉ t.map (fun m => (m.int_addr, m.int_port)))
    (ht : int_unique t) : int_unique t1 := by
  unfold int_unique at *
  rw [map_int_keys] at *
  rw [h, List.map_cons, List.nodup_cons]
  exact ⟨hk, ht⟩

theorem all_usable_keys_cons (t t1 : Table) (k : Nat × Nat × Int × Nat × Nat)
    (h : t1.map key = k :: t.map key)
    (hk : k.2.1 ≠ 0 ∧ k.2.2.2.1 ≠ 0 ∧ k.2.2.2.2 ≠ 0 ∧ k.2.2.1 ≠ -1) (ht : all_usable t) :
    all_usable t1 := by
  intro m hm
  have h1 : key m ∈ t1.map key := List.mem_map_of_mem key hm
  rw [h] at h1
  rcases List.mem_cons.mp h1 with e | h2
  · have e1 : k = (m.addr, m.port, m.ifindex, m.int_addr, m.int_port) := e.symm
    subst e1
    exact hk
  · obtain ⟨m0, hm0, e⟩ := List.mem_map.mp h2
    exact usable_of_key m m0 e (ht m0 hm0)

theorem newrange_min_proto (nr : nf_nat_range) (pkt : tg_packet) (env : tg_env) :
    (fullconenat_tg_newrange nr pkt env).min_proto = nr.min_proto := by
  unfold fullconenat_tg_newrange
  split <;> rfl

/-- One run of `fullconenat_tg` keeps address distinctness, usability and the uniqueness
of internal endpoints when the allocator is sound and an outbound UDP packet can only
create a usable mapping; it keeps the uniqueness of external keys as well when the
requested port is committed and no flow of a reused mapping ends before the check after
the commit. -/
theorem tg_keeps (t : Table) (pkt : tg_packet) (env : tg_env) (r : tg_result)
    (hn : addr_nodup t) (ha : all_usable t) (hf : kmalloc_fresh env)
    (hc : pkt.hooknum = NF_INET_POST_ROUTING → pkt.tuple.protonum = IPPROTO_UDP →
      creates_usable pkt env)
    (h : fullconenat_tg t pkt env = some r) :
    addr_nodup r.table ∧ all_usable r.table ∧ (int_unique t → int_unique r.table) ∧
      (commits_requested env → recheck_stable env → ext_unique t → ext_unique r.table) := by
  have shrink : ∀ t1 : Table, List.Sublist (t1.map key) (t.map key) →
      addr_nodup t1 ∧ all_usable t1 ∧ (int_unique t → int_unique t1) ∧
        (commits_requested env → recheck_stable env → ext_unique t → ext_unique t1) :=
    fun t1 hk =>
    ⟨addr_nodup_sublist t t1 hk hn, all_usable_sublist t t1 hk ha,
      int_unique_sublist t t1 hk, fun _ _ => ext_unique_sublist t t1 hk⟩
  unfold fullconenat_tg at h
  split at h
  · obtain rfl := Option.some.inj h
    exact shrink _ (keys_inbound t pkt env)
  · split at h
    · rename_i hhook
      unfold fullconenat_tg_outbound at h
      split at h
      · rename_i hudp
        cases hs : fullconenat_tg_select t pkt env with
        | none => rw [hs] at h; exact absurd h (by simp)
        | some w =>
          rw [hs] at h
          obtain rfl := Option.some.inj h
          obtain ⟨hk, hsrc, hint, hext⟩ := select_spec t pkt env w hn ha hs
          obtain ⟨h1, h2, h3, h4⟩ := hc hhook hudp
          unfold fullconenat_tg_snat
          simp only []
          split
          · exact shrink _ hk
          · rename_i hret
            simp only [not_or, not_not] at hret
            have hacc := hret.2
            rcases Option.eq_none_or_eq_some w.1 with e0 | ⟨p, e0⟩
            · rcases save_shape w.2.2 w.1 _ pkt env
                (fun p hp => by rw [e0] at hp; exact absurd hp (by simp)) with e | ⟨_, a, ea, e⟩
              · exact shrink _ (by rw [e]; exact hk)
              · refine ⟨?_, ?_, ?_, ?_⟩
                · exact addr_nodup_keys_cons _ _ _ e (hf _ a ea) (addr_nodup_sublist t _ hk hn)
                · exact all_usable_keys_cons _ _ _ e ⟨h4 _ hacc, h1, h2, h3⟩
                    (all_usable_sublist t _ hk ha)
                · intro hi
                  exact int_unique_keys_cons _ _ _ e (hint e0 hi) (int_unique_sublist t _ hk hi)
                · intro hcr _ hu
                  refine ext_unique_keys_cons _ _ _ e ?_ (ext_unique_sublist t _ hk hu)
                  have hp := hcr _ hacc
                  rw [newrange_min_proto] at hp
                  simp only [hp]
                  exact hext e0 hu
            · obtain ⟨hck, m, hdm, _, hma, hmp⟩ := hsrc p e0
              have hk2 := keys_check w.2.2 (some p) env.net_recheck
              rcases hr2 : check_mapping w.2.2 (some p) env.net_recheck with ⟨b, t2⟩
              rw [hr2] at hk2
              cases b with
              | true =>
                rw [save_kept w.2.2 t2 w.1 p _ pkt env e0 hr2]
                exact shrink _ (by rw [keys_add]; exact hk2.trans hk)
              | false =>
                obtain ⟨hmem, hmaddr⟩ := deref_some w.2.2 p m hdm
                have hgone := check_mapping_false_usable w.2.2 t2 p env.net_recheck m hdm
                  (all_usable_sublist t _ hk ha m hmem) hr2
                rcases save_replaced w.2.2 t2 w.1 p
                  (env.nf_nat_setup_info (fullconenat_tg_newrange
                    ⟨NF_NAT_RANGE_MAP_IPS ||| NF_NAT_RANGE_PROTO_SPECIFIED, 0, 0, w.2.1, w.2.1⟩
                    pkt env)).2 pkt env e0 hr2 with e | ⟨a, ea, e⟩
                · exact shrink _ (by rw [e]; exact hk2.trans hk)
                · refine ⟨?_, ?_, ?_, ?_⟩
                  · exact addr_nodup_keys_cons _ _ _ e (hf _ a ea)
                      (addr_nodup_sublist t _ (hk2.trans hk) hn)
                  · exact all_usable_keys_cons _ _ _ e ⟨h4 _ hacc, h1, h2, h3⟩
                      (all_usable_sublist t _ (hk2.trans hk) ha)
                  · intro hi
                    refine int_unique_keys_cons _ _ _ e ?_
                      (int_unique_sublist t _ (hk2.trans hk) hi)
                    have hfree := int_free_after w.2.2 t2 m (int_unique_sublist t _ hk hi) hmem
                      hk2 (by rw [hmaddr]; exact hgone)
                    rw [hma, hmp] at hfree
                    exact hfree
                  · intro _ hst _
                    have := check_mapping_again_stable w.2.2 w.2.2 p env.net env.net_recheck
                      hck hst
                    rw [hr2] at this
                    exact absurd (congrArg Prod.fst this) (by simp)
      · rename_i hudp
        obtain rfl := Option.some.inj h
        unfold fullconenat_tg_snat
        simp only [ne_eq, hudp, not_false_eq_true, true_or, if_true]
        exact shrink _ (List.Sublist.refl _)
    · obtain rfl := Option.some.inj h
      exact shrink _ (List.Sublist.refl _)

/-- Every state reachable by steps with a sound allocator and usable outbound packets
has distinct addresses, only usable mappings and unique internal endpoints; its
external keys are unique as well when every step commits the requested port and loses
no flow between its checks. -/
theorem reachable_keeps (P : tg_packet → tg_env → Prop)
    (hP : ∀ pkt env, P pkt env → kmalloc_fresh env ∧ outbound_usable pkt env)
    (t : Table) (h : Reachable P t) :
    addr_nodup t ∧ all_usable t ∧ int_unique t ∧
      ((∀ pkt env, P pkt env → commits_requested env ∧ recheck_stable env) →
        ext_unique t) := by
  induction h with
  | empty =>
    refine ⟨?_, ?_, ?_, ?_⟩
    · simp [addr_nodup]
    · intro m hm; exact absurd hm (List.not_mem_nil m)
    · simp [int_unique]
    · intro _; simp [ext_unique]
  | tg t pkt env r _ hp hr ih =>
    obtain ⟨h1, h2, h3, h4⟩ := tg_keeps t pkt env r ih.1 ih.2.1 (hP pkt env hp).1
      (hP pkt env hp).2 hr
    exact ⟨h1, h2, h3 ih.2.2.1,
      fun hc => h4 (hc pkt env hp).1 (hc pkt env hp).2 (ih.2.2.2 hc)⟩
  | drain t q _ ih =>
    exact ⟨addr_nodup_sublist t _ (keys_dying_tuples q t) ih.1,
      all_usable_sublist t _ (keys_dying_tuples q t) ih.2.1,
      int_unique_sublist t _ (keys_dying_tuples q t) ih.2.2.1,
      fun hc => ext_unique_sublist t _ (keys_dying_tuples q t) (ih.2.2.2 hc)⟩

theorem next_addr_gt (t : Table) : ∀ m ∈ t, m.addr < next_addr t := by
  induction t with
  | nil => intro m hm; exact absurd hm (List.not_mem_nil m)
  | cons m0 rest ih =>
    intro m hm
    have e : next_addr (m0 :: rest) = max m0.addr (next_addr rest - 1) + 1 := by
      simp [next_addr]
    rcases List.mem_cons.mp hm with rfl | hm
    · rw [e]; omega
    · have := ih m hm
      rw [e]; omega

theorem sample_env_fresh : kmalloc_fresh sample_env := by
  intro t a h m hm
  have e : next_addr t = a := Option.some.inj h
  have := next_addr_gt t m hm
  omega

theorem sample_env_nz_fresh : kmalloc_fresh sample_env_nz := sample_env_fresh

theorem sample_out_usable : outbound_usable sample_out sample_env_nz := by
  intro _ _
  refine ⟨by decide, by decide, by decide, ?_⟩
  intro r h
  by_cases h0 : r.min_proto = 0
  · simp [sample_env_nz, h0, NF_ACCEPT] at h
  · simp [sample_env_nz, h0]

theorem sample_env_nz_usable (pkt : tg_packet) (h1 : pkt.tuple.src_ip ≠ 0)
    (h2 : pkt.tuple.src_port ≠ 0) (h3 : pkt.out_ifindex ≠ -1) :
    outbound_usable pkt sample_env_nz := by
  intro _ _
  refine ⟨h1, h2, h3, ?_⟩
  intro r h
  by_cases h0 : r.min_proto = 0
  · simp [sample_env_nz, h0, NF_ACCEPT] at h
  · simp [sample_env_nz, h0]

/-- C3, as amended. Internal-endpoint uniqueness: in every table state reachable from
the empty table by runs of `fullconenat_tg` (any hook, any registry before the commit,
any registry at the check after the commit, any committed port) and drains of
`handle_dying_tuples`, where the allocator never returns a live address and every
outbound UDP packet has a non-zero source address and port, an outgoing interface index
other than -1 and is never committed at port 0, no two mappings of the table have the
same `(int_addr, int_port)`. -/
theorem int_unique_reachable (t : Table)
    (h : Reachable (fun pkt env => kmalloc_fresh env ∧ outbound_usable pkt env) t) :
    (t.map (fun m => (m.int_addr, m.int_port))).Nodup :=
  (reachable_keeps _ (fun _ _ hp => hp) t h).2.2.1

theorem int_unique_reachable_witness :
    Reachable (fun pkt env => kmalloc_fresh env ∧ outbound_usable pkt env)
      [⟨3, 5000, 3, 167772162, 5000, 1, [sample_out_rerouted.tuple]⟩,
       ⟨2, 5000, 3, 167772163, 5000, 1, [endpoint_b_out.tuple]⟩] ∧
    (([⟨3, 5000, 3, 167772162, 5000, 1, [sample_out_rerouted.tuple]⟩,
       ⟨2, 5000, 3, 167772163, 5000, 1, [endpoint_b_out.tuple]⟩] : Table).map
      (fun m => (m.int_addr, m.int_port))).Nodup :=
  have h : Reachable (fun pkt env => kmalloc_fresh env ∧ outbound_usable pkt env)
      [⟨3, 5000, 3, 167772162, 5000, 1, [sample_out_rerouted.tuple]⟩,
       ⟨2, 5000, 3, 167772163, 5000, 1, [endpoint_b_out.tuple]⟩] :=
    Reachable.tg
      [⟨2, 5000, 3, 167772163, 5000, 1, [endpoint_b_out.tuple]⟩,
       ⟨1, 5000, 2, 167772162, 5000, 1, [sample_out.tuple]⟩]
      sample_out_rerouted sample_env_expired
      ⟨NF_ACCEPT, some ⟨3, 3405803777, 3405803777, 5000, 5000⟩,
        [⟨3, 5000, 3, 167772162, 5000, 1, [sample_out_rerouted.tuple]⟩,
         ⟨2, 5000, 3, 167772163, 5000, 1, [endpoint_b_out.tuple]⟩]⟩
      (Reachable.tg [⟨1, 5000, 2, 167772162, 5000, 1, [sample_out.tuple]⟩]
        endpoint_b_out sample_env_nz
        ⟨NF_ACCEPT, some ⟨3, 3405803777, 3405803777, 5000, 5000⟩,
          [⟨2, 5000, 3, 167772163, 5000, 1, [endpoint_b_out.tuple]⟩,
           ⟨1, 5000, 2, 167772162, 5000, 1, [sample_out.tuple]⟩]⟩
        (Reachable.tg [] sample_out sample_env_nz
          ⟨NF_ACCEPT, some ⟨3, 3405803777, 3405803777, 5000, 5000⟩,
            [⟨1, 5000, 2, 167772162, 5000, 1, [sample_out.tuple]⟩]⟩
          Reachable.empty ⟨sample_env_nz_fresh, sample_out_usable⟩ rfl)
        ⟨sample_env_nz_fresh,
          sample_env_nz_usable endpoint_b_out (by decide) (by decide) (by decide)⟩ rfl)
      ⟨sample_env_nz_fresh,
        sample_env_nz_usable sample_out_rerouted (by decide) (by decide) (by decide)⟩ rfl
  ⟨h, int_unique_reachable _ h⟩

/-- C3 as stated fails: an outbound UDP packet from 0.0.0.0:68 followed by a second one
from the same endpoint leads from the empty table to a table with two mappings for the
internal endpoint `(0, 68)`: the first mapping is found by `get_mapping_by_int_src`,
`check_mapping` answers 0 for it without removing it, and a second one is allocated. -/
theorem int_unique_counterexample :
    Reachable (fun _ env => kmalloc_fresh env)
      [⟨2, 68, 2, 0, 68, 1, [dhcp_out_unicast.tuple]⟩, ⟨1, 68, 2, 0, 68, 1, [dhcp_out.tuple]⟩] ∧
    ¬ (([⟨2, 68, 2, 0, 68, 1, [dhcp_out_unicast.tuple]⟩,
          ⟨1, 68, 2, 0, 68, 1, [dhcp_out.tuple]⟩] : Table).map
        (fun m => (m.int_addr, m.int_port))).Nodup :=
  ⟨Reachable.tg [⟨1, 68, 2, 0, 68, 1, [dhcp_out.tuple]⟩] dhcp_out_unicast sample_env
      ⟨NF_ACCEPT, some ⟨3, 3405803777, 3405803777, 68, 68⟩,
        [⟨2, 68, 2, 0, 68, 1, [dhcp_out_unicast.tuple]⟩,
          ⟨1, 68, 2, 0, 68, 1, [dhcp_out.tuple]⟩]⟩
      (Reachable.tg [] dhcp_out sample_env
        ⟨NF_ACCEPT, some ⟨3, 3405803777, 3405803777, 68, 68⟩,
          [⟨1, 68, 2, 0, 68, 1, [dhcp_out.tuple]⟩]⟩
        Reachable.empty sample_env_fresh rfl)
      sample_env_fresh rfl,
    by decide⟩

/-! ## Outbound convergence -/

theorem range_size_exact (range : nf_nat_ipv4_range)
    (hs : range.flags &&& NF_NAT_RANGE_PROTO_SPECIFIED ≠ 0)
    (h1 : range.min ≤ range.max) (h2 : range.max < 65536)
    (h3 : ¬ (range.min = 0 ∧ range.max = 65535)) :
    range_size range = range.max - range.min + 1 := by
  simp only [range_size, hs, to_u16, ne_eq, not_false_eq_true, if_true]
  omega

theorem range_min_specified (range : nf_nat_ipv4_range)
    (hs : range.flags &&& NF_NAT_RANGE_PROTO_SPECIFIED ≠ 0) : range_min range = range.min := by
  unfold range_min
  exact if_pos hs

theorem range_min_default (range : nf_nat_ipv4_range)
    (hs : ¬ range.flags &&& NF_NAT_RANGE_PROTO_SPECIFIED ≠ 0) : range_min range = 1024 := by
  unfold range_min
  exact if_neg hs

theorem range_size_default (range : nf_nat_ipv4_range)
    (hs : ¬ range.flags &&& NF_NAT_RANGE_PROTO_SPECIFIED ≠ 0) :
    range_size range = 64512 := by
  simp only [range_size, hs, to_u16, if_false]
  decide

/-- Port preservation as the code has it: without a random flag, when no range is
specified, or when the original port lies in an explicit range `[min,max]` other than
`[0,65535]`, a port with no mapping on the interface is returned and the table is left as
it is. -/
theorem port_preserved (t : Table) (net : Registry) (rnd op : Nat) (ifindex : Int)
    (range : nf_nat_ipv4_range)
    (hr1 : range.flags &&& NF_NAT_RANGE_PROTO_RANDOM = 0)
    (hr2 : range.flags &&& NF_NAT_RANGE_PROTO_RANDOM_FULLY = 0)
    (hin : ¬ range.flags &&& NF_NAT_RANGE_PROTO_SPECIFIED ≠ 0 ∨
      (range.min ≤ op ∧ op ≤ range.max ∧ range.max < 65536 ∧
        ¬ (range.min = 0 ∧ range.max = 65535)))
    (hfree : get_mapping_by_ext_port t op ifindex = none) :
    find_appropriate_port t net rnd op ifindex range = some (op, t) := by
  have hcond : (op ≥ range_min range ∧
      (op : Int) ≤ (range_min range : Int) + (range_size range : Int) - 1) ∨
      ¬ range.flags &&& NF_NAT_RANGE_PROTO_SPECIFIED ≠ 0 := by
    rcases hin with h | ⟨h1, h2, h3, h4⟩
    · exact Or.inr h
    · by_cases hs : range.flags &&& NF_NAT_RANGE_PROTO_SPECIFIED ≠ 0
      · left
        rw [range_size_exact range hs (by omega) h3 h4, range_min_specified range hs]
        omega
      · exact Or.inr hs
  simp only [find_appropriate_port, hr1, hr2, ne_eq, not_true_eq_false, or_self, if_false,
    hcond, if_true, hfree]

/-- The example of the specification: with the range `[1024,65535]` and nothing mapped at
port 5000, the original port 5000 is returned. -/
theorem port_preservation_example :
    find_appropriate_port [] (fun _ => true) 0 5000 2 high_range = some (5000, []) := by
  decide

/-- C5, at the failing input. With the explicit range `[0,65535]` and no random flag, the
16-bit `range_size` is 0, the preservation test `original_port <= min + range_size - 1`
is false for every port, the loop does not run, and `find_appropriate_port` returns port
0 for the original port 5000 although nothing is mapped at 5000. -/
theorem port_preservation_full_range :
    range_size full_range = 0 ∧
    get_mapping_by_ext_port [] 5000 2 = none ∧
    find_appropriate_port [] (fun _ => true) 0 5000 2 full_range = some (0, []) := by
  decide

/-! ## The scan of the port allocator -/

theorem accepted_iff (t : Table) (net : Registry) (p : Nat) (i : Int) :
    accepted t net p i = true ↔
      ∃ a, get_mapping_by_ext_port t p i = some a ∧ (check_mapping t (some a) net).1 = true := by
  unfold accepted
  cases get_mapping_by_ext_port t p i with
  | none => simp
  | some a => simp

theorem check_fst_iff (t : Table) (a : Nat) (net : Registry) :
    (check_mapping t (some a) net).1 = true ↔
      ∃ m, deref t a = some m ∧ usable m ∧ 0 < (check_mapping_prune net m).refer_count := by
  constructor
  · intro h
    rcases hr : check_mapping t (some a) net with ⟨b, t1⟩
    rw [hr] at h
    simp only at h
    subst h
    obtain ⟨m, h1, h2, h3, _⟩ := check_mapping_true t t1 a net hr
    exact ⟨m, h1, h2, h3⟩
  · rintro ⟨m, h1, h2, h3⟩
    rw [check_mapping_usable t a net m h1 h2]
    have : ¬ (check_mapping_prune net m).refer_count ≤ 0 := by omega
    simp only [this, if_false]

theorem deref_update_other (t : Table) (p q : Nat) (f : nat_mapping → nat_mapping)
    (hf : ∀ m, (f m).addr = m.addr) :
    deref (update t p f) q = (deref t q).map (fun m => if m.addr = p then f m else m) := by
  induction t with
  | nil => rfl
  | cons m0 rest ih =>
    have hx : (if m0.addr = p then f m0 else m0).addr = m0.addr := by
      split
      · exact hf m0
      · rfl
    show deref ((if m0.addr = p then f m0 else m0) :: update rest p f) q = _
    simp only [deref, hx]
    by_cases hk : m0.addr = q
    · rw [if_pos hk, if_pos hk]
      rfl
    · rw [if_neg hk, if_neg hk]
      exact ih

theorem get_ext_keys (t t1 : Table) (h : t1.map key = t.map key) (p : Nat) (i : Int) :
    get_mapping_by_ext_port t1 p i = get_mapping_by_ext_port t p i := by
  induction t generalizing t1 with
  | nil =>
    simp only [List.map_nil, List.map_eq_nil_iff] at h
    subst h
    rfl
  | cons m rest ih =>
    cases t1 with
    | nil => simp at h
    | cons m1 rest1 =>
      simp only [List.map_cons, List.cons.injEq] at h
      obtain ⟨hk, hrest⟩ := h
      simp only [key, Prod.mk.injEq] at hk
      obtain ⟨e1, e2, e3, _, _⟩ := hk
      simp only [get_mapping_by_ext_port, e1, e2, e3, ih rest1 hrest]

theorem accepted_update_iff (t : Table) (net : Registry) (q : Nat) (p : Nat) (i : Int) :
    accepted (update t q (check_mapping_prune net)) net p i = true ↔
      accepted t net p i = true := by
  have hk := keys_update t q (check_mapping_prune net) (key_check_mapping_prune net)
  simp only [accepted_iff, get_ext_keys t _ hk, check_fst_iff,
    deref_update_other t q _ (check_mapping_prune net) (fun _ => rfl)]
  constructor
  · rintro ⟨a, h1, m, h2, h3, h4⟩
    refine ⟨a, h1, ?_⟩
    cases hd : deref t a with
    | none => rw [hd] at h2; simp at h2
    | some m0 =>
      rw [hd] at h2
      simp only [Option.map_some', Option.some.injEq] at h2
      subst h2
      by_cases hq : m0.addr = q
      · simp only [hq, if_true] at h3 h4
        rw [check_mapping_prune_idem] at h4
        exact ⟨m0, rfl, usable_of_key m0 _ (key_check_mapping_prune net m0) h3, h4⟩
      · simp only [hq, if_false] at h3 h4
        exact ⟨m0, rfl, h3, h4⟩
  · rintro ⟨a, h1, m, h2, h3, h4⟩
    refine ⟨a, h1, _, by rw [h2]; rfl, ?_⟩
    by_cases hq : m.addr = q
    · simp only [hq, if_true]
      rw [check_mapping_prune_idem]
      exact ⟨usable_of_key _ m (key_check_mapping_prune net m).symm h3, h4⟩
    · simp only [hq, if_false]
      exact ⟨h3, h4⟩

theorem kill_mapping_cons (m : nat_mapping) (rest : Table) (a : Nat) :
    kill_mapping (m :: rest) (some a) =
      if m.addr = a then kill_mapping rest (some a) else m :: kill_mapping rest (some a) := by
  by_cases h : m.addr = a
  · simp [kill_mapping, List.filter_cons, h]
  · simp [kill_mapping, List.filter_cons, h]

theorem get_ext_kill (t : Table) (p : Nat) (i : Int) (a b : Nat)
    (h : get_mapping_by_ext_port t p i = some b) (hne : b ≠ a) :
    get_mapping_by_ext_port (kill_mapping t (some a)) p i = some b := by
  induction t with
  | nil => simp [get_mapping_by_ext_port] at h
  | cons m rest ih =>
    rw [kill_mapping_cons]
    by_cases hk : m.port = p ∧ m.ifindex = i
    · simp only [get_mapping_by_ext_port, hk, and_self, if_true, Option.some.injEq] at h
      have hma : ¬ m.addr = a := by rw [h]; exact hne
      rw [if_neg hma]
      simp only [get_mapping_by_ext_port, hk, and_self, if_true, h]
    · simp only [get_mapping_by_ext_port, hk, if_false] at h
      by_cases hma : m.addr = a
      · rw [if_pos hma]
        exact ih h
      · rw [if_neg hma]
        simp only [get_mapping_by_ext_port, hk, if_false]
        exact ih h

theorem rejected_lookup (t t1 : Table) (net : Registry) (i : Int) (a : Nat)
    (hc : check_mapping t (some a) net = (false, t1)) (p : Nat)
    (hp : accepted t net p i = true) :
    get_mapping_by_ext_port t1 p i = get_mapping_by_ext_port t p i := by
  obtain ⟨b, hb, hcb⟩ := (accepted_iff t net p i).mp hp
  have hne : b ≠ a := by
    rintro rfl
    rw [hc] at hcb
    simp at hcb
  cases hd : deref t a with
  | none =>
    simp only [check_mapping, hd, Prod.mk.injEq, true_and] at hc
    rw [← hc]
  | some m =>
    by_cases hu : usable m
    · rw [check_mapping_usable t a net m hd hu] at hc
      split at hc
      · simp only [Prod.mk.injEq, true_and] at hc
        subst hc
        rw [hb]
        apply get_ext_kill _ p i a b _ hne
        rw [get_ext_keys t _ (keys_update t a _ (key_check_mapping_prune net)), hb]
      · simp at hc
    · rw [check_mapping_unusable t a net m hd hu] at hc
      simp only [Prod.mk.injEq, true_and] at hc
      rw [← hc]

theorem loop_all_accepted (net : Registry) (min start size : Nat) (ifindex : Int)
    (todo : Nat) (i0 : Nat) (t : Table)
    (h : ∀ j < todo, accepted t net ((min + (start + (i0 + j)) % size) % 65536) ifindex = true) :
    ∃ t1, find_appropriate_port_loop net min start size ifindex todo i0 t = (none, t1) ∧
      t1.map key = t.map key := by
  induction todo generalizing i0 t with
  | zero => exact ⟨t, rfl, rfl⟩
  | succ n ih =>
    have h0 := h 0 (by omega)
    rw [Nat.add_zero] at h0
    obtain ⟨a, ha, hca⟩ := (accepted_iff _ _ _ _).mp h0
    rcases hr : check_mapping t (some a) net with ⟨b, t1⟩
    rw [hr] at hca
    simp only at hca
    subst hca
    obtain ⟨m, _, _, _, rfl⟩ := check_mapping_true t t1 a net hr
    have hk := keys_update t a (check_mapping_prune net) (key_check_mapping_prune net)
    obtain ⟨t2, h1, h2⟩ := ih (i0 + 1) (update t a (check_mapping_prune net)) (by
      intro j hj
      have := h (j + 1) (by omega)
      rw [show i0 + (j + 1) = i0 + 1 + j by omega] at this
      exact (accepted_update_iff t net a _ ifindex).mpr this)
    refine ⟨t2, ?_, h2.trans hk⟩
    simp only [find_appropriate_port_loop, ha, hr, h1]

theorem loop_first_rejected (net : Registry) (min start size : Nat) (ifindex : Int)
    (k : Nat) (todo : Nat) (i0 : Nat) (t : Table) (hk : k < todo)
    (hbefore : ∀ j < k,
      accepted t net ((min + (start + (i0 + j)) % size) % 65536) ifindex = true)
    (hat : accepted t net ((min + (start + (i0 + k)) % size) % 65536) ifindex = false) :
    ∃ t1, find_appropriate_port_loop net min start size ifindex todo i0 t =
        (some ((min + (start + (i0 + k)) % size) % 65536), t1) ∧
      ∀ p, accepted t net p ifindex = true →
        get_mapping_by_ext_port t1 p ifindex = get_mapping_by_ext_port t p ifindex := by
  induction k generalizing todo i0 t with
  | zero =>
    obtain ⟨n, rfl⟩ : ∃ n, todo = n + 1 := ⟨todo - 1, by omega⟩
    simp only [Nat.add_zero] at hat ⊢
    simp only [find_appropriate_port_loop]
    unfold accepted at hat
    cases hg : get_mapping_by_ext_port t ((min + (start + i0) % size) % 65536) ifindex with
    | none => exact ⟨t, rfl, fun _ _ => rfl⟩
    | some a =>
      rw [hg] at hat
      simp only at hat
      rcases hr : check_mapping t (some a) net with ⟨b, t1⟩
      rw [hr] at hat
      simp only at hat
      subst hat
      refine ⟨t1, ?_, fun p hp => rejected_lookup t t1 net ifindex a hr p hp⟩
      simp only [hr]
  | succ k ih =>
    obtain ⟨n, rfl⟩ : ∃ n, todo = n + 1 := ⟨todo - 1, by omega⟩
    have h0 := hbefore 0 (by omega)
    rw [Nat.add_zero] at h0
    obtain ⟨a, ha, hca⟩ := (accepted_iff _ _ _ _).mp h0
    rcases hr : check_mapping t (some a) net with ⟨b, t1⟩
    rw [hr] at hca
    simp only at hca
    subst hca
    obtain ⟨m, _, _, _, rfl⟩ := check_mapping_true t t1 a net hr
    have hkeys := keys_update t a (check_mapping_prune net) (key_check_mapping_prune net)
    obtain ⟨t2, h1, h2⟩ := ih n (i0 + 1) (update t a (check_mapping_prune net)) (by omega)
      (by
        intro j hj
        have := hbefore (j + 1) (by omega)
        rw [show i0 + (j + 1) = i0 + 1 + j by omega] at this
        exact (accepted_update_iff t net a _ ifindex).mpr this)
      (by
        rw [show i0 + (k + 1) = i0 + 1 + k by omega] at hat
        cases hx : accepted (update t a (check_mapping_prune net)) net
            ((min + (start + (i0 + 1 + k)) % size) % 65536) ifindex with
        | false => rfl
        | true =>
          rw [(accepted_update_iff t net a _ ifindex).mp hx] at hat
          exact absurd hat (by simp))
    refine ⟨t2, ?_, ?_⟩
    · simp only [find_appropriate_port_loop, ha, hr, h1]
      rw [show i0 + 1 + k = i0 + (k + 1) by omega]
    · intro p hp
      rw [h2 p ((accepted_update_iff t net a p ifindex).mpr hp), get_ext_keys t _ hkeys]

theorem present_of_keys (t t1 : Table) (h : t1.map key = t.map key) (m : nat_mapping)
    (hm : m ∈ t) : ∃ m1 ∈ t1, key m1 = key m := by
  have h1 : key m ∈ t1.map key := by rw [h]; exact List.mem_map_of_mem key hm
  obtain ⟨m1, hm1, e⟩ := List.mem_map.mp h1
  exact ⟨m1, hm1, e⟩

theorem find_appropriate_port_random (t : Table) (net : Registry) (rnd op : Nat)
    (ifindex : Int) (range : nf_nat_ipv4_range)
    (hr : range.flags &&& NF_NAT_RANGE_PROTO_RANDOM ≠ 0
      ∨ range.flags &&& NF_NAT_RANGE_PROTO_RANDOM_FULLY ≠ 0)
    (hs : range_size range ≠ 0) :
    find_appropriate_port t net rnd op ifindex range =
      some (find_appropriate_port_scan t net (range_min range)
        ((rnd % range_size range) % 65536) (range_size range) ifindex) := by
  simp only [find_appropriate_port, hr, if_true, hs, if_false]

theorem find_appropriate_port_occupied (t t1 : Table) (net : Registry) (rnd op : Nat)
    (ifindex : Int) (range : nf_nat_ipv4_range) (a : Nat)
    (hr1 : range.flags &&& NF_NAT_RANGE_PROTO_RANDOM = 0)
    (hr2 : range.flags &&& NF_NAT_RANGE_PROTO_RANDOM_FULLY = 0)
    (hin : (op ≥ range_min range ∧
        (op : Int) ≤ (range_min range : Int) + (range_size range : Int) - 1) ∨
      ¬ range.flags &&& NF_NAT_RANGE_PROTO_SPECIFIED ≠ 0)
    (hg : get_mapping_by_ext_port t op ifindex = some a)
    (hc : check_mapping t (some a) net = (true, t1)) :
    find_appropriate_port t net rnd op ifindex range =
      some (find_appropriate_port_scan t1 net (range_min range) 0 (range_size range)
        ifindex) := by
  simp only [find_appropriate_port, hr1, hr2, ne_eq, not_true_eq_false, or_self, if_false,
    hin, if_true, hg, hc]

theorem find_appropriate_port_outside (t : Table) (net : Registry) (rnd op : Nat)
    (ifindex : Int) (range : nf_nat_ipv4_range)
    (hr1 : range.flags &&& NF_NAT_RANGE_PROTO_RANDOM = 0)
    (hr2 : range.flags &&& NF_NAT_RANGE_PROTO_RANDOM_FULLY = 0)
    (hin : ¬ ((op ≥ range_min range ∧
        (op : Int) ≤ (range_min range : Int) + (range_size range : Int) - 1) ∨
      ¬ range.flags &&& NF_NAT_RANGE_PROTO_SPECIFIED ≠ 0)) :
    find_appropriate_port t net rnd op ifindex range =
      some (find_appropriate_port_scan t net (range_min range) 0 (range_size range)
        ifindex) := by
  simp only [find_appropriate_port, hr1, hr2, ne_eq, not_true_eq_false, or_self, if_false,
    hin]

theorem scan_all_accepted (t : Table) (net : Registry) (min size : Nat) (ifindex : Int)
    (hu : ext_unique t) (hsz : min + size ≤ 65536) (hmin : min < 65536)
    (hall : ∀ j < size, accepted t net (min + j) ifindex = true)
    (hacc : accepted t net min ifindex = true) :
    ∃ a, get_mapping_by_ext_port t min ifindex = some a ∧
      (find_appropriate_port_scan t net min 0 size ifindex).1 = min ∧
      get_mapping_by_ext_port (find_appropriate_port_scan t net min 0 size ifindex).2
        min ifindex = none ∧
      ∀ m ∈ t, m.addr ≠ a →
        ∃ m1 ∈ (find_appropriate_port_scan t net min 0 size ifindex).2, key m1 = key m := by
  obtain ⟨a, ha, _⟩ := (accepted_iff t net min ifindex).mp hacc
  obtain ⟨t1, hl, hk⟩ := loop_all_accepted net min 0 size ifindex size 0 t (by
    intro j hj
    have e : (min + (0 + (0 + j)) % size) % 65536 = min + j := by
      rw [Nat.zero_add, Nat.zero_add, Nat.mod_eq_of_lt hj, Nat.mod_eq_of_lt (by omega)]
    rw [e]
    exact hall j hj)
  have ha1 : get_mapping_by_ext_port t1 min ifindex = some a := by
    rw [get_ext_keys t t1 hk, ha]
  have e0 : (min + 0) % 65536 = min := by
    rw [Nat.add_zero, Nat.mod_eq_of_lt hmin]
  refine ⟨a, ha, ?_, ?_, ?_⟩
  · simp only [find_appropriate_port_scan, hl, e0]
  · simp only [find_appropriate_port_scan, hl, e0, ha1]
    obtain ⟨m, hm, hma, hmp, hmi⟩ := get_ext_some t1 min ifindex a ha1
    have hu1 : ext_unique t1 := ext_unique_sublist t t1 (by rw [hk]) hu
    have := ext_free_after t1 (kill_mapping t1 (some a)) m hu1 hm (keys_kill t1 (some a))
      (by rw [hma]; exact kill_no_addr t1 a)
    rw [hmp, hmi] at this
    exact (get_ext_none _ min ifindex).mpr this
  · intro m hm hne
    simp only [find_appropriate_port_scan, hl, e0, ha1]
    obtain ⟨m1, hm1, e⟩ := present_of_keys t t1 hk m hm
    refine ⟨m1, ?_, e⟩
    simp only [kill_mapping, List.mem_filter, decide_eq_true_eq]
    refine ⟨hm1, ?_⟩
    have : m1.addr = m.addr := by
      have := congrArg Prod.fst e
      exact this
    rw [this]
    exact hne

/-- C6. Eviction fallback: for a table with unique external keys and a range spec without
a random flag (an explicit range being `[min,max]` with `min <= max <= 65535`), if every
port of the resolved range holds on the interface a mapping that `check_mapping` accepts,
and so does the original port whenever the preservation test applies to it, then
`find_appropriate_port` returns `min`, the mapping that was at `(min, ifindex)` is gone
(the lookup finds nothing), and every other mapping of the table is still there, with its
address and key fields. -/
theorem eviction_fallback (t : Table) (net : Registry) (rnd op : Nat) (ifindex : Int)
    (range : nf_nat_ipv4_range) (hu : ext_unique t)
    (hr1 : range.flags &&& NF_NAT_RANGE_PROTO_RANDOM = 0)
    (hr2 : range.flags &&& NF_NAT_RANGE_PROTO_RANDOM_FULLY = 0)
    (hwf : range.flags &&& NF_NAT_RANGE_PROTO_SPECIFIED ≠ 0 →
      range.min ≤ range.max ∧ range.max < 65536)
    (hfull : ∀ p, range_min range ≤ p →
      p ≤ (if range.flags &&& NF_NAT_RANGE_PROTO_SPECIFIED ≠ 0 then range.max else 65535) →
      accepted t net p ifindex = true)
    (hop : ((op ≥ range_min range ∧
        (op : Int) ≤ (range_min range : Int) + (range_size range : Int) - 1) ∨
      ¬ range.flags &&& NF_NAT_RANGE_PROTO_SPECIFIED ≠ 0) →
      accepted t net op ifindex = true) :
    ∃ t1 a, find_appropriate_port t net rnd op ifindex range = some (range_min range, t1) ∧
      get_mapping_by_ext_port t (range_min range) ifindex = some a ∧
      get_mapping_by_ext_port t1 (range_min range) ifindex = none ∧
      ∀ m ∈ t, m.addr ≠ a → ∃ m1 ∈ t1, key m1 = key m := by
  have hb : range_min range < 65536 ∧ range_min range + range_size range ≤ 65536 ∧
      range_min range ≤
        (if range.flags &&& NF_NAT_RANGE_PROTO_SPECIFIED ≠ 0 then range.max else 65535) ∧
      ∀ j < range_size range, range_min range + j ≤
        (if range.flags &&& NF_NAT_RANGE_PROTO_SPECIFIED ≠ 0 then range.max else 65535) := by
    by_cases hs : range.flags &&& NF_NAT_RANGE_PROTO_SPECIFIED ≠ 0
    · obtain ⟨h1, h2⟩ := hwf hs
      have e : range_size range = to_u16 ((range.max : Int) - (range.min : Int) + 1) := by
        unfold range_size
        exact if_pos hs
      rw [range_min_specified range hs, if_pos hs, e]
      unfold to_u16
      refine ⟨by omega, by omega, by omega, fun j hj => by omega⟩
    · rw [range_min_default range hs, range_size_default range hs, if_neg hs]
      refine ⟨by omega, by omega, by omega, fun j hj => by omega⟩
  obtain ⟨hb1, hb2, hb3, hb4⟩ := hb
  have hmin : accepted t net (range_min range) ifindex = true :=
    hfull _ (Nat.le_refl _) hb3
  have hall : ∀ j < range_size range, accepted t net (range_min range + j) ifindex = true :=
    fun j hj => hfull _ (Nat.le_add_right _ _) (hb4 j hj)
  by_cases hin : (op ≥ range_min range ∧
      (op : Int) ≤ (range_min range : Int) + (range_size range : Int) - 1) ∨
      ¬ range.flags &&& NF_NAT_RANGE_PROTO_SPECIFIED ≠ 0
  · obtain ⟨b, hb, hcb⟩ := (accepted_iff t net op ifindex).mp (hop hin)
    rcases hr : check_mapping t (some b) net with ⟨c, t1⟩
    rw [hr] at hcb
    simp only at hcb
    subst hcb
    obtain ⟨m0, _, _, _, rfl⟩ := check_mapping_true t t1 b net hr
    have hk := keys_update t b (check_mapping_prune net) (key_check_mapping_prune net)
    obtain ⟨a, h1, h2, h3, h4⟩ := scan_all_accepted (update t b (check_mapping_prune net))
      net (range_min range) (range_size range) ifindex
      (ext_unique_sublist t _ (by rw [hk]) hu) hb2 hb1
      (fun j hj => (accepted_update_iff t net b _ ifindex).mpr (hall j hj))
      ((accepted_update_iff t net b _ ifindex).mpr hmin)
    refine ⟨(find_appropriate_port_scan (update t b (check_mapping_prune net)) net
      (range_min range) 0 (range_size range) ifindex).2, a, ?_, ?_, h3, ?_⟩
    · rw [find_appropriate_port_occupied t _ net rnd op ifindex range b hr1 hr2 hin hb hr]
      exact congrArg some (Prod.ext h2 rfl)
    · rw [← get_ext_keys t _ hk, h1]
    · intro m hm hne
      obtain ⟨m1, hm1, e⟩ := present_of_keys t _ hk m hm
      obtain ⟨m2, hm2, e2⟩ := h4 m1 hm1 (by
        have : m1.addr = m.addr := congrArg Prod.fst e
        rw [this]; exact hne)
      exact ⟨m2, hm2, e2.trans e⟩
  · obtain ⟨a, h1, h2, h3, h4⟩ := scan_all_accepted t net (range_min range)
      (range_size range) ifindex hu hb2 hb1 hall hmin
    refine ⟨(find_appropriate_port_scan t net (range_min range) 0 (range_size range)
      ifindex).2, a, ?_, h1, h3, h4⟩
    rw [find_appropriate_port_outside t net rnd op ifindex range hr1 hr2 hin]
    exact congrArg some (Prod.ext h2 rfl)

theorem eviction_fallback_witness :
    ext_unique occupied_table ∧
    ∃ t1 a, find_appropriate_port occupied_table (fun _ => true) 0 2001 2 small_range =
        some (range_min small_range, t1) ∧
      get_mapping_by_ext_port occupied_table (range_min small_range) 2 = some a ∧
      get_mapping_by_ext_port t1 (range_min small_range) 2 = none ∧
      ∀ m ∈ occupied_table, m.addr ≠ a → ∃ m1 ∈ t1, key m1 = key m :=
  ⟨by unfold ext_unique; decide,
    eviction_fallback occupied_table (fun _ => true) 0 2001 2 small_range
      (by unfold ext_unique; decide) (by decide) (by decide)
      (fun _ => ⟨by decide, by decide⟩)
      (by
        intro p h1 h2
        have e1 : range_min small_range = 2000 := by decide
        have e2 : (if small_range.flags &&& NF_NAT_RANGE_PROTO_SPECIFIED ≠ 0
            then small_range.max else 65535) = 2002 := by decide
        rw [e1] at h1
        rw [e2] at h2
        have : p = 2000 ∨ p = 2001 ∨ p = 2002 := by omega
        rcases this with rfl | rfl | rfl <;> decide)
      (fun _ => by decide)⟩


/-- C7. Scan order: when the scan of `find_appropriate_port` runs with start offset `s`,
range size `n` and minimum `min`, and `k < n` is the least index whose candidate port
`min + ((s + k) mod n)` (as a 16-bit value) has no mapping on the interface or a mapping
for which `check_mapping` returns 0, the result is that candidate, it equals
`min + ((s + k) mod n)` when the range does not pass 65535, and every candidate examined
before it still has its mapping in the table. -/
theorem scan_order (t : Table) (net : Registry) (min s n : Nat) (ifindex : Int) (k : Nat)
    (hk : k < n)
    (hbefore : ∀ j < k, accepted t net ((min + (s + j) % n) % 65536) ifindex = true)
    (hat : accepted t net ((min + (s + k) % n) % 65536) ifindex = false) :
    (find_appropriate_port_scan t net min s n ifindex).1 = (min + (s + k) % n) % 65536 ∧
    (min + n ≤ 65536 →
      (find_appropriate_port_scan t net min s n ifindex).1 = min + (s + k) % n) ∧
    ∀ j < k, ∃ a,
      get_mapping_by_ext_port t ((min + (s + j) % n) % 65536) ifindex = some a ∧
      get_mapping_by_ext_port (find_appropriate_port_scan t net min s n ifindex).2
        ((min + (s + j) % n) % 65536) ifindex = some a := by
  obtain ⟨t1, h1, h2⟩ := loop_first_rejected net min s n ifindex k n 0 t hk
    (by simpa only [Nat.zero_add] using hbefore) (by simpa only [Nat.zero_add] using hat)
  rw [Nat.zero_add] at h1
  have hres : find_appropriate_port_scan t net min s n ifindex =
      ((min + (s + k) % n) % 65536, t1) := by
    simp only [find_appropriate_port_scan, h1]
  rw [hres]
  refine ⟨rfl, ?_, ?_⟩
  · intro hn
    have : (s + k) % n < n := Nat.mod_lt _ (by omega)
    exact Nat.mod_eq_of_lt (by omega)
  · intro j hj
    obtain ⟨a, ha, _⟩ := (accepted_iff _ _ _ _).mp (hbefore j hj)
    exact ⟨a, ha, by rw [h2 _ (hbefore j hj), ha]⟩

theorem scan_order_witness :
    (∀ j < 1, accepted two_ports_table (fun _ => true)
      ((2000 + (1 + j) % 3) % 65536) 2 = true) ∧
    accepted two_ports_table (fun _ => true) ((2000 + (1 + 1) % 3) % 65536) 2 = false ∧
    (find_appropriate_port_scan two_ports_table (fun _ => true) 2000 1 3 2).1 =
      (2000 + (1 + 1) % 3) % 65536 ∧
    (2000 + 3 ≤ 65536 →
      (find_appropriate_port_scan two_ports_table (fun _ => true) 2000 1 3 2).1 =
        2000 + (1 + 1) % 3) ∧
    ∀ j < 1, ∃ a,
      get_mapping_by_ext_port two_ports_table ((2000 + (1 + j) % 3) % 65536) 2 = some a ∧
      get_mapping_by_ext_port
        (find_appropriate_port_scan two_ports_table (fun _ => true) 2000 1 3 2).2
        ((2000 + (1 + j) % 3) % 65536) 2 = some a :=
  ⟨by decide, by decide,
    scan_order two_ports_table (fun _ => true) 2000 1 3 2 1 (by decide) (by decide)
      (by decide)⟩

/-! ## The result of the validity check -/

/-- C8, as amended. Validity result: for every non-null mapping in the table and every
registry, `check_mapping` returns 1 if and only if the mapping passes the first test (its
port, internal address and internal port are not 0 and its interface index is not -1) and
the count after pruning is greater than zero; and when `refer_count` equals the number of
flow records, the count after pruning is greater than zero if and only if at least one
flow record has a tuple the registry reports as existing. -/
theorem check_mapping_result (t : Table) (p : Nat) (net : Registry) (m : nat_mapping)
    (hd : deref t p = some m) :
    ((check_mapping t (some p) net).1 = true ↔
      usable m ∧ 0 < (check_mapping_prune net m).refer_count) ∧
    (m.refer_count = (m.original_tuple_list.length : Int) →
      (0 < (check_mapping_prune net m).refer_count ↔
        ∃ x ∈ m.original_tuple_list, net x = true)) := by
  constructor
  · rw [check_fst_iff]
    constructor
    · rintro ⟨m1, h1, h2, h3⟩
      rw [hd] at h1
      obtain rfl := Option.some.inj h1
      exact ⟨h2, h3⟩
    · rintro ⟨h2, h3⟩
      exact ⟨m, hd, h2, h3⟩
  · intro hc
    have e : (check_mapping_prune net m).refer_count =
        ((m.original_tuple_list.filter net).length : Int) := by
      simp only [check_mapping_prune, check_mapping_loop_eq]
      omega
    rw [e]
    constructor
    · intro h
      have hpos : 0 < (m.original_tuple_list.filter net).length := by omega
      obtain ⟨x, hx⟩ := List.exists_mem_of_length_pos hpos
      exact ⟨x, (List.mem_filter.mp hx).1, (List.mem_filter.mp hx).2⟩
    · rintro ⟨x, hx, hn⟩
      have : 0 < (m.original_tuple_list.filter net).length :=
        List.length_pos_of_mem (List.mem_filter.mpr ⟨hx, hn⟩)
      omega

theorem check_mapping_result_witness :
    deref [sample_mapping] 1 = some sample_mapping ∧
    sample_mapping.refer_count = (sample_mapping.original_tuple_list.length : Int) ∧
    ((check_mapping [sample_mapping] (some 1) (fun _ => true)).1 = true ↔
      usable sample_mapping ∧
        0 < (check_mapping_prune (fun _ => true) sample_mapping).refer_count) ∧
    (0 < (check_mapping_prune (fun _ => true) sample_mapping).refer_count ↔
      ∃ x ∈ sample_mapping.original_tuple_list, (fun _ => true) x = true) :=
  ⟨rfl, rfl, (check_mapping_result [sample_mapping] 1 (fun _ => true) sample_mapping rfl).1,
    (check_mapping_result [sample_mapping] 1 (fun _ => true) sample_mapping rfl).2 rfl⟩

/-- C8 as stated fails: the mapping of the internal endpoint 0.0.0.0:68 is in the table,
its only flow record has a tuple that the registry reports as existing, its count is 1,
and `check_mapping` returns 0 for it, because its internal address is 0. -/
theorem check_mapping_result_counterexample :
    deref [dhcp_mapping] 1 = some dhcp_mapping ∧
    (∃ x ∈ dhcp_mapping.original_tuple_list, (fun _ => true) x = true) ∧
    dhcp_mapping.refer_count = (dhcp_mapping.original_tuple_list.length : Int) ∧
    (check_mapping [dhcp_mapping] (some 1) (fun _ => true)).1 = false := by
  refine ⟨rfl, ⟨dhcp_out.tuple, by decide, rfl⟩, rfl, rfl⟩

/-- C9, as amended. Invalid means removed: for every non-null mapping in the table that
passes the first test of `check_mapping` (port, internal address and internal port not 0,
interface index not -1) and every registry, if `check_mapping` returns 0 then afterwards
no mapping of the table has its address, and neither
`get_mapping_by_ext_port(port, ifindex)` nor `get_mapping_by_int_src(int_addr, int_port)`
returns it; for a mapping that does not pass the first test `check_mapping` returns 0 and
leaves the table as it is. -/
theorem invalid_means_removed (t : Table) (p : Nat) (net : Registry) (m : nat_mapping)
    (hd : deref t p = some m) :
    (usable m → (check_mapping t (some p) net).1 = false →
      (∀ x ∈ (check_mapping t (some p) net).2, x.addr ≠ p) ∧
      get_mapping_by_ext_port (check_mapping t (some p) net).2 m.port m.ifindex ≠ some p ∧
      get_mapping_by_int_src (check_mapping t (some p) net).2 m.int_addr m.int_port ≠ some p) ∧
    (¬ usable m → check_mapping t (some p) net = (false, t)) := by
  constructor
  · intro hu hc
    rcases hr : check_mapping t (some p) net with ⟨b, t1⟩
    rw [hr] at hc
    simp only at hc
    subst hc
    have hgone := check_mapping_false_usable t t1 p net m hd hu hr
    refine ⟨hgone, ?_, ?_⟩
    · intro h
      obtain ⟨x, hx, hxa, _⟩ := get_ext_some t1 _ _ p h
      exact hgone x hx hxa
    · intro h
      obtain ⟨x, hx, hxa, _⟩ := get_int_some t1 _ _ p h
      exact hgone x hx hxa
  · exact check_mapping_unusable t p net m hd

theorem invalid_means_removed_witness :
    deref [sample_mapping] 1 = some sample_mapping ∧ usable sample_mapping ∧
    (check_mapping [sample_mapping] (some 1) (fun _ => false)).1 = false ∧
    (∀ x ∈ (check_mapping [sample_mapping] (some 1) (fun _ => false)).2, x.addr ≠ 1) ∧
    get_mapping_by_ext_port (check_mapping [sample_mapping] (some 1) (fun _ => false)).2
      sample_mapping.port sample_mapping.ifindex ≠ some 1 ∧
    get_mapping_by_int_src (check_mapping [sample_mapping] (some 1) (fun _ => false)).2
      sample_mapping.int_addr sample_mapping.int_port ≠ some 1 :=
  ⟨rfl, by unfold usable; decide, rfl,
    (invalid_means_removed [sample_mapping] 1 (fun _ => false) sample_mapping rfl).1
      (by unfold usable; decide) rfl⟩

/-- C9 as stated fails: for the mapping with external port 0 in the table,
`check_mapping` returns 0 and afterwards both lookups still return the mapping. -/
theorem invalid_means_removed_counterexample :
    deref [port0_mapping] 1 = some port0_mapping ∧
    (check_mapping [port0_mapping] (some 1) (fun _ => true)).1 = false ∧
    get_mapping_by_ext_port (check_mapping [port0_mapping] (some 1) (fun _ => true)).2
      port0_mapping.port port0_mapping.ifindex = some 1 ∧
    get_mapping_by_int_src (check_mapping [port0_mapping] (some 1) (fun _ => true)).2
      port0_mapping.int_addr port0_mapping.int_port = some 1 := by
  decide

/-! ## Draining the pending-destroy queue -/

theorem get_int_keys (t t1 : Table) (h : t1.map key = t.map key) (a p : Nat) :
    get_mapping_by_int_src t1 a p = get_mapping_by_int_src t a p := by
  induction t generalizing t1 with
  | nil =>
    simp only [List.map_nil, List.map_eq_nil_iff] at h
    subst h
    rfl
  | cons m rest ih =>
    cases t1 with
    | nil => simp at h
    | cons m1 rest1 =>
      simp only [List.map_cons, List.cons.injEq] at h
      obtain ⟨hk, hrest⟩ := h
      simp only [key, Prod.mk.injEq] at hk
      obtain ⟨e1, _, _, e4, e5⟩ := hk
      simp only [get_mapping_by_int_src, e1, e4, e5, ih rest1 hrest]

theorem get_int_kill (t : Table) (x p : Nat) (a b : Nat)
    (h : get_mapping_by_int_src t x p = some b) (hne : b ≠ a) :
    get_mapping_by_int_src (kill_mapping t (some a)) x p = some b := by
  induction t with
  | nil => simp [get_mapping_by_int_src] at h
  | cons m rest ih =>
    rw [kill_mapping_cons]
    by_cases hk : m.int_addr = x ∧ m.int_port = p
    · simp only [get_mapping_by_int_src, hk, and_self, if_true, Option.some.injEq] at h
      have hma : ¬ m.addr = a := by rw [h]; exact hne
      rw [if_neg hma]
      simp only [get_mapping_by_int_src, hk, and_self, if_true, h]
    · simp only [get_mapping_by_int_src, hk, if_false] at h
      by_cases hma : m.addr = a
      · rw [if_pos hma]
        exact ih h
      · rw [if_neg hma]
        simp only [get_mapping_by_int_src, hk, if_false]
        exact ih h

theorem get_int_none_sublist (t t1 : Table) (h : List.Sublist (t1.map key) (t.map key))
    (a p : Nat) (hn : get_mapping_by_int_src t a p = none) :
    get_mapping_by_int_src t1 a p = none :=
  (get_int_none t1 a p).mpr (int_absent_sublist t t1 h _ ((get_int_none t a p).mp hn))

theorem deref_kill_other (t : Table) (a b : Nat) (hne : a ≠ b) :
    deref (kill_mapping t (some b)) a = deref t a := by
  induction t with
  | nil => rfl
  | cons m rest ih =>
    rw [kill_mapping_cons]
    by_cases hb : m.addr = b
    · have hma : ¬ m.addr = a := by rw [hb]; exact fun e => hne e.symm
      rw [if_pos hb, ih]
      simp only [deref, hma, if_false]
    · rw [if_neg hb]
      simp only [deref, ih]

theorem no_addr_sublist (t t1 : Table) (h : List.Sublist (t1.map key) (t.map key)) (a : Nat)
    (hgone : ∀ x ∈ t, x.addr ≠ a) : ∀ x ∈ t1, x.addr ≠ a := by
  intro x hx
  obtain ⟨m0, hm0, e⟩ := mem_of_keys_sublist t t1 h x hx
  have : m0.addr = x.addr := congrArg Prod.fst e
  rw [← this]
  exact hgone m0 hm0

theorem resolve_keys (t t1 : Table) (h : t1.map key = t.map key) (r : tuple_list) :
    resolve_dying t1 r = resolve_dying t r := by
  unfold resolve_dying
  rw [get_int_keys t t1 h, get_int_keys t t1 h]

theorem resolve_kill (t : Table) (r : tuple_list) (a b : Nat)
    (h : resolve_dying t r = some a) (hne : a ≠ b) :
    resolve_dying (kill_mapping t (some b)) r = some a := by
  unfold resolve_dying at h ⊢
  cases h1 : get_mapping_by_int_src t r.tuple_original.src_ip r.tuple_original.src_port with
  | none =>
    rw [h1] at h
    simp only at h
    rw [get_int_none_sublist t _ (keys_kill t (some b)) _ _ h1]
    exact get_int_kill t _ _ b a h hne
  | some x =>
    rw [h1] at h
    simp only [Option.some.injEq] at h
    subst h
    rw [get_int_kill t _ _ b x h1 hne]

theorem expire_same (M : nat_mapping) (d : nf_conntrack_tuple) (hc : M.refer_count = 1)
    (hl : M.original_tuple_list = [d]) : (expire d M).refer_count = 0 := by
  simp [expire, expire_loop_eq, hl, hc]

theorem expire_other (M : nat_mapping) (d x : nf_conntrack_tuple)
    (hl : M.original_tuple_list = [x]) (hne : d ≠ x) : expire d M = M := by
  have hx : ¬ x = d := fun e => hne e.symm
  cases M with
  | mk a p i ia ip c l =>
    simp only at hl
    subst hl
    simp [expire, expire_loop_eq, hx]

/-- Processing one pending record either removes the mapping at address `a`, or leaves
both the object at `a` and the resolution of the record `r` as they were, when the object
at `a` is a mapping with the single flow record `r.tuple_original` and count 1 to which
`r` resolves. -/
theorem dying_tuple_step (t : Table) (item r : tuple_list) (M : nat_mapping)
    (hd : deref t M.addr = some M) (hc : M.refer_count = 1)
    (hl : M.original_tuple_list = [r.tuple_original])
    (hres : resolve_dying t r = some M.addr) :
    (∀ x ∈ handle_dying_tuple t item, x.addr ≠ M.addr) ∨
    (deref (handle_dying_tuple t item) M.addr = some M ∧
      resolve_dying (handle_dying_tuple t item) r = some M.addr ∧ item ≠ r) := by
  unfold handle_dying_tuple
  cases hri : resolve_dying t item with
  | none =>
    right
    refine ⟨hd, hres, ?_⟩
    rintro rfl
    rw [hres] at hri
    exact absurd hri (by simp)
  | some b =>
    have hk := keys_update t b (expire item.tuple_original) (key_expire item.tuple_original)
    simp only []
    by_cases hb : b = M.addr
    · subst hb
      have hd1 : deref (update t M.addr (expire item.tuple_original)) M.addr =
          some (expire item.tuple_original M) := by
        rw [deref_update t M.addr (expire item.tuple_original) (fun _ => rfl), hd]
        rfl
      rw [hd1]
      simp only []
      by_cases hdd : item.tuple_original = r.tuple_original
      · left
        rw [hdd, expire_same M r.tuple_original hc hl]
        simp only [le_refl, if_true]
        exact kill_no_addr _ _
      · right
        rw [expire_other M item.tuple_original r.tuple_original hl hdd]
        have : ¬ M.refer_count ≤ 0 := by omega
        simp only [this, if_false]
        have hd2 := hd1
        rw [expire_other M item.tuple_original r.tuple_original hl hdd] at hd2
        refine ⟨hd2, ?_, ?_⟩
        · rw [resolve_keys t _ hk, hres]
        · rintro rfl
          exact hdd rfl
    · right
      have hne : M.addr ≠ b := fun e => hb e.symm
      have hda : deref (update t b (expire item.tuple_original)) M.addr = some M := by
        rw [deref_update_other t b M.addr (expire item.tuple_original) (fun _ => rfl), hd]
        simp [hne]
      have hra : resolve_dying (update t b (expire item.tuple_original)) r = some M.addr := by
        rw [resolve_keys t _ hk, hres]
      have hir : item ≠ r := by
        rintro rfl
        rw [hres] at hri
        exact hb (Option.some.inj hri).symm
      cases deref (update t b (expire item.tuple_original)) b with
      | none => exact ⟨hda, hra, hir⟩
      | some m1 =>
        simp only []
        split
        · exact ⟨by rw [deref_kill_other _ _ _ hne, hda], resolve_kill _ r _ b hra hne, hir⟩
        · exact ⟨hda, hra, hir⟩

/-- C10, as amended. GC convergence: for every table, every mapping M in it whose count is
1 and whose only flow record is a tuple `x`, and every pending-destroy queue containing a
record whose original tuple is `x` and which resolves to M (`get_mapping_by_int_src` on
the source endpoint of its original tuple returns M, or returns nothing and on the source
endpoint of its reply tuple returns M), after `handle_dying_tuples` has run no mapping of
the table has the address of M and neither lookup returns M. -/
theorem gc_convergence (q : List tuple_list) (t : Table) (r : tuple_list) (M : nat_mapping)
    (hd : deref t M.addr = some M) (hc : M.refer_count = 1)
    (hl : M.original_tuple_list = [r.tuple_original]) (hr : r ∈ q)
    (hres : resolve_dying t r = some M.addr) :
    (∀ x ∈ (handle_dying_tuples t q).1, x.addr ≠ M.addr) ∧
    get_mapping_by_ext_port (handle_dying_tuples t q).1 M.port M.ifindex ≠ some M.addr ∧
    get_mapping_by_int_src (handle_dying_tuples t q).1 M.int_addr M.int_port ≠ some M.addr := by
  have hgone : ∀ x ∈ (handle_dying_tuples t q).1, x.addr ≠ M.addr := by
    induction q generalizing t with
    | nil => exact absurd hr (List.not_mem_nil r)
    | cons item rest ih =>
      simp only [handle_dying_tuples]
      rcases dying_tuple_step t item r M hd hc hl hres with h | ⟨h1, h2, h3⟩
      · exact no_addr_sublist _ _ (keys_dying_tuples rest _) M.addr h
      · rcases List.mem_cons.mp hr with e | hr1
        · exact absurd e.symm h3
        · exact ih _ h1 hr1 h2
  refine ⟨hgone, ?_, ?_⟩
  · intro h
    obtain ⟨x, hx, hxa, _⟩ := get_ext_some _ _ _ _ h
    exact hgone x hx hxa
  · intro h
    obtain ⟨x, hx, hxa, _⟩ := get_int_some _ _ _ _ h
    exact hgone x hx hxa

theorem gc_convergence_witness :
    deref [sample_mapping] sample_mapping.addr = some sample_mapping ∧
    sample_mapping.refer_count = 1 ∧
    sample_mapping.original_tuple_list = [sample_record.tuple_original] ∧
    resolve_dying [sample_mapping] sample_record = some sample_mapping.addr ∧
    (∀ x ∈ (handle_dying_tuples [sample_mapping] [sample_record]).1,
      x.addr ≠ sample_mapping.addr) ∧
    get_mapping_by_ext_port (handle_dying_tuples [sample_mapping] [sample_record]).1
      sample_mapping.port sample_mapping.ifindex ≠ some sample_mapping.addr ∧
    get_mapping_by_int_src (handle_dying_tuples [sample_mapping] [sample_record]).1
      sample_mapping.int_addr sample_mapping.int_port ≠ some sample_mapping.addr :=
  ⟨rfl, rfl, rfl, rfl,
    gc_convergence [sample_record] [sample_mapping] sample_record sample_mapping rfl rfl rfl
      (List.mem_singleton.mpr rfl) rfl⟩

/-- C10 as stated fails: in `hairpin_table` (a reachable state, `hairpin_table_reachable`)
the mapping at address 1 has the hairpin flow as its only flow record and the queue holds
the destroy record of that flow, but the
record resolves, by the source endpoint of its original tuple, to the mapping at address
2; after `handle_dying_tuples` the mapping at address 1 is still in the table with its
record and both lookups return it. -/
theorem gc_convergence_counterexample :
    deref hairpin_table 1 = some ⟨1, 5000, 2, 167772162, 5000, 1, [hairpin_flow]⟩ ∧
    hairpin_record.tuple_original = hairpin_flow ∧
    handle_dying_tuples hairpin_table [hairpin_record] =
      ([⟨1, 5000, 2, 167772162, 5000, 1, [hairpin_flow]⟩], []) ∧
    get_mapping_by_ext_port (handle_dying_tuples hairpin_table [hairpin_record]).1 5000 2 =
      some 1 ∧
    get_mapping_by_int_src (handle_dying_tuples hairpin_table [hairpin_record]).1
      167772162 5000 = some 1 := by
  decide

theorem reachable_run (P : tg_packet → tg_env → Prop) (steps : List (tg_packet × tg_env))
    (t t1 : Table) (ht : Reachable P t) (hs : ∀ s ∈ steps, P s.1 s.2)
    (h : (tg_run t steps).map Prod.snd = some t1) : Reachable P t1 := by
  induction steps generalizing t with
  | nil =>
    simp only [tg_run, Option.map_some', Option.some.injEq] at h
    subst h
    exact ht
  | cons s rest ih =>
    cases hr : fullconenat_tg t s.1 s.2 with
    | none => simp [tg_run, hr] at h
    | some r =>
      have hreach := Reachable.tg t s.1 s.2 r ht (hs s (List.mem_cons_self _ _)) hr
      cases hrest : tg_run r.table rest with
      | none => simp [tg_run, hr, hrest] at h
      | some x =>
        apply ih r.table hreach (fun y hy => hs y (List.mem_cons_of_mem _ hy))
        simp only [tg_run, hr, hrest, Option.map_some', Option.some.injEq] at h
        rw [hrest]
        exact congrArg some h

/-- The table of the C10 counterexample is a reachable state: the flow of `sample_out`
creates the mapping of 10.0.0.2:5000, the hairpin flow passes the pre-routing hook (and is
recorded in that mapping) and the post-routing hook (and gets a mapping of its own), and
the first flow is destroyed and drained. -/
theorem hairpin_table_reachable : Reachable (fun _ env => kmalloc_fresh env) hairpin_table :=
  Reachable.drain _ [sample_record]
    (reachable_run _ [(sample_out, sample_env), (hairpin_in, hairpin_env),
        (hairpin_out, hairpin_env)] [] _ Reachable.empty
      (by
        intro s hs
        simp only [List.mem_cons, List.mem_singleton, List.not_mem_nil, or_false] at hs
        rcases hs with rfl | rfl | rfl <;> exact sample_env_fresh)
      rfl)

/-! ## Shutdown -/

theorem destroy_fold_nil (l : Table) (acc : Table)
    (h : ∀ x ∈ acc, ∃ m ∈ l, m.addr = x.addr) :
    l.foldl (fun acc p_current => kill_mapping acc (some p_current.addr)) acc = [] := by
  induction l generalizing acc with
  | nil =>
    simp only [List.foldl_nil]
    apply List.eq_nil_iff_forall_not_mem.mpr
    intro x hx
    obtain ⟨m, hm, _⟩ := h x hx
    exact absurd hm (List.not_mem_nil m)
  | cons m rest ih =>
    simp only [List.foldl_cons]
    apply ih
    intro x hx
    simp only [kill_mapping, List.mem_filter, decide_eq_true_eq] at hx
    obtain ⟨m1, hm1, e⟩ := h x hx.1
    rcases List.mem_cons.mp hm1 with rfl | hm1
    · exact absurd e (fun e => hx.2 e.symm)
    · exact ⟨m1, hm1, e⟩

theorem destroy_mappings_nil (t : Table) : destroy_mappings t = [] :=
  destroy_fold_nil t t (fun x hx => ⟨x, hx, rfl⟩)

theorem handle_dying_tuples_queue (q : List tuple_list) (t : Table) :
    (handle_dying_tuples t q).2 = [] := by
  induction q generalizing t with
  | nil => rfl
  | cons item rest ih =>
    simp only [handle_dying_tuples]
    exact ih _

/-- C11. Shutdown completeness: for every table and every pending-destroy list,
`handle_dying_tuples` followed by `destroy_mappings`, as `fullconenat_tg_exit` runs them,
leaves the pending list empty and the table without any mapping, so that
`get_mapping_by_ext_port` and `get_mapping_by_int_src` return nothing for every key; and
`handle_dying_tuples` alone leaves the pending list empty. -/
theorem shutdown_completeness (t : Table) (q : List tuple_list) :
    (fullconenat_tg_exit t q).2 = [] ∧
    (fullconenat_tg_exit t q).1 = [] ∧
    (∀ (port : Nat) (ifindex : Int),
      get_mapping_by_ext_port (fullconenat_tg_exit t q).1 port ifindex = none) ∧
    (∀ src_ip src_port : Nat,
      get_mapping_by_int_src (fullconenat_tg_exit t q).1 src_ip src_port = none) ∧
    (handle_dying_tuples t q).2 = [] := by
  have h1 : (fullconenat_tg_exit t q).1 = [] := destroy_mappings_nil _
  refine ⟨handle_dying_tuples_queue q t, h1, ?_, ?_, handle_dying_tuples_queue q t⟩
  · intro port ifindex
    rw [h1]
    rfl
  · intro a p
    rw [h1]
    rfl

/-! ## The pre-routing branch -/

theorem inbound_eq (t : Table) (pkt : tg_packet) (env : tg_env)
    (hh : pkt.hooknum = NF_INET_PRE_ROUTING) :
    fullconenat_tg t pkt env = some (fullconenat_tg_inbound t pkt env) := by
  simp only [fullconenat_tg, hh, if_true]

/-- C12. Inbound miss: for every packet at the pre-routing hook, if the flow is not UDP
or `get_mapping_by_ext_port` finds no mapping for the destination port and the resolved
interface index, `fullconenat_tg` returns `XT_CONTINUE`, `nf_nat_setup_info` is not called
and the table is as before. -/
theorem inbound_miss (t : Table) (pkt : tg_packet) (env : tg_env)
    (hh : pkt.hooknum = NF_INET_PRE_ROUTING)
    (hmiss : pkt.tuple.protonum ≠ IPPROTO_UDP ∨
      get_mapping_by_ext_port t pkt.tuple.dst_port (inbound_ifindex pkt env) = none) :
    fullconenat_tg t pkt env = some ⟨XT_CONTINUE, none, t⟩ := by
  rw [inbound_eq t pkt env hh]
  unfold fullconenat_tg_inbound
  by_cases hu : pkt.tuple.protonum ≠ IPPROTO_UDP
  · rw [if_pos hu]
  · rw [if_neg hu]
    rcases hmiss with h | h
    · exact absurd h hu
    · unfold inbound_ifindex at h
      simp only [h]

theorem inbound_miss_witness :
    hairpin_in.hooknum = NF_INET_PRE_ROUTING ∧
    get_mapping_by_ext_port [sample_mapping] hairpin_in.tuple.dst_port
      (inbound_ifindex hairpin_in sample_env) = none ∧
    fullconenat_tg [sample_mapping] hairpin_in sample_env =
      some ⟨XT_CONTINUE, none, [sample_mapping]⟩ :=
  ⟨rfl, rfl, inbound_miss [sample_mapping] hairpin_in sample_env rfl (Or.inr rfl)⟩

theorem prune_list (net : Registry) (m : nat_mapping) :
    (check_mapping_prune net m).original_tuple_list = m.original_tuple_list.filter net := by
  simp only [check_mapping_prune, check_mapping_loop_eq]

theorem prune_count (net : Registry) (m : nat_mapping) :
    (check_mapping_prune net m).refer_count =
      m.refer_count - ((m.original_tuple_list.length : Int) -
        ((m.original_tuple_list.filter net).length : Int)) := by
  simp only [check_mapping_prune, check_mapping_loop_eq]

theorem prune_count_ok (net : Registry) (m : nat_mapping)
    (h : m.refer_count = (m.original_tuple_list.length : Int)) :
    (check_mapping_prune net m).refer_count =
      ((m.original_tuple_list.filter net).length : Int) := by
  rw [prune_count, h]
  omega

theorem check_mapping_true_at (t t1 : Table) (p : Nat) (net : Registry) (M : nat_mapping)
    (hd : deref t p = some M) (h : check_mapping t (some p) net = (true, t1)) :
    t1 = update t p (check_mapping_prune net) ∧
      deref t1 p = some (check_mapping_prune net M) := by
  obtain ⟨m, hd0, _, _, rfl⟩ := check_mapping_true t t1 p net h
  rw [hd] at hd0
  obtain rfl := Option.some.inj hd0
  refine ⟨rfl, ?_⟩
  rw [deref_update t p (check_mapping_prune net) (fun _ => rfl), hd]
  rfl

theorem deref_add (t : Table) (p : Nat) (x : nf_conntrack_tuple) (m : nat_mapping)
    (hd : deref t p = some m) :
    deref (add_original_tuple_to_mapping t true p x) p =
      some { m with original_tuple_list := x :: m.original_tuple_list,
                    refer_count := m.refer_count + 1 } := by
  simp only [add_original_tuple_to_mapping, if_true]
  exact (deref_update t p (fun m =>
      { m with original_tuple_list := x :: m.original_tuple_list,
               refer_count := m.refer_count + 1 }) (fun _ => rfl)).trans (by rw [hd]; rfl)

/-- C13, as amended. Inbound hit: for every UDP packet at the pre-routing hook whose
destination port and resolved interface index have a mapping M for which `check_mapping`
returns 1, `nf_nat_setup_info` is called with the minimum and maximum address equal to
`M.int_addr` and the minimum and maximum port equal to `M.int_port`; if the commit
succeeds and the allocation of the flow record succeeds, M holds afterwards the original
tuple of the flow in front of its surviving flow records and its count is the count after
pruning plus one (the number of surviving records plus one when the count was right
before); if the commit does not succeed, or the allocation fails, the table is as
`check_mapping` left it and no flow record is added. -/
theorem inbound_hit (t t1 : Table) (pkt : tg_packet) (env : tg_env) (a : Nat)
    (M : nat_mapping)
    (hh : pkt.hooknum = NF_INET_PRE_ROUTING) (hu : pkt.tuple.protonum = IPPROTO_UDP)
    (hg : get_mapping_by_ext_port t pkt.tuple.dst_port (inbound_ifindex pkt env) = some a)
    (hd : deref t a = some M)
    (hc : check_mapping t (some a) env.net = (true, t1)) :
    ∃ r nr, fullconenat_tg t pkt env = some r ∧ r.newrange = some nr ∧
      nr.min_addr = M.int_addr ∧ nr.max_addr = M.int_addr ∧
      nr.min_proto = M.int_port ∧ nr.max_proto = M.int_port ∧
      r.ret = (env.nf_nat_setup_info nr).1 ∧
      deref t1 a = some (check_mapping_prune env.net M) ∧
      (r.ret = NF_ACCEPT → env.kmalloc_tuple = true →
        r.table = add_original_tuple_to_mapping t1 true a pkt.tuple ∧
        ∃ M1, deref r.table a = some M1 ∧ key M1 = key M ∧
          M1.original_tuple_list = pkt.tuple :: M.original_tuple_list.filter env.net ∧
          M1.refer_count = (check_mapping_prune env.net M).refer_count + 1 ∧
          (M.refer_count = (M.original_tuple_list.length : Int) →
            M1.refer_count = ((M.original_tuple_list.filter env.net).length : Int) + 1)) ∧
      ((r.ret ≠ NF_ACCEPT ∨ env.kmalloc_tuple = false) → r.table = t1) := by
  obtain ⟨_, hd1⟩ := check_mapping_true_at t t1 a env.net M hd hc
  unfold inbound_ifindex at hg
  have hne : ¬ pkt.tuple.protonum ≠ IPPROTO_UDP := fun h => h hu
  have hrun : fullconenat_tg t pkt env =
      some (if (env.nf_nat_setup_info
            ⟨NF_NAT_RANGE_MAP_IPS ||| NF_NAT_RANGE_PROTO_SPECIFIED, M.int_addr, M.int_addr,
              M.int_port, M.int_port⟩).1 = NF_ACCEPT then
          ⟨(env.nf_nat_setup_info
              ⟨NF_NAT_RANGE_MAP_IPS ||| NF_NAT_RANGE_PROTO_SPECIFIED, M.int_addr, M.int_addr,
                M.int_port, M.int_port⟩).1,
            some ⟨NF_NAT_RANGE_MAP_IPS ||| NF_NAT_RANGE_PROTO_SPECIFIED, M.int_addr,
              M.int_addr, M.int_port, M.int_port⟩,
            add_original_tuple_to_mapping t1 env.kmalloc_tuple a pkt.tuple⟩
        else
          ⟨(env.nf_nat_setup_info
              ⟨NF_NAT_RANGE_MAP_IPS ||| NF_NAT_RANGE_PROTO_SPECIFIED, M.int_addr, M.int_addr,
                M.int_port, M.int_port⟩).1,
            some ⟨NF_NAT_RANGE_MAP_IPS ||| NF_NAT_RANGE_PROTO_SPECIFIED, M.int_addr,
              M.int_addr, M.int_port, M.int_port⟩, t1⟩) := by
    rw [inbound_eq t pkt env hh]
    unfold fullconenat_tg_inbound
    simp only [hne, if_false, hg, hc, hd1]
    rfl
  by_cases hacc : (env.nf_nat_setup_info
      ⟨NF_NAT_RANGE_MAP_IPS ||| NF_NAT_RANGE_PROTO_SPECIFIED, M.int_addr, M.int_addr,
        M.int_port, M.int_port⟩).1 = NF_ACCEPT
  · rw [if_pos hacc] at hrun
    refine ⟨_, _, hrun, rfl, rfl, rfl, rfl, rfl, rfl, hd1, ?_, ?_⟩
    · intro _ hk
      refine ⟨by rw [hk], ?_⟩
      show ∃ M1, deref (add_original_tuple_to_mapping t1 env.kmalloc_tuple a pkt.tuple) a =
        some M1 ∧ _
      rw [hk]
      refine ⟨_, deref_add t1 a pkt.tuple _ hd1, rfl, ?_, rfl, ?_⟩
      · simp only [prune_list]
      · intro hcount
        simp only [prune_count_ok env.net M hcount]
    · rintro (h | h)
      · exact absurd hacc h
      · show add_original_tuple_to_mapping t1 env.kmalloc_tuple a pkt.tuple = t1
        simp only [h, add_original_tuple_to_mapping, Bool.false_eq_true, if_false]
  · rw [if_neg hacc] at hrun
    refine ⟨_, _, hrun, rfl, rfl, rfl, rfl, rfl, rfl, hd1, ?_, ?_⟩
    · intro h
      exact absurd h hacc
    · intro _
      rfl

theorem inbound_hit_witness :
    hairpin_in.hooknum = NF_INET_PRE_ROUTING ∧ hairpin_in.tuple.protonum = IPPROTO_UDP ∧
    get_mapping_by_ext_port [sample_mapping] hairpin_in.tuple.dst_port
      (inbound_ifindex hairpin_in hairpin_env) = some 1 ∧
    check_mapping [sample_mapping] (some 1) hairpin_env.net = (true, [sample_mapping]) ∧
    ∃ r nr, fullconenat_tg [sample_mapping] hairpin_in hairpin_env = some r ∧
      r.newrange = some nr ∧
      nr.min_addr = sample_mapping.int_addr ∧ nr.max_addr = sample_mapping.int_addr ∧
      nr.min_proto = sample_mapping.int_port ∧ nr.max_proto = sample_mapping.int_port ∧
      r.ret = NF_ACCEPT ∧
      r.table = add_original_tuple_to_mapping [sample_mapping] true 1 hairpin_in.tuple ∧
      ∃ M1, deref r.table 1 = some M1 ∧ key M1 = key sample_mapping ∧
        M1.original_tuple_list =
          hairpin_in.tuple :: sample_mapping.original_tuple_list.filter hairpin_env.net ∧
        M1.refer_count = (check_mapping_prune hairpin_env.net sample_mapping).refer_count + 1 ∧
        (sample_mapping.refer_count = (sample_mapping.original_tuple_list.length : Int) →
          M1.refer_count =
            ((sample_mapping.original_tuple_list.filter hairpin_env.net).length : Int) + 1) := by
  obtain ⟨r, nr, h1, h2, h3, h4, h5, h6, h7, _, h9, _⟩ :=
    inbound_hit [sample_mapping] [sample_mapping] hairpin_in hairpin_env 1 sample_mapping
      rfl rfl rfl rfl rfl
  have hacc : r.ret = NF_ACCEPT := h7.trans rfl
  exact ⟨rfl, rfl, rfl, rfl, r, nr, h1, h2, h3, h4, h5, h6, hacc, h9 hacc rfl⟩

/-- C13 as stated fails when the flow record cannot be allocated: the inbound hairpin
packet hits the mapping of 10.0.0.2:5000, the commit succeeds, `kmalloc` returns NULL in
`add_original_tuple_to_mapping`, and the mapping holds the same single flow record as
before. -/
theorem inbound_hit_counterexample :
    get_mapping_by_ext_port [sample_mapping] hairpin_in.tuple.dst_port
      (inbound_ifindex hairpin_in hairpin_env_norecord) = some 1 ∧
    check_mapping [sample_mapping] (some 1) hairpin_env_norecord.net =
      (true, [sample_mapping]) ∧
    fullconenat_tg [sample_mapping] hairpin_in hairpin_env_norecord =
      some ⟨NF_ACCEPT, some ⟨3, 167772162, 167772162, 5000, 5000⟩, [sample_mapping]⟩ :=
  ⟨rfl, rfl, rfl⟩

/-! ## The post-routing branch -/

theorem outbound_eq (t : Table) (pkt : tg_packet) (env : tg_env)
    (hh : pkt.hooknum = NF_INET_POST_ROUTING) :
    fullconenat_tg t pkt env = fullconenat_tg_outbound t pkt env := by
  simp [fullconenat_tg, hh, NF_INET_POST_ROUTING, NF_INET_PRE_ROUTING]

theorem newrange_max_proto (nr : nf_nat_range) (pkt : tg_packet) (env : tg_env) :
    (fullconenat_tg_newrange nr pkt env).max_proto = nr.max_proto := by
  unfold fullconenat_tg_newrange
  split <;> rfl

/-- C14, as amended. Outbound reuse: for every UDP packet at the post-routing hook whose
source address and port have a mapping M for which `check_mapping` returns 1, the port
selection returns M and `M.port` without calling `find_appropriate_port` (whatever the
range and the random source are) and `nf_nat_setup_info` is asked for the port `M.port` as
minimum and maximum; if the commit succeeds, under the same registry, no mapping is
created or removed, and M holds afterwards the original tuple of the flow in front of its
surviving flow records when the allocation of the flow record succeeds, and the table is
as `check_mapping` left it when that allocation fails; if the commit does not succeed, the
table is as `check_mapping` left it. -/
theorem outbound_reuse (t t1 : Table) (pkt : tg_packet) (env : tg_env) (a : Nat)
    (M : nat_mapping)
    (hh : pkt.hooknum = NF_INET_POST_ROUTING) (hu : pkt.tuple.protonum = IPPROTO_UDP)
    (hg : get_mapping_by_int_src t pkt.tuple.src_ip pkt.tuple.src_port = some a)
    (hd : deref t a = some M)
    (hc : check_mapping t (some a) env.net = (true, t1)) :
    fullconenat_tg_select t pkt env = some (some a, M.port, t1) ∧
    ∃ r nr, fullconenat_tg t pkt env = some r ∧ r.newrange = some nr ∧
      nr.min_proto = M.port ∧ nr.max_proto = M.port ∧
      r.ret = (env.nf_nat_setup_info nr).1 ∧
      (r.ret = NF_ACCEPT → env.net_recheck = env.net →
        r.table.map key = t.map key ∧
        (env.kmalloc_tuple = true →
          r.table = add_original_tuple_to_mapping t1 true a pkt.tuple ∧
          ∃ M1, deref r.table a = some M1 ∧ key M1 = key M ∧
            M1.original_tuple_list = pkt.tuple :: M.original_tuple_list.filter env.net ∧
            M1.refer_count = (check_mapping_prune env.net M).refer_count + 1) ∧
        (env.kmalloc_tuple = false → r.table = t1)) ∧
      (r.ret ≠ NF_ACCEPT → r.table = t1 ∧ r.table.map key = t.map key) := by
  obtain ⟨ht1, hd1⟩ := check_mapping_true_at t t1 a env.net M hd hc
  have hk1 : t1.map key = t.map key := by
    rw [ht1]
    exact keys_update t a _ (key_check_mapping_prune env.net)
  have hagain := check_mapping_again t t1 a env.net hc
  have hsel : fullconenat_tg_select t pkt env = some (some a, M.port, t1) := by
    simp only [fullconenat_tg_select, hg, hc, hd1]
    rfl
  refine ⟨hsel, ?_⟩
  have hne : ¬ pkt.tuple.protonum ≠ IPPROTO_UDP := fun h => h hu
  have hsave : ∀ port, env.net_recheck = env.net →
      fullconenat_tg_save t1 (some a) port pkt env =
        add_original_tuple_to_mapping t1 env.kmalloc_tuple a pkt.tuple :=
    fun port hs => save_kept t1 t1 (some a) a port pkt env rfl (by rw [hs]; exact hagain)
  have hrun : fullconenat_tg t pkt env =
      some (fullconenat_tg_snat t1 (some a)
        ⟨NF_NAT_RANGE_MAP_IPS ||| NF_NAT_RANGE_PROTO_SPECIFIED, 0, 0, M.port, M.port⟩
        pkt env) := by
    rw [outbound_eq t pkt env hh]
    simp only [fullconenat_tg_outbound, hu, if_true, hsel]
  rw [hrun]
  unfold fullconenat_tg_snat
  simp only [hne, false_or]
  by_cases hacc : (env.nf_nat_setup_info (fullconenat_tg_newrange
      ⟨NF_NAT_RANGE_MAP_IPS ||| NF_NAT_RANGE_PROTO_SPECIFIED, 0, 0, M.port, M.port⟩
      pkt env)).1 = NF_ACCEPT
  · have hnacc : ¬ (env.nf_nat_setup_info (fullconenat_tg_newrange
        ⟨NF_NAT_RANGE_MAP_IPS ||| NF_NAT_RANGE_PROTO_SPECIFIED, 0, 0, M.port, M.port⟩
        pkt env)).1 ≠ NF_ACCEPT := fun h => h hacc
    rw [if_neg hnacc]
    refine ⟨_, _, rfl, rfl, newrange_min_proto _ _ _, newrange_max_proto _ _ _, rfl, ?_,
      ?_⟩
    · intro _ hs
      dsimp only
      rw [hsave _ hs]
      refine ⟨?_, ?_, ?_⟩
      · rw [keys_add, hk1]
      · intro hk
        rw [hk]
        refine ⟨rfl, _, deref_add t1 a pkt.tuple _ hd1, rfl, ?_, rfl⟩
        simp only [prune_list]
      · intro hk
        simp only [hk, add_original_tuple_to_mapping, Bool.false_eq_true, if_false]
    · intro h
      exact absurd hacc h
  · rw [if_pos hacc]
    refine ⟨_, _, rfl, rfl, newrange_min_proto _ _ _, newrange_max_proto _ _ _, rfl, ?_,
      ?_⟩
    · intro h
      exact absurd h hacc
    · intro _
      exact ⟨rfl, hk1⟩

theorem outbound_reuse_witness :
    find_appropriate_port [sample_mapping] sample_env.net sample_env.get_random_u32 5000 2
      sample_out_random.range = none ∧
    get_mapping_by_int_src [sample_mapping] sample_out_random.tuple.src_ip
      sample_out_random.tuple.src_port = some 1 ∧
    check_mapping [sample_mapping] (some 1) sample_env.net = (true, [sample_mapping]) ∧
    sample_env.net_recheck = sample_env.net ∧
    fullconenat_tg_select [sample_mapping] sample_out_random sample_env =
      some (some 1, sample_mapping.port, [sample_mapping]) ∧
    ∃ r nr, fullconenat_tg [sample_mapping] sample_out_random sample_env = some r ∧
      r.newrange = some nr ∧
      nr.min_proto = sample_mapping.port ∧ nr.max_proto = sample_mapping.port ∧
      r.ret = NF_ACCEPT ∧
      r.table.map key = [sample_mapping].map key ∧
      r.table = add_original_tuple_to_mapping [sample_mapping] true 1
        sample_out_random.tuple ∧
      ∃ M1, deref r.table 1 = some M1 ∧ key M1 = key sample_mapping ∧
        M1.original_tuple_list =
          sample_out_random.tuple :: sample_mapping.original_tuple_list.filter sample_env.net ∧
        M1.refer_count = (check_mapping_prune sample_env.net sample_mapping).refer_count + 1 := by
  obtain ⟨hsel, r, nr, h1, h2, h3, h4, h5, h6, _⟩ :=
    outbound_reuse [sample_mapping] [sample_mapping] sample_out_random sample_env 1
      sample_mapping rfl rfl rfl rfl rfl
  have hacc : r.ret = NF_ACCEPT := h5.trans rfl
  obtain ⟨h7, h8, _⟩ := h6 hacc rfl
  exact ⟨by decide, rfl, rfl, rfl, hsel, r, nr, h1, h2, h3, h4, hacc, h7, h8 rfl⟩

/-- C14 as stated fails when the flow record cannot be allocated: the outbound packet
reuses the mapping of 10.0.0.2:5000, the commit succeeds, `kmalloc` returns NULL in
`add_original_tuple_to_mapping`, and the mapping holds the same single flow record as
before. -/
theorem outbound_reuse_counterexample :
    get_mapping_by_int_src [sample_mapping] sample_out_second.tuple.src_ip
      sample_out_second.tuple.src_port = some 1 ∧
    check_mapping [sample_mapping] (some 1) sample_env_norecord.net =
      (true, [sample_mapping]) ∧
    sample_env_norecord.net_recheck = sample_env_norecord.net ∧
    fullconenat_tg [sample_mapping] sample_out_second sample_env_norecord =
      some ⟨NF_ACCEPT, some ⟨3, 3405803777, 3405803777, 5000, 5000⟩, [sample_mapping]⟩ :=
  ⟨rfl, rfl, rfl, rfl⟩

/-! ## Tables that only shrink -/

theorem no_growth_refl (t : Table) : no_growth t t :=
  fun m hm => ⟨m, hm, rfl, List.Sublist.refl _⟩

theorem no_growth_trans (t2 t1 t : Table) (h2 : no_growth t2 t1) (h1 : no_growth t1 t) :
    no_growth t2 t := by
  intro m2 hm2
  obtain ⟨m1, hm1, e1, s1⟩ := h2 m2 hm2
  obtain ⟨m, hm, e, s⟩ := h1 m1 hm1
  exact ⟨m, hm, e1.trans e, s1.trans s⟩

theorem no_growth_update (t : Table) (p : Nat) (f : nat_mapping → nat_mapping)
    (hf : ∀ m, key (f m) = key m ∧
      List.Sublist (f m).original_tuple_list m.original_tuple_list) :
    no_growth (update t p f) t := by
  intro m1 hm1
  simp only [update, List.mem_map] at hm1
  obtain ⟨m, hm, rfl⟩ := hm1
  by_cases h : m.addr = p
  · simp only [h, if_true]
    exact ⟨m, hm, (hf m).1, (hf m).2⟩
  · simp only [h, if_false]
    exact ⟨m, hm, rfl, List.Sublist.refl _⟩

theorem no_growth_kill (t : Table) (o : Option Nat) : no_growth (kill_mapping t o) t := by
  cases o with
  | none => exact no_growth_refl t
  | some p =>
    intro m hm
    simp only [kill_mapping, List.mem_filter] at hm
    exact ⟨m, hm.1, rfl, List.Sublist.refl _⟩

theorem prune_no_growth (net : Registry) (m : nat_mapping) :
    key (check_mapping_prune net m) = key m ∧
      List.Sublist (check_mapping_prune net m).original_tuple_list m.original_tuple_list := by
  refine ⟨rfl, ?_⟩
  rw [prune_list]
  exact List.filter_sublist _

theorem no_growth_check (t : Table) (o : Option Nat) (net : Registry) :
    no_growth (check_mapping t o net).2 t := by
  cases o with
  | none => exact no_growth_refl t
  | some p =>
    simp only [check_mapping]
    cases deref t p with
    | none => exact no_growth_refl t
    | some m =>
      simp only []
      split
      · exact no_growth_refl t
      · have hu := no_growth_update t p (check_mapping_prune net) (prune_no_growth net)
        split
        · exact no_growth_trans _ _ _ (no_growth_kill _ (some p)) hu
        · exact hu

theorem no_growth_loop (net : Registry) (min start size : Nat) (ifindex : Int)
    (todo : Nat) (i : Nat) (t : Table) :
    no_growth (find_appropriate_port_loop net min start size ifindex todo i t).2 t := by
  induction todo generalizing i t with
  | zero => exact no_growth_refl t
  | succ n ih =>
    simp only [find_appropriate_port_loop]
    cases get_mapping_by_ext_port t ((min + (start + i) % size) % 65536) ifindex with
    | none => exact no_growth_refl t
    | some p =>
      simp only []
      have hc := no_growth_check t (some p) net
      rcases hr : check_mapping t (some p) net with ⟨b, t1⟩
      rw [hr] at hc
      cases b with
      | false => exact hc
      | true => exact no_growth_trans _ _ _ (ih _ _) hc

theorem no_growth_scan (t : Table) (net : Registry) (min start size : Nat) (ifindex : Int) :
    no_growth (find_appropriate_port_scan t net min start size ifindex).2 t := by
  have hl := no_growth_loop net min start size ifindex size 0 t
  unfold find_appropriate_port_scan
  rcases hr : find_appropriate_port_loop net min start size ifindex size 0 t with ⟨o, t1⟩
  rw [hr] at hl
  cases o with
  | none => exact no_growth_trans _ _ _ (no_growth_kill _ _) hl
  | some sel => exact hl

theorem no_growth_find_port (t : Table) (net : Registry) (rnd op : Nat) (ifindex : Int)
    (range : nf_nat_ipv4_range) (r : Nat × Table)
    (h : find_appropriate_port t net rnd op ifindex range = some r) : no_growth r.2 t := by
  unfold find_appropriate_port at h
  simp only [] at h
  split at h
  · split at h
    · exact absurd h (by simp)
    · obtain rfl := Option.some.inj h
      exact no_growth_scan _ _ _ _ _ _
  · split at h
    · cases hg : get_mapping_by_ext_port t op ifindex with
      | none =>
        rw [hg] at h
        obtain rfl := Option.some.inj h
        exact no_growth_refl t
      | some p =>
        rw [hg] at h
        simp only [] at h
        have hc := no_growth_check t (some p) net
        rcases hr : check_mapping t (some p) net with ⟨b, t1⟩
        rw [hr] at hc h
        cases b with
        | false =>
          obtain rfl := Option.some.inj h
          exact hc
        | true =>
          obtain rfl := Option.some.inj h
          exact no_growth_trans _ _ _ (no_growth_scan _ _ _ _ _ _) hc
    · obtain rfl := Option.some.inj h
      exact no_growth_scan _ _ _ _ _ _

theorem no_growth_select (t : Table) (pkt : tg_packet) (env : tg_env)
    (r : Option Nat × Nat × Table) (h : fullconenat_tg_select t pkt env = some r) :
    no_growth r.2.2 t := by
  have fresh : ∀ t0 : Table, no_growth t0 t →
      (match find_appropriate_port t0 env.net env.get_random_u32 pkt.tuple.src_port
          pkt.out_ifindex pkt.range with
        | none => none
        | some (want_port, t1) => some ((none : Option Nat), want_port, t1)) = some r →
      no_growth r.2.2 t := by
    intro t0 h0 hf
    obtain ⟨_, h2⟩ := select_fresh pkt env t0 r hf
    exact no_growth_trans _ _ _ (no_growth_find_port _ _ _ _ _ _ _ h2) h0
  unfold fullconenat_tg_select at h
  simp only [] at h
  cases hg : get_mapping_by_int_src t pkt.tuple.src_ip pkt.tuple.src_port with
  | none =>
    rw [hg] at h
    exact fresh t (no_growth_refl t) h
  | some p =>
    rw [hg] at h
    simp only [] at h
    have hc := no_growth_check t (some p) env.net
    rcases hr : check_mapping t (some p) env.net with ⟨b, t1⟩
    rw [hr] at hc h
    cases b with
    | false => exact fresh t1 hc h
    | true =>
      simp only [] at h
      cases hd : deref t1 p with
      | none =>
        rw [hd] at h
        exact fresh t1 hc h
      | some m =>
        rw [hd] at h
        obtain rfl := Option.some.inj h
        exact hc

theorem keys_select (t : Table) (pkt : tg_packet) (env : tg_env)
    (r : Option Nat × Nat × Table) (h : fullconenat_tg_select t pkt env = some r) :
    List.Sublist (r.2.2.map key) (t.map key) := by
  have fresh : ∀ t0 : Table, List.Sublist (t0.map key) (t.map key) →
      (match find_appropriate_port t0 env.net env.get_random_u32 pkt.tuple.src_port
          pkt.out_ifindex pkt.range with
        | none => none
        | some (want_port, t1) => some ((none : Option Nat), want_port, t1)) = some r →
      List.Sublist (r.2.2.map key) (t.map key) := by
    intro t0 h0 hf
    obtain ⟨_, h2⟩ := select_fresh pkt env t0 r hf
    exact (keys_find_port _ _ _ _ _ _ _ h2).trans h0
  unfold fullconenat_tg_select at h
  simp only [] at h
  cases hg : get_mapping_by_int_src t pkt.tuple.src_ip pkt.tuple.src_port with
  | none =>
    rw [hg] at h
    exact fresh t (List.Sublist.refl _) h
  | some p =>
    rw [hg] at h
    simp only [] at h
    have hc := keys_check t (some p) env.net
    rcases hr : check_mapping t (some p) env.net with ⟨b, t1⟩
    rw [hr] at hc h
    cases b with
    | false => exact fresh t1 hc h
    | true =>
      simp only [] at h
      cases hd : deref t1 p with
      | none =>
        rw [hd] at h
        exact fresh t1 hc h
      | some m =>
        rw [hd] at h
        obtain rfl := Option.some.inj h
        exact hc

/-- C15, as amended. Commit failure: for every table, registry and packet at the
post-routing hook, if `nf_nat_setup_info` returns something other than `NF_ACCEPT`, the
table after `fullconenat_tg` is the table the port selection left (the table before, for a
packet that is not UDP): no mapping is created and no flow record is added, every mapping
of the table afterwards was in the table before with the same address and key fields, and
its flow records are flow records it had before; mappings removed and flow records pruned
by `check_mapping` and `find_appropriate_port` before the commit stay removed. -/
theorem commit_failure (t : Table) (pkt : tg_packet) (env : tg_env) (r : tg_result)
    (hh : pkt.hooknum = NF_INET_POST_ROUTING)
    (hrun : fullconenat_tg t pkt env = some r) (hfail : r.ret ≠ NF_ACCEPT) :
    (pkt.tuple.protonum ≠ IPPROTO_UDP → r.table = t) ∧
    (pkt.tuple.protonum = IPPROTO_UDP →
      ∃ src want, fullconenat_tg_select t pkt env = some (src, want, r.table)) ∧
    List.Sublist (r.table.map key) (t.map key) ∧
    no_growth r.table t := by
  rw [outbound_eq t pkt env hh] at hrun
  unfold fullconenat_tg_outbound at hrun
  by_cases hu : pkt.tuple.protonum = IPPROTO_UDP
  · rw [if_pos hu] at hrun
    cases hs : fullconenat_tg_select t pkt env with
    | none => rw [hs] at hrun; exact absurd hrun (by simp)
    | some w =>
      rw [hs] at hrun
      obtain rfl := Option.some.inj hrun
      have htab : (fullconenat_tg_snat w.2.2 w.1
          ⟨NF_NAT_RANGE_MAP_IPS ||| NF_NAT_RANGE_PROTO_SPECIFIED, 0, 0, w.2.1, w.2.1⟩
          pkt env).table = w.2.2 := by
        unfold fullconenat_tg_snat at hfail ⊢
        simp only [] at hfail ⊢
        split
        · rfl
        · rename_i hn
          rw [if_neg hn] at hfail
          simp only [not_or, not_not] at hn
          exact absurd hn.2 hfail
      rw [htab]
      refine ⟨fun h => absurd hu h, fun _ => ⟨w.1, w.2.1, rfl⟩, ?_, no_growth_select t pkt env w hs⟩
      exact keys_select t pkt env w hs
  · rw [if_neg hu] at hrun
    obtain rfl := Option.some.inj hrun
    have htab : (fullconenat_tg_snat t none
        ⟨pkt.range.flags ||| NF_NAT_RANGE_MAP_IPS, 0, 0, pkt.range.min, pkt.range.max⟩
        pkt env).table = t := by
      unfold fullconenat_tg_snat
      simp only [ne_eq, hu, not_false_eq_true, true_or, if_true]
    rw [htab]
    exact ⟨fun _ => rfl, fun h => absurd h hu, List.Sublist.refl _, no_growth_refl t⟩

theorem commit_failure_witness :
    newcomer_out.hooknum = NF_INET_POST_ROUTING ∧
    fullconenat_tg two_ports_table newcomer_out sample_env_drop =
      some ⟨0, some ⟨3, 3405803777, 3405803777, 2002, 2002⟩, two_ports_table⟩ ∧
    List.Sublist (two_ports_table.map key) (two_ports_table.map key) ∧
    no_growth two_ports_table two_ports_table :=
  ⟨rfl, rfl,
    (commit_failure two_ports_table newcomer_out sample_env_drop
      ⟨0, some ⟨3, 3405803777, 3405803777, 2002, 2002⟩, two_ports_table⟩ rfl rfl
      (by decide)).2.2⟩

/-- C15 as stated fails when the port selection evicts a mapping before the commit: with
the ports 2000 to 2002 of interface 2 all held by mappings with live flows, an outbound
packet from the new endpoint 10.0.0.9:9000 makes `find_appropriate_port` remove the
mapping at port 2000; the commit then fails, and the table after the step has two mappings
where it had three. -/
theorem commit_failure_counterexample :
    newcomer_out.hooknum = NF_INET_POST_ROUTING ∧
    sample_env_drop.nf_nat_setup_info ⟨3, 3405803777, 3405803777, 2000, 2000⟩ = (0, 0) ∧
    0 ≠ NF_ACCEPT ∧
    fullconenat_tg occupied_table newcomer_out sample_env_drop =
      some ⟨0, some ⟨3, 3405803777, 3405803777, 2000, 2000⟩,
        [⟨3, 2002, 2, 167772164, 7000, 1, [flow_a]⟩,
         ⟨2, 2001, 2, 167772163, 6000, 1, [flow_a]⟩]⟩ ∧
    [(⟨3, 2002, 2, 167772164, 7000, 1, [flow_a]⟩ : nat_mapping),
      ⟨2, 2001, 2, 167772163, 6000, 1, [flow_a]⟩] ≠ occupied_table :=
  ⟨rfl, rfl, by decide, rfl, fun h => absurd (congrArg List.length h) (by decide)⟩

/-! ## Creation of a mapping -/

theorem find_port_some (t : Table) (net : Registry) (rnd op : Nat) (ifindex : Int)
    (range : nf_nat_ipv4_range)
    (hz : range.flags &&& NF_NAT_RANGE_PROTO_RANDOM ≠ 0
      ∨ range.flags &&& NF_NAT_RANGE_PROTO_RANDOM_FULLY ≠ 0 → range_size range ≠ 0) :
    ∃ r, find_appropriate_port t net rnd op ifindex range = some r := by
  unfold find_appropriate_port
  simp only []
  split
  · rename_i hr
    rw [if_neg (hz hr)]
    exact ⟨_, rfl⟩
  · split
    · cases get_mapping_by_ext_port t op ifindex with
      | none => exact ⟨_, rfl⟩
      | some p =>
        simp only []
        rcases check_mapping t (some p) net with ⟨b, t1⟩
        cases b with
        | false => exact ⟨_, rfl⟩
        | true => exact ⟨_, rfl⟩
    · exact ⟨_, rfl⟩

theorem select_some (t : Table) (pkt : tg_packet) (env : tg_env)
    (hz : pkt.range.flags &&& NF_NAT_RANGE_PROTO_RANDOM ≠ 0
      ∨ pkt.range.flags &&& NF_NAT_RANGE_PROTO_RANDOM_FULLY ≠ 0 → range_size pkt.range ≠ 0) :
    ∃ x, fullconenat_tg_select t pkt env = some x := by
  have fresh : ∀ t0 : Table, ∃ x,
      (match find_appropriate_port t0 env.net env.get_random_u32 pkt.tuple.src_port
          pkt.out_ifindex pkt.range with
        | none => none
        | some (want_port, t1) => some ((none : Option Nat), want_port, t1)) = some x := by
    intro t0
    obtain ⟨r, hr⟩ := find_port_some t0 env.net env.get_random_u32 pkt.tuple.src_port
      pkt.out_ifindex pkt.range hz
    rw [hr]
    exact ⟨_, rfl⟩
  unfold fullconenat_tg_select
  simp only []
  cases get_mapping_by_int_src t pkt.tuple.src_ip pkt.tuple.src_port with
  | none => exact fresh t
  | some p =>
    simp only []
    rcases check_mapping t (some p) env.net with ⟨b, t1⟩
    cases b with
    | false => exact fresh t1
    | true =>
      simp only []
      cases deref t1 p with
      | none => exact fresh t1
      | some m => exact ⟨_, rfl⟩

theorem select_no_valid (t : Table) (pkt : tg_packet) (env : tg_env)
    (r : Option Nat × Nat × Table)
    (hnone : get_mapping_by_int_src t pkt.tuple.src_ip pkt.tuple.src_port = none ∨
      ∃ a, get_mapping_by_int_src t pkt.tuple.src_ip pkt.tuple.src_port = some a ∧
        (check_mapping t (some a) env.net).1 = false)
    (h : fullconenat_tg_select t pkt env = some r) : r.1 = none := by
  unfold fullconenat_tg_select at h
  simp only [] at h
  rcases hnone with hg | ⟨a, hg, hc⟩
  · rw [hg] at h
    exact (select_fresh pkt env t r h).1
  · rw [hg] at h
    simp only [] at h
    rcases hr : check_mapping t (some a) env.net with ⟨b, t1⟩
    rw [hr] at hc h
    simp only [] at hc
    subst hc
    exact (select_fresh pkt env t1 r h).1

theorem save_new (t : Table) (port : Nat) (pkt : tg_packet) (env : tg_env) (a : Nat)
    (hk : env.kmalloc_mapping t = some a) (hkt : env.kmalloc_tuple = true) :
    fullconenat_tg_save t none port pkt env =
      ⟨a, port, pkt.out_ifindex, pkt.tuple.src_ip, pkt.tuple.src_port, 1, [pkt.tuple]⟩ ::
        update t a (fun m =>
          { m with original_tuple_list := pkt.tuple :: m.original_tuple_list,
                   refer_count := m.refer_count + 1 }) := by
  unfold fullconenat_tg_save
  simp only [hk, allocate_mapping, add_original_tuple_to_mapping, hkt, if_true, update,
    List.map_cons]
  rfl

/-- C16. Outbound creation uses the committed port: for every packet at the post-routing
hook that is UDP and whose source endpoint has no valid mapping (the lookup by source
endpoint finds nothing, or `check_mapping` rejects what it finds), when every allocation
succeeds: `fullconenat_tg` returns a result unless `find_appropriate_port` divides by zero
(a random flag with a 16-bit range size of 0), and in every result with a successful
commit whose reply-tuple destination port is `p`, the lookups by `(p, outgoing ifindex)`
and by the source endpoint return the same mapping, whose external port is `p`, whose
internal endpoint is the source endpoint of the packet, and whose only flow record is the
original tuple of the flow, with count 1. -/
theorem outbound_creation (t : Table) (pkt : tg_packet) (env : tg_env)
    (hh : pkt.hooknum = NF_INET_POST_ROUTING) (hu : pkt.tuple.protonum = IPPROTO_UDP)
    (hnone : get_mapping_by_int_src t pkt.tuple.src_ip pkt.tuple.src_port = none ∨
      ∃ a, get_mapping_by_int_src t pkt.tuple.src_ip pkt.tuple.src_port = some a ∧
        (check_mapping t (some a) env.net).1 = false)
    (ha : allocation_succeeds (pkt, env)) :
    ((pkt.range.flags &&& NF_NAT_RANGE_PROTO_RANDOM ≠ 0
        ∨ pkt.range.flags &&& NF_NAT_RANGE_PROTO_RANDOM_FULLY ≠ 0 → range_size pkt.range ≠ 0) →
      ∃ r, fullconenat_tg t pkt env = some r) ∧
    ∀ r, fullconenat_tg t pkt env = some r →
      ∃ nr, r.newrange = some nr ∧ r.ret = (env.nf_nat_setup_info nr).1 ∧
        (r.ret = NF_ACCEPT →
          ∃ a_new,
            get_mapping_by_ext_port r.table (env.nf_nat_setup_info nr).2 pkt.out_ifindex =
              some a_new ∧
            get_mapping_by_int_src r.table pkt.tuple.src_ip pkt.tuple.src_port = some a_new ∧
            deref r.table a_new =
              some ⟨a_new, (env.nf_nat_setup_info nr).2, pkt.out_ifindex, pkt.tuple.src_ip,
                pkt.tuple.src_port, 1, [pkt.tuple]⟩) := by
  rw [outbound_eq t pkt env hh]
  unfold fullconenat_tg_outbound
  rw [if_pos hu]
  constructor
  · intro hz
    obtain ⟨x, hx⟩ := select_some t pkt env hz
    rw [hx]
    exact ⟨_, rfl⟩
  · intro r hrun
    cases hs : fullconenat_tg_select t pkt env with
    | none => rw [hs] at hrun; exact absurd hrun (by simp)
    | some w =>
      rw [hs] at hrun
      obtain rfl := Option.some.inj hrun
      have hw : w.1 = none := select_no_valid t pkt env w hnone hs
      rw [hw]
      unfold fullconenat_tg_snat
      simp only []
      split
      · rename_i hc
        refine ⟨_, rfl, rfl, fun hacc => ?_⟩
        rcases hc with hc | hc
        · exact absurd hu hc
        · exact absurd hacc hc
      · refine ⟨_, rfl, rfl, fun _ => ?_⟩
        obtain ⟨a, hk⟩ := ha.2 w.2.2
        refine ⟨a, ?_⟩
        rw [save_new w.2.2 _ pkt env a hk ha.1]
        simp [get_mapping_by_ext_port, get_mapping_by_int_src, deref]

theorem outbound_creation_witness :
    sample_out.hooknum = NF_INET_POST_ROUTING ∧ sample_out.tuple.protonum = IPPROTO_UDP ∧
    get_mapping_by_int_src [] sample_out.tuple.src_ip sample_out.tuple.src_port = none ∧
    allocation_succeeds (sample_out, sample_env_contended) ∧
    fullconenat_tg [] sample_out sample_env_contended =
      some ⟨NF_ACCEPT, some ⟨3, 3405803777, 3405803777, 5000, 5000⟩,
        [⟨1, 5001, 2, 167772162, 5000, 1, [sample_out.tuple]⟩]⟩ ∧
    ∃ nr, (some ⟨3, 3405803777, 3405803777, 5000, 5000⟩ : Option nf_nat_range) = some nr ∧
      NF_ACCEPT = (sample_env_contended.nf_nat_setup_info nr).1 ∧
      (NF_ACCEPT = NF_ACCEPT →
        ∃ a_new,
          get_mapping_by_ext_port [⟨1, 5001, 2, 167772162, 5000, 1, [sample_out.tuple]⟩]
            (sample_env_contended.nf_nat_setup_info nr).2 sample_out.out_ifindex =
              some a_new ∧
          get_mapping_by_int_src [⟨1, 5001, 2, 167772162, 5000, 1, [sample_out.tuple]⟩]
            sample_out.tuple.src_ip sample_out.tuple.src_port = some a_new ∧
          deref [⟨1, 5001, 2, 167772162, 5000, 1, [sample_out.tuple]⟩] a_new =
            some ⟨a_new, (sample_env_contended.nf_nat_setup_info nr).2,
              sample_out.out_ifindex, sample_out.tuple.src_ip, sample_out.tuple.src_port, 1,
              [sample_out.tuple]⟩) :=
  ⟨rfl, rfl, rfl, ⟨rfl, fun t => ⟨next_addr t, rfl⟩⟩, rfl,
    (outbound_creation [] sample_out sample_env_contended rfl rfl (Or.inl rfl)
      ⟨rfl, fun t => ⟨next_addr t, rfl⟩⟩).2
      ⟨NF_ACCEPT, some ⟨3, 3405803777, 3405803777, 5000, 5000⟩,
        [⟨1, 5001, 2, 167772162, 5000, 1, [sample_out.tuple]⟩]⟩ rfl⟩

/-! ## Removal of a mapping -/

theorem deref_absent (t : Table) (p : Nat) (h : ∀ m ∈ t, m.addr ≠ p) : deref t p = none := by
  cases hd : deref t p with
  | none => rfl
  | some m => exact absurd (deref_some t p m hd).2 (h m (deref_some t p m hd).1)

theorem deref_present (t : Table) (p : Nat) (m : nat_mapping) (hm : m ∈ t) (ha : m.addr = p) :
    ∃ M, deref t p = some M := by
  cases hd : deref t p with
  | none => exact absurd ha (deref_none t p hd m hm)
  | some M => exact ⟨M, rfl⟩

theorem deref_update_ne (t : Table) (p q : Nat) (f : nat_mapping → nat_mapping)
    (hf : ∀ m, (f m).addr = m.addr) (hq : q ≠ p) :
    deref (update t p f) q = deref t q := by
  rw [deref_update_other t p q f hf]
  cases hd : deref t q with
  | none => rfl
  | some m =>
    have ha : m.addr = q := (deref_some t q m hd).2
    have hne : ¬ m.addr = p := by rw [ha]; exact hq
    simp only [Option.map_some', hne, if_false]

/-- C18. Pruning is exact: for every table, registry and mapping `M` allocated at `p`
whose count equals the number of its flow records, when `check_mapping` returns true the
flow records of the mapping afterwards are exactly the records whose tuples the registry
reports as existing, in their previous relative order, its `refer_count` equals their
number, its port, ifindex, int_addr and int_port are unchanged, and every other mapping of
the table is unchanged. -/
theorem pruning_exact (t t1 : Table) (p : Nat) (net : Registry) (M : nat_mapping)
    (hd : deref t p = some M)
    (hcnt : M.refer_count = (M.original_tuple_list.length : Int))
    (hc : check_mapping t (some p) net = (true, t1)) :
    ∃ M1, deref t1 p = some M1 ∧
      M1.original_tuple_list = M.original_tuple_list.filter net ∧
      List.Sublist M1.original_tuple_list M.original_tuple_list ∧
      (∀ x, x ∈ M1.original_tuple_list ↔ x ∈ M.original_tuple_list ∧ net x = true) ∧
      M1.refer_count = (M1.original_tuple_list.length : Int) ∧
      M1.addr = M.addr ∧ M1.port = M.port ∧ M1.ifindex = M.ifindex ∧
      M1.int_addr = M.int_addr ∧ M1.int_port = M.int_port ∧
      t1 = t.map (fun m => if m.addr = p then check_mapping_prune net m else m) ∧
      (∀ q, q ≠ p → deref t1 q = deref t q) ∧
      (∀ m, m.addr ≠ p → (m ∈ t1 ↔ m ∈ t)) := by
  obtain ⟨e, hd1⟩ := check_mapping_true_at t t1 p net M hd hc
  refine ⟨check_mapping_prune net M, hd1, prune_list net M, ?_, ?_, ?_, rfl, rfl, rfl, rfl, rfl,
    e, ?_, ?_⟩
  · rw [prune_list]
    exact List.filter_sublist _
  · intro x
    rw [prune_list, List.mem_filter]
  · rw [prune_count_ok net M hcnt, prune_list]
  · intro q hq
    rw [e]
    exact deref_update_ne t p q (check_mapping_prune net) (fun _ => rfl) hq
  · intro m hm
    rw [e]
    simp only [update, List.mem_map]
    constructor
    · rintro ⟨x, hx, hxm⟩
      by_cases hxa : x.addr = p
      · rw [if_pos hxa] at hxm
        have : m.addr = p := by rw [← hxm]; exact hxa
        exact absurd this hm
      · rw [if_neg hxa] at hxm
        rw [← hxm]
        exact hx
    · intro hin
      exact ⟨m, hin, by rw [if_neg hm]⟩

theorem pruning_exact_witness :
    deref [two_flows_mapping] 1 = some two_flows_mapping ∧
    two_flows_mapping.refer_count = (two_flows_mapping.original_tuple_list.length : Int) ∧
    check_mapping [two_flows_mapping] (some 1) hairpin_only =
      (true, [⟨1, 5000, 2, 167772162, 5000, 1, [hairpin_flow]⟩]) ∧
    ∃ M1, deref [⟨1, 5000, 2, 167772162, 5000, 1, [hairpin_flow]⟩] 1 = some M1 ∧
      M1.original_tuple_list = two_flows_mapping.original_tuple_list.filter hairpin_only ∧
      M1.refer_count = (M1.original_tuple_list.length : Int) := by
  obtain ⟨M1, h1, h2, _, _, h5, _⟩ :=
    pruning_exact [two_flows_mapping] [⟨1, 5000, 2, 167772162, 5000, 1, [hairpin_flow]⟩] 1
      hairpin_only two_flows_mapping rfl rfl (by decide)
  exact ⟨rfl, rfl, by decide, M1, h1, h2, h5⟩

theorem expire_list (d : nf_conntrack_tuple) (m : nat_mapping) :
    (expire d m).original_tuple_list =
      m.original_tuple_list.filter (fun x => decide (x ≠ d)) := by
  simp only [expire, expire_loop_eq]

theorem expire_count_ok (d : nf_conntrack_tuple) (m : nat_mapping)
    (h : m.refer_count = (m.original_tuple_list.length : Int)) :
    (expire d m).refer_count = ((expire d m).original_tuple_list.length : Int) := by
  simp only [expire, expire_loop_eq, h]
  omega

theorem resolve_present (t : Table) (item : tuple_list) (p : Nat)
    (h : resolve_dying t item = some p) : ∃ M, deref t p = some M := by
  unfold resolve_dying at h
  cases h1 : get_mapping_by_int_src t item.tuple_original.src_ip
      item.tuple_original.src_port with
  | none =>
    rw [h1] at h
    obtain ⟨m, hm, ha, _⟩ := get_int_some _ _ _ _ h
    exact deref_present t p m hm ha
  | some a =>
    rw [h1] at h
    obtain rfl := Option.some.inj h
    obtain ⟨m, hm, ha, _⟩ := get_int_some _ _ _ _ h1
    exact deref_present t a m hm ha

/-- C19. Drain removal: when `handle_dying_tuples` processes one pending record, the
mapping it resolves is `get_mapping_by_int_src` on the source endpoint of the original
tuple, or, only if that finds nothing, on the source endpoint of the reply tuple; if no
mapping is resolved the table is unchanged; if a mapping is resolved it is allocated, and
when its count equals the number of its flow records, afterwards it holds no flow record
equal to the original tuple of the record, its other flow records are unchanged, its
count equals the number that remain, its key fields are unchanged, it is removed from the
table exactly when that count is at most 0, and the other mappings are unchanged. -/
theorem drain_removal (t : Table) (item : tuple_list) :
    resolve_dying t item =
      (match get_mapping_by_int_src t item.tuple_original.src_ip
          item.tuple_original.src_port with
        | some p => some p
        | none =>
          get_mapping_by_int_src t item.tuple_reply.src_ip item.tuple_reply.src_port) ∧
    (resolve_dying t item = none → handle_dying_tuple t item = t) ∧
    (∀ p, resolve_dying t item = some p → ∃ M, deref t p = some M) ∧
    ∀ p M, resolve_dying t item = some p → deref t p = some M →
      M.refer_count = (M.original_tuple_list.length : Int) →
      item.tuple_original ∉ (expire item.tuple_original M).original_tuple_list ∧
      (expire item.tuple_original M).original_tuple_list =
        M.original_tuple_list.filter (fun x => decide (x ≠ item.tuple_original)) ∧
      (expire item.tuple_original M).refer_count =
        ((expire item.tuple_original M).original_tuple_list.length : Int) ∧
      (expire item.tuple_original M).addr = M.addr ∧
      key (expire item.tuple_original M) = key M ∧
      ((expire item.tuple_original M).refer_count ≤ 0 →
        handle_dying_tuple t item =
          kill_mapping (update t p (expire item.tuple_original)) (some p) ∧
        deref (handle_dying_tuple t item) p = none) ∧
      (¬ (expire item.tuple_original M).refer_count ≤ 0 →
        handle_dying_tuple t item = update t p (expire item.tuple_original) ∧
        deref (handle_dying_tuple t item) p = some (expire item.tuple_original M)) ∧
      (∀ q, q ≠ p → deref (handle_dying_tuple t item) q = deref t q) := by
  refine ⟨rfl, ?_, resolve_present t item, ?_⟩
  · intro h
    simp only [handle_dying_tuple, h]
  · intro p M hres hd hcnt
    have hd1 : deref (update t p (expire item.tuple_original)) p =
        some (expire item.tuple_original M) := by
      rw [deref_update t p (expire item.tuple_original) (fun _ => rfl), hd]
      rfl
    have hstep : handle_dying_tuple t item =
        if (expire item.tuple_original M).refer_count ≤ 0 then
          kill_mapping (update t p (expire item.tuple_original)) (some p)
        else update t p (expire item.tuple_original) := by
      simp only [handle_dying_tuple, hres, hd1]
    have hother : ∀ q, q ≠ p →
        deref (update t p (expire item.tuple_original)) q = deref t q :=
      fun q hq => deref_update_ne t p q (expire item.tuple_original) (fun _ => rfl) hq
    refine ⟨?_, expire_list _ M, expire_count_ok _ M hcnt, rfl, rfl, ?_, ?_, ?_⟩
    · rw [expire_list]
      simp only [List.mem_filter, ne_eq, not_true_eq_false, decide_False, and_false,
        not_false_eq_true, Bool.false_eq_true]
    · intro hle
      rw [hstep, if_pos hle]
      exact ⟨rfl, deref_absent _ p (kill_no_addr _ p)⟩
    · intro hgt
      rw [hstep, if_neg hgt]
      exact ⟨rfl, hd1⟩
    · intro q hq
      rw [hstep]
      split
      · rw [deref_kill_other _ q p hq]
        exact hother q hq
      · exact hother q hq

theorem drain_removal_witness :
    resolve_dying [two_flows_mapping] hairpin_record = some 1 ∧
    deref [two_flows_mapping] 1 = some two_flows_mapping ∧
    two_flows_mapping.refer_count = (two_flows_mapping.original_tuple_list.length : Int) ∧
    expire hairpin_record.tuple_original two_flows_mapping =
      ⟨1, 5000, 2, 167772162, 5000, 1, [flow_a]⟩ ∧
    handle_dying_tuple [two_flows_mapping] hairpin_record =
      [⟨1, 5000, 2, 167772162, 5000, 1, [flow_a]⟩] ∧
    deref (handle_dying_tuple [two_flows_mapping] hairpin_record) 1 =
      some (expire hairpin_record.tuple_original two_flows_mapping) ∧
    resolve_dying [sample_mapping] sample_record = some 1 ∧
    (expire sample_record.tuple_original sample_mapping).refer_count = 0 ∧
    handle_dying_tuple [sample_mapping] sample_record = [] ∧
    deref (handle_dying_tuple [sample_mapping] sample_record) 1 = none :=
  ⟨by decide, rfl, rfl, by decide, by decide,
    (((drain_removal [two_flows_mapping] hairpin_record).2.2.2 1 two_flows_mapping
      (by decide) rfl rfl).2.2.2.2.2.2.1 (by decide)).2,
    by decide, by decide, by decide,
    (((drain_removal [sample_mapping] sample_record).2.2.2 1 sample_mapping
      (by decide) rfl rfl).2.2.2.2.2.1 (by decide)).2⟩

/-! ## Order of the pending list -/

theorem ct_event_cb_udp (q : List tuple_list) (x : tuple_list) (ok : Bool)
    (hu : x.tuple_original.protonum = IPPROTO_UDP) :
    ct_event_cb q (1 <<< IPCT_DESTROY) (some (x.tuple_original, x.tuple_reply)) ok =
      if ok then x :: q else q := by
  have hev : ¬ ((1 <<< IPCT_DESTROY) &&& (1 <<< IPCT_DESTROY) = 0) := by decide
  simp only [ct_event_cb, hev, if_false, hu, ne_eq, not_true_eq_false]

theorem deliver_eq (events : List (tuple_list × Bool)) (q : List tuple_list)
    (hu : ∀ e ∈ events, e.1.tuple_original.protonum = IPPROTO_UDP) :
    deliver q events = ((events.filter (fun e => e.2)).map (fun e => e.1)).reverse ++ q := by
  induction events generalizing q with
  | nil => rfl
  | cons e rest ih =>
    have h1 := ct_event_cb_udp q e.1 e.2 (hu e (List.mem_cons_self _ _))
    have h2 : deliver q (e :: rest) = deliver (if e.2 then e.1 :: q else q) rest := by
      simp only [deliver, List.foldl_cons, h1]
    rw [h2, ih _ (fun x hx => hu x (List.mem_cons_of_mem _ hx))]
    cases he : e.2 with
    | false => simp [List.filter_cons, he]
    | true => simp [List.filter_cons, he]

theorem handle_dying_tuples_eq (q : List tuple_list) (t : Table) :
    handle_dying_tuples t q = (q.foldl handle_dying_tuple t, []) := by
  induction q generalizing t with
  | nil => rfl
  | cons item rest ih =>
    simp only [handle_dying_tuples, List.foldl_cons]
    exact ih _

/-- C20, as amended. LIFO order of the pending-destroy list: for every sequence of UDP
destroy events delivered to `ct_event_cb`, the pending list afterwards is the records
that were enqueued (those whose `kmalloc` succeeded), the last enqueued at the head, in
front of what was pending before; and a later `handle_dying_tuples` run walks the list
from its head, so it processes the records in the reverse of the order in which they were
enqueued (the record enqueued last is processed first), and leaves the list empty. -/
theorem pending_order (t : Table) (q : List tuple_list) (events : List (tuple_list × Bool))
    (hu : ∀ e ∈ events, e.1.tuple_original.protonum = IPPROTO_UDP) :
    deliver q events = ((events.filter (fun e => e.2)).map (fun e => e.1)).reverse ++ q ∧
    handle_dying_tuples t (deliver [] events) =
      (((events.filter (fun e => e.2)).map (fun e => e.1)).foldr
        (fun x acc => handle_dying_tuple acc x) t, []) ∧
    ∀ x y rest, handle_dying_tuples t (x :: y :: rest) =
      handle_dying_tuples (handle_dying_tuple (handle_dying_tuple t x) y) rest := by
  refine ⟨deliver_eq events q hu, ?_, fun _ _ _ => rfl⟩
  rw [deliver_eq events [] hu, handle_dying_tuples_eq, List.append_nil, List.foldl_reverse]

theorem pending_order_witness :
    (∀ e ∈ [(flow_c_record, true), (hairpin_record, true)],
      e.1.tuple_original.protonum = IPPROTO_UDP) ∧
    deliver [] [(flow_c_record, true), (hairpin_record, true)] =
      [hairpin_record, flow_c_record] ∧
    handle_dying_tuples order_table
        (deliver [] [(flow_c_record, true), (hairpin_record, true)]) =
      (handle_dying_tuple (handle_dying_tuple order_table hairpin_record) flow_c_record, []) :=
  ⟨by decide, by decide,
    (pending_order order_table [] [(flow_c_record, true), (hairpin_record, true)]
      (by decide)).2.1⟩

/-- C20 as stated fails because `ct_event_cb` links a new record at the head of the list:
the destroy event of `flow_c` is delivered first and the one of the hairpin flow second;
`handle_dying_tuples` processes the hairpin record first, which resolves the mapping of
10.0.0.3:6000 and finds nothing to remove there, then the record of `flow_c`, which
removes that mapping; the mapping of 10.0.0.2:5000 stays with the dead hairpin flow.
Processing in the order of enqueueing would have removed both mappings. -/
theorem pending_order_counterexample :
    deliver [] [(flow_c_record, true), (hairpin_record, true)] =
      [hairpin_record, flow_c_record] ∧
    handle_dying_tuples order_table
        (deliver [] [(flow_c_record, true), (hairpin_record, true)]) =
      ([⟨1, 5000, 2, 167772162, 5000, 1, [hairpin_flow]⟩], []) ∧
    handle_dying_tuples order_table [flow_c_record, hairpin_record] = ([], []) :=
  ⟨by decide, by decide, by decide⟩

/-! ## The 16-bit range size -/

theorem range_size_wrap (range : nf_nat_ipv4_range)
    (hs : range.flags &&& NF_NAT_RANGE_PROTO_SPECIFIED ≠ 0)
    (h1 : range.min ≤ range.max) :
    range_size range = (range.max - range.min + 1) % 65536 := by
  simp only [range_size, hs, to_u16, ne_eq, not_false_eq_true, if_true]
  omega

theorem candidate_covers (min s size p : Nat) (hs : s < size) (hb : min + size ≤ 65536)
    (hp1 : min ≤ p) (hp2 : p < min + size) :
    ∃ i, i < size ∧ (min + (s + i) % size) % 65536 = p := by
  by_cases hge : s ≤ p - min
  · refine ⟨p - min - s, by omega, ?_⟩
    have e : s + (p - min - s) = p - min := by omega
    rw [e, Nat.mod_eq_of_lt (show p - min < size by omega),
      Nat.mod_eq_of_lt (show min + (p - min) < 65536 by omega)]
    omega
  · refine ⟨p - min + size - s, by omega, ?_⟩
    have e : s + (p - min + size - s) = p - min + size := by omega
    rw [e, Nat.add_mod_right, Nat.mod_eq_of_lt (show p - min < size by omega),
      Nat.mod_eq_of_lt (show min + (p - min) < 65536 by omega)]
    omega

/-- The scan misses no port: when some port of `[min, min + size - 1]` has no mapping that
`check_mapping` accepts, the scan returns a port with no such mapping. -/
theorem scan_finds_free (t : Table) (net : Registry) (min s size : Nat) (ifindex : Int)
    (p : Nat) (hs : s < size) (hb : min + size ≤ 65536) (hp1 : min ≤ p) (hp2 : p < min + size)
    (hfree : accepted t net p ifindex = false) :
    accepted t net (find_appropriate_port_scan t net min s size ifindex).1 ifindex = false := by
  obtain ⟨i, hi, hip⟩ := candidate_covers min s size p hs hb hp1 hp2
  have hex : ∃ k, k < size ∧ accepted t net ((min + (s + k) % size) % 65536) ifindex = false :=
    ⟨i, hi, by rw [hip]; exact hfree⟩
  have hk := Nat.find_spec hex
  have hmin : ∀ j < Nat.find hex,
      accepted t net ((min + (s + (0 + j)) % size) % 65536) ifindex = true := by
    intro j hj
    have hn := Nat.find_min hex hj
    rw [Nat.zero_add]
    cases ha : accepted t net ((min + (s + j) % size) % 65536) ifindex with
    | true => rfl
    | false => exact absurd ⟨by omega, ha⟩ hn
  obtain ⟨t1, hl, _⟩ := loop_first_rejected net min s size ifindex (Nat.find hex) size 0 t hk.1
    hmin (by rw [Nat.zero_add]; exact hk.2)
  rw [Nat.zero_add] at hl
  simp only [find_appropriate_port_scan, hl]
  exact hk.2

/-- C21, with the failing range. The 16-bit `range_size` of `find_appropriate_port`: for an
unspecified range it is 64512 with `min` 1024; for an explicit range `[min,max]` with
`0 <= min <= max <= 65535` it is `max - min + 1` truncated to 16 bits, which is
`max - min + 1`, at least 1, for every range but `[0,65535]`: there the function returns a
port, and its scan returns a port without an accepted mapping whenever `[min,max]` has
one.  For `[0,65535]` the size is 0: with a random flag `get_random_u32() % range_size`
divides by zero, and without one the loop does not run and port 0 is returned after the
mapping at port 0 has been removed. -/
theorem range_size_sixteen_bit (range : nf_nat_ipv4_range) :
    (¬ range.flags &&& NF_NAT_RANGE_PROTO_SPECIFIED ≠ 0 →
      range_min range = 1024 ∧ range_size range = 64512) ∧
    (range.flags &&& NF_NAT_RANGE_PROTO_SPECIFIED ≠ 0 →
      range.min ≤ range.max → range.max < 65536 →
      range_min range = range.min ∧
      range_size range = (range.max - range.min + 1) % 65536 ∧
      (range_size range = 0 ↔ range.min = 0 ∧ range.max = 65535) ∧
      (¬ (range.min = 0 ∧ range.max = 65535) →
        range_size range = range.max - range.min + 1 ∧ 1 ≤ range_size range ∧
        (∀ t net rnd op ifindex, ∃ r,
          find_appropriate_port t net rnd op ifindex range = some r) ∧
        (∀ t net s ifindex p, s < range_size range → range.min ≤ p → p ≤ range.max →
          accepted t net p ifindex = false →
          accepted t net
            (find_appropriate_port_scan t net range.min s (range_size range) ifindex).1
            ifindex = false)) ∧
      (range.min = 0 ∧ range.max = 65535 →
        (range.flags &&& NF_NAT_RANGE_PROTO_RANDOM ≠ 0
            ∨ range.flags &&& NF_NAT_RANGE_PROTO_RANDOM_FULLY ≠ 0 →
          ∀ t net rnd op ifindex, find_appropriate_port t net rnd op ifindex range = none) ∧
        (¬ (range.flags &&& NF_NAT_RANGE_PROTO_RANDOM ≠ 0
            ∨ range.flags &&& NF_NAT_RANGE_PROTO_RANDOM_FULLY ≠ 0) →
          ∀ t net rnd op ifindex, find_appropriate_port t net rnd op ifindex range =
            some (0, kill_mapping t (get_mapping_by_ext_port t 0 ifindex))))) := by
  refine ⟨fun hs => ⟨range_min_default range hs, range_size_default range hs⟩, ?_⟩
  intro hs h1 h2
  have hw := range_size_wrap range hs h1
  refine ⟨range_min_specified range hs, hw, ?_, ?_, ?_⟩
  · rw [hw]
    omega
  · intro hne
    have he : range_size range = range.max - range.min + 1 := by
      rw [hw]
      omega
    refine ⟨he, by omega, ?_, ?_⟩
    · intro t net rnd op ifindex
      exact find_port_some t net rnd op ifindex range (fun _ => by omega)
    · intro t net s ifindex p hsl hp1 hp2 hfree
      exact scan_finds_free t net range.min s (range_size range) ifindex p hsl (by omega) hp1
        (by omega) hfree
  · rintro ⟨hmin, hmax⟩
    have hz : range_size range = 0 := by
      rw [hw, hmin, hmax]
    have hm : range_min range = 0 := by
      rw [range_min_specified range hs, hmin]
    constructor
    · intro hr t net rnd op ifindex
      simp only [find_appropriate_port, hr, if_true, hz]
    · intro hr t net rnd op ifindex
      have hcond : ¬ ((op ≥ range_min range ∧
          (op : Int) ≤ (range_min range : Int) + (range_size range : Int) - 1) ∨
          ¬ range.flags &&& NF_NAT_RANGE_PROTO_SPECIFIED ≠ 0) := by
        rw [hz, hm]
        intro h
        rcases h with h | h
        · omega
        · exact h hs
      simp only [find_appropriate_port, hr, if_false, hcond]
      simp only [hz, hm, find_appropriate_port_scan, find_appropriate_port_loop]

theorem range_size_sixteen_bit_witness :
    range_size random_full_range = 0 ∧
    (65535 : Nat) - 0 + 1 ≠ 0 ∧
    (∀ t net rnd op ifindex,
      find_appropriate_port t net rnd op ifindex random_full_range = none) ∧
    range_size small_range = 3 ∧
    ∀ t net rnd op ifindex, ∃ r,
      find_appropriate_port t net rnd op ifindex small_range = some r :=
  ⟨by decide, by decide,
    (((range_size_sixteen_bit random_full_range).2 (by decide) (by decide)
      (by decide)).2.2.2.2 ⟨rfl, rfl⟩).1 (Or.inl (by decide)),
    by decide,
    (((range_size_sixteen_bit small_range).2 (by decide) (by decide)
      (by decide)).2.2.2.1 (by decide)).2.2.1⟩

/-! ## Repeating `check_mapping` -/

/-- C22. Idempotence of `check_mapping` under a fixed registry: for every table, mapping
and registry, if `check_mapping` returns true, then `check_mapping` on the same mapping
with the same registry returns true again and leaves the table exactly as the first run
left it; so the check of the post-routing branch after the commit, when it finds the
same registry, changes nothing, and the save step only adds the flow record to the
reused mapping. -/
theorem check_mapping_idempotent (t t1 : Table) (p : Nat) (net : Registry)
    (h : check_mapping t (some p) net = (true, t1)) :
    check_mapping t1 (some p) net = (true, t1) ∧
    (check_mapping (check_mapping t (some p) net).2 (some p) net).1 = true ∧
    (check_mapping (check_mapping t (some p) net).2 (some p) net).2 =
      (check_mapping t (some p) net).2 ∧
    ∀ (port : Nat) (pkt : tg_packet) (env : tg_env), env.net_recheck = net →
      fullconenat_tg_save t1 (some p) port pkt env =
        add_original_tuple_to_mapping t1 env.kmalloc_tuple p pkt.tuple := by
  have h2 := check_mapping_again t t1 p net h
  refine ⟨h2, ?_, ?_, ?_⟩
  · rw [h]
    simp only [h2]
  · rw [h]
    simp only [h2]
  · intro port pkt env he
    subst he
    simp only [fullconenat_tg_save, h2]

theorem check_mapping_idempotent_witness :
    check_mapping [two_flows_mapping] (some 1) hairpin_only =
      (true, [⟨1, 5000, 2, 167772162, 5000, 1, [hairpin_flow]⟩]) ∧
    check_mapping [⟨1, 5000, 2, 167772162, 5000, 1, [hairpin_flow]⟩] (some 1) hairpin_only =
      (true, [⟨1, 5000, 2, 167772162, 5000, 1, [hairpin_flow]⟩]) :=
  ⟨by decide,
    (check_mapping_idempotent [two_flows_mapping]
      [⟨1, 5000, 2, 167772162, 5000, 1, [hairpin_flow]⟩] 1 hairpin_only (by decide)).1⟩

/-! ## The port allocator stays in its range and on its interface -/

theorem others_update (t : Table) (p : Nat) (f : nat_mapping → nat_mapping) (i : Int)
    (h : ∀ x ∈ t, x.addr = p → x.ifindex = i) (hf : ∀ m, (f m).ifindex = m.ifindex) :
    other_interfaces (update t p f) i = other_interfaces t i := by
  induction t with
  | nil => rfl
  | cons x rest ih =>
    have ih1 : other_interfaces (update rest p f) i = other_interfaces rest i :=
      ih (fun y hy => h y (List.mem_cons_of_mem _ hy))
    simp only [other_interfaces, update] at ih1 ⊢
    by_cases hx : x.addr = p
    · have hxi : x.ifindex = i := h x (List.mem_cons_self _ _) hx
      simp only [List.map_cons, hx, if_true, List.filter_cons, hf, hxi, ne_eq,
        not_true_eq_false, decide_False, Bool.false_eq_true, if_false]
      exact ih1
    · simp only [List.map_cons, hx, if_false, List.filter_cons]
      rw [ih1]

theorem others_kill (t : Table) (p : Nat) (i : Int)
    (h : ∀ x ∈ t, x.addr = p → x.ifindex = i) :
    other_interfaces (kill_mapping t (some p)) i = other_interfaces t i := by
  induction t with
  | nil => rfl
  | cons x rest ih =>
    have ih1 := ih (fun y hy => h y (List.mem_cons_of_mem _ hy))
    rw [kill_mapping_cons]
    by_cases hx : x.addr = p
    · have hxi : x.ifindex = i := h x (List.mem_cons_self _ _) hx
      rw [if_pos hx, ih1]
      simp only [other_interfaces, List.filter_cons, hxi, ne_eq, not_true_eq_false,
        decide_False, Bool.false_eq_true, if_false]
    · rw [if_neg hx]
      simp only [other_interfaces, List.filter_cons] at ih1 ⊢
      rw [ih1]

theorem addr_interface_update (t : Table) (p : Nat) (f : nat_mapping → nat_mapping) (i : Int)
    (h : ∀ x ∈ t, x.addr = p → x.ifindex = i) (hf : ∀ m, (f m).ifindex = m.ifindex) :
    ∀ x ∈ update t p f, x.addr = p → x.ifindex = i := by
  intro x hx hxa
  simp only [update, List.mem_map] at hx
  obtain ⟨y, hy, rfl⟩ := hx
  by_cases hya : y.addr = p
  · rw [if_pos hya, hf]
    exact h y hy hya
  · rw [if_neg hya] at hxa
    exact absurd hxa hya

theorem others_check (t : Table) (p : Nat) (net : Registry) (i : Int)
    (h : ∀ x ∈ t, x.addr = p → x.ifindex = i) :
    other_interfaces (check_mapping t (some p) net).2 i = other_interfaces t i := by
  have hu := others_update t p (check_mapping_prune net) i h (fun _ => rfl)
  simp only [check_mapping]
  cases deref t p with
  | none => rfl
  | some m =>
    simp only []
    split
    · rfl
    · split
      · rw [others_kill _ p i
          (addr_interface_update t p (check_mapping_prune net) i h (fun _ => rfl))]
        exact hu
      · exact hu

theorem addr_interface (t : Table) (port : Nat) (i : Int) (p : Nat) (hn : addr_nodup t)
    (hg : get_mapping_by_ext_port t port i = some p) :
    ∀ x ∈ t, x.addr = p → x.ifindex = i := by
  obtain ⟨m, hm, hma, _, hmi⟩ := get_ext_some t port i p hg
  intro x hx hxa
  have h1 := deref_of_mem t x hn hx
  have h2 := deref_of_mem t m hn hm
  rw [hxa] at h1
  rw [hma, h1] at h2
  obtain rfl := Option.some.inj h2
  exact hmi

theorem others_loop (net : Registry) (min start size : Nat) (ifindex : Int)
    (todo : Nat) (i : Nat) (t : Table) (hn : addr_nodup t) :
    other_interfaces (find_appropriate_port_loop net min start size ifindex todo i t).2
      ifindex = other_interfaces t ifindex := by
  induction todo generalizing i t with
  | zero => rfl
  | succ n ih =>
    simp only [find_appropriate_port_loop]
    cases hg : get_mapping_by_ext_port t ((min + (start + i) % size) % 65536) ifindex with
    | none => rfl
    | some p =>
      simp only []
      have hc := others_check t p net ifindex (addr_interface t _ ifindex p hn hg)
      have hk := keys_check t (some p) net
      rcases hr : check_mapping t (some p) net with ⟨b, t1⟩
      rw [hr] at hc hk
      cases b with
      | false => exact hc
      | true => exact (ih _ t1 (addr_nodup_sublist t t1 hk hn)).trans hc

theorem others_scan (t : Table) (net : Registry) (min start size : Nat) (ifindex : Int)
    (hn : addr_nodup t) :
    other_interfaces (find_appropriate_port_scan t net min start size ifindex).2 ifindex =
      other_interfaces t ifindex := by
  have hl := others_loop net min start size ifindex size 0 t hn
  have hk := keys_loop net min start size ifindex size 0 t
  unfold find_appropriate_port_scan
  rcases hr : find_appropriate_port_loop net min start size ifindex size 0 t with ⟨o, t1⟩
  rw [hr] at hl hk
  cases o with
  | some sel => exact hl
  | none =>
    simp only []
    cases hg : get_mapping_by_ext_port t1 ((min + start) % 65536) ifindex with
    | none => exact hl
    | some p =>
      rw [others_kill t1 p ifindex
        (addr_interface t1 _ ifindex p (addr_nodup_sublist t t1 hk hn) hg)]
      exact hl

theorem others_find_port (t : Table) (net : Registry) (rnd op : Nat) (ifindex : Int)
    (range : nf_nat_ipv4_range) (r : Nat × Table) (hn : addr_nodup t)
    (h : find_appropriate_port t net rnd op ifindex range = some r) :
    other_interfaces r.2 ifindex = other_interfaces t ifindex := by
  unfold find_appropriate_port at h
  simp only [] at h
  split at h
  · split at h
    · exact absurd h (by simp)
    · obtain rfl := Option.some.inj h
      exact others_scan _ _ _ _ _ _ hn
  · split at h
    · cases hg : get_mapping_by_ext_port t op ifindex with
      | none =>
        rw [hg] at h
        obtain rfl := Option.some.inj h
        rfl
      | some p =>
        rw [hg] at h
        simp only [] at h
        have hc := others_check t p net ifindex (addr_interface t _ ifindex p hn hg)
        have hk := keys_check t (some p) net
        rcases hr : check_mapping t (some p) net with ⟨b, t1⟩
        rw [hr] at hc hk h
        cases b with
        | false =>
          obtain rfl := Option.some.inj h
          exact hc
        | true =>
          obtain rfl := Option.some.inj h
          exact (others_scan _ _ _ _ _ _ (addr_nodup_sublist t t1 hk hn)).trans hc
    · obtain rfl := Option.some.inj h
      exact others_scan _ _ _ _ _ _ hn

theorem loop_candidate (net : Registry) (min start size : Nat) (ifindex : Int)
    (todo : Nat) (i : Nat) (t t1 : Table) (sel : Nat)
    (h : find_appropriate_port_loop net min start size ifindex todo i t = (some sel, t1)) :
    ∃ j, sel = (min + (start + j) % size) % 65536 := by
  induction todo generalizing i t with
  | zero => simp [find_appropriate_port_loop] at h
  | succ n ih =>
    simp only [find_appropriate_port_loop] at h
    cases hg : get_mapping_by_ext_port t ((min + (start + i) % size) % 65536) ifindex with
    | none =>
      rw [hg] at h
      simp only [Prod.mk.injEq, Option.some.injEq] at h
      exact ⟨i, h.1.symm⟩
    | some a =>
      rw [hg] at h
      simp only [] at h
      rcases hr : check_mapping t (some a) net with ⟨b, t2⟩
      rw [hr] at h
      cases b with
      | false =>
        simp only [Prod.mk.injEq, Option.some.injEq] at h
        exact ⟨i, h.1.symm⟩
      | true => exact ih (i + 1) t2 h

theorem scan_in_range (t : Table) (net : Registry) (min start size : Nat) (ifindex : Int)
    (hb : min + size ≤ 65536) (hm : min < 65536) (hst : start < size ∨ start = 0) :
    min ≤ (find_appropriate_port_scan t net min start size ifindex).1 ∧
    (find_appropriate_port_scan t net min start size ifindex).1 ≤ min + (size - 1) := by
  unfold find_appropriate_port_scan
  rcases hr : find_appropriate_port_loop net min start size ifindex size 0 t with ⟨o, t1⟩
  cases o with
  | some sel =>
    simp only []
    have hpos : 0 < size := by
      cases size with
      | zero => simp [find_appropriate_port_loop] at hr
      | succ n => omega
    obtain ⟨j, rfl⟩ := loop_candidate net min start size ifindex size 0 t t1 sel hr
    have hlt : (start + j) % size < size := Nat.mod_lt _ hpos
    rw [Nat.mod_eq_of_lt (show min + (start + j) % size < 65536 by omega)]
    omega
  | none =>
    simp only []
    rcases hst with h | h
    · rw [Nat.mod_eq_of_lt (show min + start < 65536 by omega)]
      omega
    · rw [h, Nat.add_zero, Nat.mod_eq_of_lt hm]
      omega

theorem find_port_in_range (t : Table) (net : Registry) (rnd op : Nat) (ifindex : Int)
    (range : nf_nat_ipv4_range) (r : Nat × Table)
    (hs : range.flags &&& NF_NAT_RANGE_PROTO_SPECIFIED ≠ 0)
    (h1 : range.min ≤ range.max) (h2 : range.max < 65536)
    (h : find_appropriate_port t net rnd op ifindex range = some r) :
    range.min ≤ r.1 ∧ r.1 ≤ range.max := by
  have hw := range_size_wrap range hs h1
  have hmin := range_min_specified range hs
  have hb : range_min range + range_size range ≤ 65536 := by
    rw [hw, hmin]
    omega
  have hm : range_min range < 65536 := by
    rw [hmin]
    omega
  have htop : range_min range + (range_size range - 1) ≤ range.max := by
    rw [hw, hmin]
    omega
  have hscan : ∀ t0 start, (start < range_size range ∨ start = 0) →
      range.min ≤ (find_appropriate_port_scan t0 net (range_min range) start
        (range_size range) ifindex).1 ∧
      (find_appropriate_port_scan t0 net (range_min range) start
        (range_size range) ifindex).1 ≤ range.max := by
    intro t0 start hst
    have := scan_in_range t0 net (range_min range) start (range_size range) ifindex hb hm hst
    have hge : range.min ≤ range_min range := by rw [hmin]
    exact ⟨by omega, by omega⟩
  unfold find_appropriate_port at h
  simp only [] at h
  split at h
  · split at h
    · exact absurd h (by simp)
    · rename_i hz
      obtain rfl := Option.some.inj h
      refine hscan t _ (Or.inl ?_)
      have hlt : rnd % range_size range < range_size range := Nat.mod_lt _ (by omega)
      rw [Nat.mod_eq_of_lt (show rnd % range_size range < 65536 by omega)]
      exact hlt
  · split at h
    · rename_i hin
      have hop : range.min ≤ op ∧ op ≤ range.max := by
        rcases hin with hin | hin
        · rw [hmin] at hin htop
          omega
        · exact absurd hs hin
      cases hg : get_mapping_by_ext_port t op ifindex with
      | none =>
        rw [hg] at h
        obtain rfl := Option.some.inj h
        exact hop
      | some p =>
        rw [hg] at h
        simp only [] at h
        rcases hr : check_mapping t (some p) net with ⟨b, t1⟩
        rw [hr] at h
        cases b with
        | false =>
          obtain rfl := Option.some.inj h
          exact hop
        | true =>
          obtain rfl := Option.some.inj h
          exact hscan t1 0 (Or.inr rfl)
    · obtain rfl := Option.some.inj h
      exact hscan t 0 (Or.inr rfl)

/-- C23, with the failing range. The port allocator stays in its range and on its
interface: for every explicit range `[min,max]` with `min <= max <= 65535`, every table,
registry, original port and random draw, `find_appropriate_port` returns a port unless the
range is `[0,65535]` with a random flag, where it divides by zero and returns nothing;
every port it returns satisfies `min <= port <= max`, and in a table whose live mappings
have distinct addresses every mapping whose ifindex differs from the requested ifindex is
left in the table unchanged, in its place. -/
theorem port_in_range_own_interface (t : Table) (net : Registry) (rnd op : Nat)
    (ifindex : Int) (range : nf_nat_ipv4_range)
    (hs : range.flags &&& NF_NAT_RANGE_PROTO_SPECIFIED ≠ 0)
    (h1 : range.min ≤ range.max) (h2 : range.max < 65536) :
    (¬ ((range.flags &&& NF_NAT_RANGE_PROTO_RANDOM ≠ 0
          ∨ range.flags &&& NF_NAT_RANGE_PROTO_RANDOM_FULLY ≠ 0)
        ∧ range.min = 0 ∧ range.max = 65535) →
      ∃ r, find_appropriate_port t net rnd op ifindex range = some r) ∧
    ((range.flags &&& NF_NAT_RANGE_PROTO_RANDOM ≠ 0
          ∨ range.flags &&& NF_NAT_RANGE_PROTO_RANDOM_FULLY ≠ 0)
        ∧ range.min = 0 ∧ range.max = 65535 →
      find_appropriate_port t net rnd op ifindex range = none) ∧
    ∀ r, find_appropriate_port t net rnd op ifindex range = some r →
      range.min ≤ r.1 ∧ r.1 ≤ range.max ∧
      (addr_nodup t →
        other_interfaces r.2 ifindex = other_interfaces t ifindex ∧
        ∀ m, m.ifindex ≠ ifindex → (m ∈ r.2 ↔ m ∈ t)) := by
  have hw := range_size_wrap range hs h1
  refine ⟨?_, ?_, ?_⟩
  · intro hne
    apply find_port_some
    intro hr
    rw [hw]
    have : ¬ (range.min = 0 ∧ range.max = 65535) := fun h => hne ⟨hr, h⟩
    omega
  · rintro ⟨hr, hmin, hmax⟩
    have hz : range_size range = 0 := by
      rw [hw, hmin, hmax]
    simp only [find_appropriate_port, hr, if_true, hz]
  · intro r h
    obtain ⟨ha, hb⟩ := find_port_in_range t net rnd op ifindex range r hs h1 h2 h
    refine ⟨ha, hb, fun hn => ?_⟩
    have ho := others_find_port t net rnd op ifindex range r hn h
    refine ⟨ho, fun m hm => ?_⟩
    have hmem : ∀ t0 : Table, m ∈ other_interfaces t0 ifindex ↔ m ∈ t0 := by
      intro t0
      simp only [other_interfaces, List.mem_filter, decide_eq_true_eq, hm, ne_eq,
        not_false_eq_true, and_true]
    rw [← hmem r.2, ← hmem t, ho]

theorem port_in_range_own_interface_witness :
    addr_nodup two_interfaces_table ∧
    find_appropriate_port two_interfaces_table (fun _ => true) 0 2000 2 one_port_range =
      some (2000, [⟨2, 2000, 3, 167772163, 6000, 1, [flow_a]⟩]) ∧
    one_port_range.min ≤ 2000 ∧ 2000 ≤ one_port_range.max ∧
    other_interfaces [⟨2, 2000, 3, 167772163, 6000, 1, [flow_a]⟩] 2 =
      other_interfaces two_interfaces_table 2 ∧
    random_full_range.min ≤ random_full_range.max ∧ random_full_range.max < 65536 ∧
    range_size random_full_range = 0 ∧
    find_appropriate_port [] (fun _ => true) 7 5000 2 random_full_range = none ∧
    fullconenat_tg [] sample_out_random sample_env = none :=
  ⟨by unfold addr_nodup; decide, by decide, by decide, by decide,
    (((port_in_range_own_interface two_interfaces_table (fun _ => true) 0 2000 2
      one_port_range (by decide) (by decide) (by decide)).2.2
      (2000, [⟨2, 2000, 3, 167772163, 6000, 1, [flow_a]⟩]) (by decide)).2.2
      (by unfold addr_nodup; decide)).1,
    by decide, by decide, by decide,
    (port_in_range_own_interface [] (fun _ => true) 7 5000 2 random_full_range (by decide)
      (by decide) (by decide)).2.1 ⟨Or.inl (by decide), rfl, rfl⟩,
    rfl⟩

end FullConeNat
